import Mathlib

/-!
Shallow embedding of the BRHC docx-to-blocks import scripts
(`dlbImportBRHCFinal.py` and `dlbDocxImport.py`) together with theorems
settling the specification claims about them.

Conventions:
* Python strings are Lean `String`s; the character-level helpers work on
  `String.data` (a `List Char`) so that everything reduces in the kernel.
* Python `None`-able values are `Option`s.
* The SQLite tables touched by one import run are modelled as in-memory
  lists carried in the import state; the transaction (commit / rollback)
  is modelled by `Except`: an error result leaves the persisted store
  untouched.
-/

namespace BRHC

/-! ## Character and string helpers (Python semantics) -/

/-- Python whitespace for `str.strip` and the regex class `\s`. -/
def isPySpace (c : Char) : Bool :=
  c = ' ' || c = '\t' || c = '\n' || c = '\r' || c = '\x0b' || c = '\x0c'

def isAsciiLetter (c : Char) : Bool :=
  ('A' ≤ c && c ≤ 'Z') || ('a' ≤ c && c ≤ 'z')

def isAsciiDigit (c : Char) : Bool :=
  '0' ≤ c && c ≤ '9'

/-- Word character for the regex boundary `\b` (ASCII fragment). -/
def isWordChar (c : Char) : Bool :=
  isAsciiLetter c || isAsciiDigit c || c = '_'

def toLowerAscii (c : Char) : Char :=
  if 'A' ≤ c && c ≤ 'Z' then Char.ofNat (c.toNat + 32) else c

def stripChars (l : List Char) : List Char :=
  ((l.dropWhile isPySpace).reverse.dropWhile isPySpace).reverse

/-- Python `str.strip()` (no argument: strips whitespace). -/
def pyStrip (s : String) : String := ⟨stripChars s.data⟩

/-- Python `str.startswith(pre)`. -/
def pyStartsWith (s pre : String) : Bool := pre.data.isPrefixOf s.data

/-- Index of the first occurrence of `c`, if any (Python `str.index`). -/
def findChar (l : List Char) (c : Char) : Option Nat :=
  match l with
  | [] => none
  | x :: xs => if x = c then some 0 else (findChar xs c).map (· + 1)

/-- Index of the first occurrence of `needle` as a substring (Python `str.find`). -/
def findSub (hay needle : List Char) : Option Nat :=
  if needle.isPrefixOf hay then some 0
  else
    match hay with
    | [] => none
    | _ :: xs => (findSub xs needle).map (· + 1)

def containsSub (hay needle : List Char) : Bool := (findSub hay needle).isSome

def concatStrings (l : List String) : String := ⟨(l.map String.data).flatten⟩

/-- Python `"\n".join(lines)`. -/
def joinNL (l : List String) : String :=
  match l with
  | [] => ""
  | [x] => x
  | x :: xs => x ++ "\n" ++ joinNL xs

def natOfDigits (ds : List Char) : Nat :=
  ds.foldl (fun n d => n * 10 + (d.toNat - 48)) 0

/-- Case-insensitive match of the literal keyword `kw` (given lowercase) as a
prefix of `cs`; returns the rest on success. -/
def dropKeywordCI (kw : List Char) (cs : List Char) : Option (List Char) :=
  match kw, cs with
  | [], rest => some rest
  | _ :: _, [] => none
  | k :: ks, c :: cs' => if toLowerAscii c = k then dropKeywordCI ks cs' else none

/-! ## The chapter-heading regex

`CHAPTER_RE = re.compile(r"^(?:\[Ch\]\s*)?Chapter\s+(\d+)", re.IGNORECASE)`,
used with `re.match` (anchored at the start).  Returns the captured number. -/

def matchChapterCore (cs : List Char) : Option Nat :=
  match dropKeywordCI "chapter".data cs with
  | none => none
  | some rest =>
    let sp := rest.takeWhile isPySpace
    if sp = [] then none
    else
      let rest2 := rest.dropWhile isPySpace
      let ds := rest2.takeWhile isAsciiDigit
      if ds = [] then none else some (natOfDigits ds)

def matchChapter (cs : List Char) : Option Nat :=
  match cs with
  | '[' :: c1 :: c2 :: ']' :: rest =>
    if toLowerAscii c1 = 'c' && toLowerAscii c2 = 'h' then
      matchChapterCore (rest.dropWhile isPySpace)
    else matchChapterCore cs
  | _ => matchChapterCore cs

/-! ## dlbDocxImport.py: styled runs and the Markup Serializer -/

/-- `SimpleRun` from `dlbDocxImport.py` (lines 118-124). -/
structure SimpleRun where
  text : String
  bold : Bool
  italic : Bool
  isBlue : Bool
deriving DecidableEq

def concatTexts (runs : List SimpleRun) : String :=
  ⟨(runs.map (fun r => r.text.data)).flatten⟩

/-- Internal state of `_runs_to_markup` (output pieces, markup flag, and the
currently open bold/italic tags; `none` means no tags decided yet). -/
structure MarkupSt where
  output : List String
  hasMarkup : Bool
  curBold : Option Bool
  curItalic : Option Bool
deriving DecidableEq

/-- `close_tags` in `_runs_to_markup` (lines 81-88). -/
def closeTags (st : MarkupSt) : MarkupSt :=
  { output := st.output
      ++ (if st.curItalic = some true then ["</em>"] else [])
      ++ (if st.curBold = some true then ["</strong>"] else [])
    hasMarkup := st.hasMarkup
    curBold := none
    curItalic := none }

/-- `open_tags` in `_runs_to_markup` (lines 90-99). -/
def openTags (st : MarkupSt) (bold italic : Bool) : MarkupSt :=
  { output := st.output
      ++ (if bold then ["<strong>"] else [])
      ++ (if italic then ["<em>"] else [])
    hasMarkup := st.hasMarkup || bold || italic
    curBold := some bold
    curItalic := some italic }

/-- One iteration of the run loop in `_runs_to_markup` (lines 101-112). -/
def markupStep (st : MarkupSt) (r : SimpleRun) : MarkupSt :=
  if r.text = "" then st
  else
    let st' :=
      if st.curBold = none && st.curItalic = none then openTags st r.bold r.italic
      else if some r.bold ≠ st.curBold ∨ some r.italic ≠ st.curItalic then
        openTags (closeTags st) r.bold r.italic
      else st
    { st' with output := st'.output ++ [r.text] }

/-- The list of literal pieces (tags and texts) built by `_runs_to_markup`
before the final join. -/
def markupPieces (runs : List SimpleRun) : List String :=
  (closeTags (runs.foldl markupStep ⟨[], false, none, none⟩)).output

/-- `_runs_to_markup` from `dlbDocxImport.py` (lines 75-115): returns the
joined markup string and the `has_markup` flag. -/
def runsToMarkup (runs : List SimpleRun) : String × Bool :=
  let st := closeTags (runs.foldl markupStep ⟨[], false, none, none⟩)
  (concatStrings st.output, st.hasMarkup)

/-! ## dlbDocxImport.py: the `[N]`-marker splitter -/

/-- The cursor walk of `_split_runs_on_marker` (lines 133-165): split the run
list at absolute character offset `idx`.  (`r.text.length` is the character
count, Python `len(text)`.) -/
def splitRunsGo (idx : Nat) (cursor : Nat) :
    List SimpleRun → List SimpleRun × List SimpleRun
  | [] => ([], [])
  | r :: rest =>
    if r.text = "" then splitRunsGo idx cursor rest
    else if idx ≥ cursor + r.text.length then
      (r :: (splitRunsGo idx (cursor + r.text.length) rest).1,
       (splitRunsGo idx (cursor + r.text.length) rest).2)
    else if idx ≤ cursor then
      ((splitRunsGo idx (cursor + r.text.length) rest).1,
       r :: (splitRunsGo idx (cursor + r.text.length) rest).2)
    else
      ((if (⟨r.text.data.take (idx - cursor)⟩ : String) ≠ "" then
          [⟨⟨r.text.data.take (idx - cursor)⟩, r.bold, r.italic, r.isBlue⟩] else [])
         ++ (splitRunsGo idx (cursor + r.text.length) rest).1,
       (if (⟨r.text.data.drop (idx - cursor)⟩ : String) ≠ "" then
          [⟨⟨r.text.data.drop (idx - cursor)⟩, r.bold, r.italic, r.isBlue⟩] else [])
         ++ (splitRunsGo idx (cursor + r.text.length) rest).2)

/-- `_split_runs_on_marker` from `dlbDocxImport.py` (lines 126-166). -/
def splitRunsOnMarker (runs : List SimpleRun) (marker : String) :
    List (List SimpleRun) :=
  let total := concatTexts runs
  match findSub total.data marker.data with
  | none => [runs]
  | some idx =>
    if marker.data.isPrefixOf (stripChars total.data) then [runs]
    else
      let (before, after) := splitRunsGo idx 0 runs
      if after ≠ [] then [before, after] else [before]

/-! ## dlbDocxImport.py: title/scripture-reference detection

`SCRIPTURE_REF_RE = re.compile(r"\b[A-Za-z][A-Za-z\.]+\s+\d+[:\.]\d")` used
with `re.search`; the character classes of consecutive pieces are disjoint,
so maximal munch is exact. -/

/-- Does the scripture pattern match starting at the head of `cs`?  (The `\b`
boundary is checked by the caller.) -/
def scripAt (cs : List Char) : Bool :=
  match cs with
  | [] => false
  | c :: rest =>
    isAsciiLetter c &&
    (let cls := rest.takeWhile (fun d => isAsciiLetter d || d = '.')
     let rest1 := rest.dropWhile (fun d => isAsciiLetter d || d = '.')
     cls ≠ [] &&
     (let sp := rest1.takeWhile isPySpace
      let rest2 := rest1.dropWhile isPySpace
      sp ≠ [] &&
      (let ds := rest2.takeWhile isAsciiDigit
       let rest3 := rest2.dropWhile isAsciiDigit
       ds ≠ [] &&
       match rest3 with
       | p :: d :: _ => (p = ':' || p = '.') && isAsciiDigit d
       | _ => false)))

/-- `re.search` for `SCRIPTURE_REF_RE`: some start position (preceded by a
non-word character or the string start) matches. -/
def scriptureSearchAux (prev : Option Char) : List Char → Bool
  | [] => false
  | c :: rest =>
    ((match prev with
      | none => true
      | some p => ¬isWordChar p) && scripAt (c :: rest))
    || scriptureSearchAux (some c) rest

def looksLikeScripture (s : String) : Bool := scriptureSearchAux none s.data

/-- `re.search` for `DOT_LEADER_RE = re.compile(r"\.{2,}")`: start and
(exclusive) end of the leftmost maximal run of two-or-more dots. -/
def findDotLeader (cs : List Char) : Option (Nat × Nat) :=
  match cs with
  | [] => none
  | c :: rest =>
    if c = '.' && (rest.headD ' ' = '.') then
      some (0, 1 + (rest.takeWhile (· = '.')).length)
    else
      (findDotLeader rest).map (fun p => (p.1 + 1, p.2 + 1))

/-- `_find_title_reference_span` from `dlbDocxImport.py` (lines 215-231):
returns `(left, right, span_start, span_end)`. -/
def findTitleRefSpan (text : String) : Option (String × String × Nat × Nat) :=
  let cs := text.data
  let tabBranch : Option (String × String × Nat × Nat) :=
    match findChar cs '\t' with
    | none => none
    | some idx =>
      let left := pyStrip ⟨cs.take idx⟩
      let right := pyStrip ⟨cs.drop (idx + 1)⟩
      if left ≠ "" && right ≠ "" && looksLikeScripture right then
        some (left, right, idx, idx + 1)
      else none
  match tabBranch with
  | some r => some r
  | none =>
    match findDotLeader cs with
    | none => none
    | some (s, e) =>
      let left := pyStrip ⟨cs.take s⟩
      let right := pyStrip ⟨cs.drop e⟩
      if left ≠ "" && right ≠ "" && looksLikeScripture right then
        some (left, right, s, e)
      else none

/-- `_split_runs_by_span` from `dlbDocxImport.py` (lines 234-272). -/
def splitRunsBySpanGo (start e cursor : Nat) :
    List SimpleRun → List SimpleRun × List SimpleRun
  | [] => ([], [])
  | r :: rest =>
    if r.text = "" then splitRunsBySpanGo start e cursor rest
    else
      let runEnd := cursor + r.text.data.length
      if runEnd ≤ start then
        let (l, ri) := splitRunsBySpanGo start e runEnd rest
        (r :: l, ri)
      else if cursor ≥ e then
        let (l, ri) := splitRunsBySpanGo start e runEnd rest
        (l, r :: ri)
      else
        let beforeLen := start - cursor
        let afterLen := runEnd - e
        let (l, ri) := splitRunsBySpanGo start e runEnd rest
        ((if beforeLen > 0 then
            [⟨⟨r.text.data.take beforeLen⟩, r.bold, r.italic, r.isBlue⟩]
          else []) ++ l,
         (if afterLen > 0 then
            [⟨⟨r.text.data.drop (r.text.data.length - afterLen)⟩,
              r.bold, r.italic, r.isBlue⟩]
          else []) ++ ri)

def splitRunsBySpan (runs : List SimpleRun) (start e : Nat) :
    List SimpleRun × List SimpleRun :=
  splitRunsBySpanGo start e 0 runs

/-- `_strip_marker_prefix_runs` from `dlbDocxImport.py` (lines 169-212). -/
def stripMarkerPrefixGo (start e cursor : Nat) :
    List SimpleRun → List SimpleRun
  | [] => []
  | r :: rest =>
    if r.text = "" then stripMarkerPrefixGo start e cursor rest
    else
      let nc := cursor + r.text.data.length
      if nc ≤ start || cursor ≥ e then
        r :: stripMarkerPrefixGo start e nc rest
      else
        (if cursor < start then
          (let beforeText : String := ⟨r.text.data.take (start - cursor)⟩
           if beforeText ≠ "" then [⟨beforeText, r.bold, r.italic, r.isBlue⟩]
           else [])
         else []) ++
        (if nc > e then
          (let afterText : String := ⟨r.text.data.drop (e - cursor)⟩
           if afterText ≠ "" then [⟨afterText, r.bold, r.italic, r.isBlue⟩]
           else [])
         else []) ++
        stripMarkerPrefixGo start e nc rest

def stripMarkerPrefixRuns (runs : List SimpleRun) (marker : String) :
    List SimpleRun :=
  let total := concatTexts runs
  let stripped := total.data.dropWhile isPySpace
  if ¬ marker.data.isPrefixOf stripped then runs
  else
    let offset := total.data.length - stripped.length
    stripMarkerPrefixGo offset (offset + marker.data.length) 0 runs

/-- `_note_heading` from `dlbDocxImport.py` (lines 374-376): non-letters
removed, nonempty, and equal to its own uppercasing. -/
def noteHeading (text : String) : Bool :=
  let letters := text.data.filter isAsciiLetter
  letters ≠ [] && letters.all (fun c => 'A' ≤ c && c ≤ 'Z')

/-! ## dlbDocxImport.py: inline `[Pic: name]` tags

`PIC_TAG_RE = re.compile(r"\[Pic:\s*([^\]]+?)\s*\]", re.IGNORECASE)`:
a match runs from `[` to the first following `]`, with at least one
character (of any kind) between the colon and that `]`; the captured group
is that inner text with surrounding whitespace trimmed. -/

/-- Fuel-indexed scanner for `PIC_TAG_RE` matches; the fuel only bounds the
recursion and is started at the list length. -/
def picScanAux : Nat → List Char → List (Nat × Nat × String)
  | 0, _ => []
  | _ + 1, [] => []
  | fuel + 1, c :: rest =>
    if "[pic:".data.isPrefixOf ((c :: rest).map toLowerAscii) then
      let afterColon := rest.drop 4
      match findChar afterColon ']' with
      | none => []
      | some j =>
        if j = 0 then
          (picScanAux fuel rest).map (fun m => (m.1 + 1, m.2.1 + 1, m.2.2))
        else
          (0, 5 + j + 1, pyStrip ⟨afterColon.take j⟩) ::
            (picScanAux fuel (afterColon.drop (j + 1))).map
              (fun m => (m.1 + 5 + j + 1, m.2.1 + 5 + j + 1, m.2.2))
    else
      (picScanAux fuel rest).map (fun m => (m.1 + 1, m.2.1 + 1, m.2.2))

/-- All matches of `PIC_TAG_RE` in `cs` as `(start, endExclusive, group)`,
scanning left to right without overlap (like `re.finditer`). -/
def picScan (cs : List Char) : List (Nat × Nat × String) :=
  picScanAux cs.length cs

/-- Remove the matched spans (Python `PIC_TAG_RE.sub("", raw_text)`). -/
def removeSpans (cs : List Char) (spans : List (Nat × Nat)) : List Char :=
  (cs.enum.filter
    (fun p => ¬ spans.any (fun sp => sp.1 ≤ p.1 && p.1 < sp.2))).map (·.2)

/-! ## dlbDocxImport.py: the live-import state machine (`_run_import`) -/

/-- Python `str.replace(old, new, 1)`: replace the first occurrence only. -/
def replaceFirst (s old new : String) : String :=
  match findSub s.data old.data with
  | none => s
  | some i => ⟨s.data.take i ++ new.data ++ s.data.drop (i + old.data.length)⟩

/-- Structured stand-in for the `json.dumps` payloads stored in
`table_json`: either table rows or a `{"left", "right"}` object. -/
inductive PayloadD
  | rows : List (List String) → PayloadD
  | titleRef : String → String → PayloadD
deriving DecidableEq, Repr

/-- A `doc_blocks` row as inserted by `dlbDocxImport.py` (`image_blob_id` is
always NULL there and is omitted). -/
structure DocBlockD where
  blockId : Nat
  sectionTitle : Option String
  chapterTitle : Option String
  blockOrder : Nat
  blockType : String
  rawText : String
  normalizedText : String
  tableJson : Option PayloadD
deriving DecidableEq, Repr

/-- A `d_questions` row (`_insert_question` in both scripts). -/
structure QuestionRow where
  blockId : Nat
  questionNumber : Nat
  questionText : String
  sectionTitle : Option String
  chapterTitle : Option String
deriving DecidableEq, Repr

/-- A `questions` summary row (`_insert_question_row` in both scripts;
`content_type` is always `"question"` and `answer_text` always NULL). -/
structure QuestionSummaryRow where
  sectionTitle : Option String
  chapterTitle : Option String
  chapterNumber : Option Nat
  questionNumber : Nat
  questionText : String
deriving DecidableEq, Repr

/-- The mutable locals of `_run_import` (lines 399-434). -/
structure StD where
  imageFilenames : List String
  sectionOrder : Nat
  chapterOrder : Nat
  curSectionTitle : Option String
  curSectionId : Option Nat
  curChapterTitle : Option String
  curChapterNum : Option Nat
  blockOrder : Nat
  questionCounter : Nat
  blockId : Nat
  introActive : Bool
  aggType : Option String
  aggLines : List String
  aggMarkup : List String
  aggHasMarkup : Bool
  curMode : Option String
  curBuffer : List SimpleRun
  curHasText : Bool
  noteActive : Bool
  noteLines : List String
  noteMarkup : List String
  noteHasMarkup : Bool
  blocks : List DocBlockD
  questions : List QuestionRow
  questionSummaries : List QuestionSummaryRow
  sections : List (Nat × String × Nat)
  chapters : List (Option Nat × String × Nat)
  anomalies : List String
  missingPics : List String
deriving DecidableEq

def initStD (imageFilenames : List String) : StD :=
  { imageFilenames := imageFilenames
    sectionOrder := 0, chapterOrder := 0
    curSectionTitle := none, curSectionId := none
    curChapterTitle := none, curChapterNum := none
    blockOrder := 0, questionCounter := 0, blockId := 1
    introActive := true
    aggType := none, aggLines := [], aggMarkup := [], aggHasMarkup := false
    curMode := none, curBuffer := [], curHasText := false
    noteActive := false, noteLines := [], noteMarkup := [], noteHasMarkup := false
    blocks := [], questions := [], questionSummaries := []
    sections := [], chapters := []
    anomalies := [], missingPics := [] }

/-- `allocate_block_id` (lines 435-439) combined with `_insert_doc_block`:
bump `block_order`, take the next sequential id, and append the row.  The
caller passes the titles the insert uses. -/
def emitD (s : StD) (sec ch : Option String) (btype raw norm : String)
    (tj : Option PayloadD) : StD × Nat :=
  let bo := s.blockOrder + 1
  let tid := s.blockId
  ({ s with
      blockOrder := bo
      blockId := s.blockId + 1
      blocks := s.blocks ++ [⟨tid, sec, ch, bo, btype, raw, norm, tj⟩] },
   tid)

/-- `_insert_image_block` (lines 444-459). -/
def insertImageBlockD (s : StD) (filename : String) : StD :=
  let token := "[Pic: " ++ filename ++ "]"
  (emitD s s.curSectionTitle s.curChapterTitle "image" token token none).1

/-- `flush_note` (lines 461-491). -/
def flushNoteD (s : StD) : StD :=
  if ¬ s.noteActive ∨ s.noteLines = [] then
    { s with noteActive := false, noteLines := [], noteMarkup := [],
             noteHasMarkup := false }
  else
    let raw := pyStrip (joinNL s.noteLines)
    let norm := if s.noteHasMarkup then pyStrip (joinNL s.noteMarkup) else raw
    let s' := (emitD s s.curSectionTitle s.curChapterTitle "note" raw norm none).1
    { s' with noteActive := false, noteLines := [], noteMarkup := [],
              noteHasMarkup := false }

/-- `flush_aggregate` (lines 493-536). -/
def flushAggregateD (s : StD) : StD :=
  match s.aggType with
  | none =>
    { s with aggType := none, aggLines := [], aggMarkup := [], aggHasMarkup := false }
  | some t =>
    if s.aggLines = [] then
      { s with aggType := none, aggLines := [], aggMarkup := [], aggHasMarkup := false }
    else
      let raw := pyStrip (joinNL s.aggLines)
      let norm := if s.aggHasMarkup then pyStrip (joinNL s.aggMarkup) else raw
      let tj : Option PayloadD :=
        if t = "table" then
          some (.rows (s.aggLines.map (fun l => (l.data.splitOn '\t').map (⟨·⟩))))
        else none
      let s' := (emitD s s.curSectionTitle s.curChapterTitle t raw norm tj).1
      { s' with aggType := none, aggLines := [], aggMarkup := [], aggHasMarkup := false }

/-- `flush_qa_block` (lines 538-586). -/
def flushQAD (s : StD) : StD :=
  match s.curMode with
  | none => { s with curMode := none, curBuffer := [], curHasText := false }
  | some mode =>
    if s.curBuffer = [] then
      { s with curMode := none, curBuffer := [], curHasText := false }
    else
      let raw := pyStrip (concatTexts s.curBuffer)
      let mk := runsToMarkup s.curBuffer
      let btype := if mode = "question" then "question" else "answer"
      let norm := if mk.2 then mk.1 else raw
      let (s', tid) := emitD s s.curSectionTitle s.curChapterTitle btype raw norm none
      let s'' :=
        if btype = "question" then
          { s' with
              questionCounter := s'.questionCounter + 1
              questions := s'.questions ++
                [⟨tid, s'.questionCounter + 1, raw, s'.curSectionTitle, s'.curChapterTitle⟩]
              questionSummaries := s'.questionSummaries ++
                [⟨s'.curSectionTitle, s'.curChapterTitle, s'.curChapterNum,
                  s'.questionCounter + 1, raw⟩] }
        else s'
      { s'' with curMode := none, curBuffer := [], curHasText := false }

/-- `start_mode` (lines 588-595). -/
def startModeD (s : StD) (mode : String) : StD :=
  match s.curMode with
  | none => { s with curMode := some mode }
  | some m =>
    if m ≠ mode then { (flushQAD s) with curMode := some mode } else s

/-- Body of the `for segment in segments` loop of `_run_import`
(lines 619-891). -/
def processSegmentD (s : StD) (segment : List SimpleRun) : StD :=
  let raw0 := concatTexts segment
  let spans := picScan raw0.data
  let s :=
    spans.foldl
      (fun s m =>
        let filename := m.2.2
        if filename ≠ "" then
          let s := insertImageBlockD s filename
          if (⟨filename.data.map toLowerAscii⟩ : String) ∉ s.imageFilenames then
            { s with missingPics := s.missingPics ++ [filename] }
          else s
        else s)
      s
  let raw : String := ⟨removeSpans raw0.data (spans.map (fun m => (m.1, m.2.1)))⟩
  let stripped := pyStrip raw
  -- aggregate continuation / boundary (lines 632-648)
  let aggStep : StD × Bool :=
    match s.aggType with
    | some _ =>
      let boundary :=
        pyStartsWith stripped "[S]" || pyStartsWith stripped "[Ch]" ||
        pyStartsWith stripped "[N]" || pyStartsWith stripped "[R]" ||
        pyStartsWith stripped "[T]" || (matchChapter stripped.data).isSome
      if boundary then (flushAggregateD s, false)
      else
        let mk := runsToMarkup segment
        ({ s with
            aggLines := s.aggLines ++ [raw]
            aggMarkup := s.aggMarkup ++ [mk.1]
            aggHasMarkup := s.aggHasMarkup || mk.2 }, true)
    | none => (s, false)
  let s := aggStep.1
  if aggStep.2 then s
  else
    -- note continuation / boundary (lines 650-668)
    let noteStep : StD × Bool :=
      if s.noteActive then
        let boundary :=
          pyStartsWith stripped "[S]" || pyStartsWith stripped "[Ch]" ||
          pyStartsWith stripped "[N]" || pyStartsWith stripped "[P]" ||
          pyStartsWith stripped "[R]" || pyStartsWith stripped "[T]" ||
          (matchChapter stripped.data).isSome || segment.any (·.isBlue)
        if boundary then (flushNoteD s, false)
        else
          let mk := runsToMarkup segment
          ({ s with
              noteLines := s.noteLines ++ [raw]
              noteMarkup := s.noteMarkup ++ [mk.1]
              noteHasMarkup := s.noteHasMarkup || mk.2 }, true)
      else (s, false)
    let s := noteStep.1
    if noteStep.2 then s
    else if stripped = "" then
      -- blank segment (lines 670-675)
      if s.curMode ≠ none ∧ s.curHasText then
        { s with curBuffer := s.curBuffer ++ [⟨"\n", false, false, false⟩] }
      else s
    else
      match matchChapter stripped.data with
      | some n =>
        -- chapter heading (lines 686-716)
        let s := flushQAD (flushAggregateD (flushNoteD s))
        let content := pyStrip (replaceFirst stripped "[Ch]" "")
        let s :=
          { s with
              curChapterNum := some n
              curChapterTitle := some content
              questionCounter := 0
              blockOrder := 0
              chapterOrder := s.chapterOrder + 1
              introActive := false
              chapters := s.chapters ++ [(s.curSectionId, content, s.chapterOrder + 1)] }
        (emitD s s.curSectionTitle (some content) "chapter" content content none).1
      | none =>
        if pyStartsWith stripped "[S]" then
          -- section marker (lines 718-745)
          let s := flushQAD (flushAggregateD (flushNoteD s))
          let content := pyStrip (replaceFirst stripped "[S]" "")
          let sid := s.sections.length + 1
          let s :=
            { s with
                curSectionTitle := some content
                sectionOrder := s.sectionOrder + 1
                sections := s.sections ++ [(sid, content, s.sectionOrder + 1)]
                curSectionId := some sid }
          let s := (emitD s (some content) none "section" content content none).1
          { s with introActive := false }
        else if s.introActive ∧ pyStartsWith stripped "[I]" then
          -- tagged intro (lines 747-771)
          let s := flushQAD (flushNoteD s)
          let introRuns := stripMarkerPrefixRuns segment "[I]"
          let content := pyStrip (concatTexts introRuns)
          if content = "" then s
          else
            let mk := runsToMarkup introRuns
            let btype := if noteHeading content then "intro_heading" else "intro_paragraph"
            (emitD s none none btype content (if mk.2 then mk.1 else content) none).1
        else if s.introActive ∧ s.curSectionTitle = none ∧ s.curChapterTitle = none then
          -- untagged lead-in prose (lines 773-796)
          let s := flushQAD (flushNoteD s)
          let content := pyStrip raw
          if content = "" then s
          else
            let mk := runsToMarkup segment
            let btype := if noteHeading content then "intro_heading" else "intro_paragraph"
            (emitD s none none btype content (if mk.2 then mk.1 else content) none).1
        else if s.curChapterTitle = none then
          -- orphan content before any chapter (lines 798-803)
          if segment.any (·.isBlue) then
            { s with anomalies := s.anomalies ++
                ["Orphan blue question before chapter: " ++ ⟨stripped.data.take 80⟩] }
          else s
        else if pyStartsWith stripped "[P]" then
          let s := flushQAD (flushNoteD s)
          let content := pyStrip (replaceFirst stripped "[P]" "")
          let mk := runsToMarkup segment
          { s with aggType := some "poetry", aggLines := [content],
                   aggMarkup := [mk.1], aggHasMarkup := mk.2 }
        else if pyStartsWith stripped "[R]" then
          let s := flushQAD (flushNoteD s)
          let content := pyStrip (replaceFirst stripped "[R]" "")
          let mk := runsToMarkup segment
          { s with aggType := some "responsive", aggLines := [content],
                   aggMarkup := [mk.1], aggHasMarkup := mk.2 }
        else if pyStartsWith stripped "[T]" then
          let s := flushQAD (flushNoteD s)
          let content := pyStrip (replaceFirst stripped "[T]" "")
          { s with aggType := some "table", aggLines := [content],
                   aggMarkup := [], aggHasMarkup := false }
        else if pyStartsWith stripped "[N]" then
          -- note opener (lines 837-844)
          let s := flushQAD s
          let mk := runsToMarkup segment
          { s with noteActive := true, noteLines := [pyStrip raw],
                   noteMarkup := [mk.1], noteHasMarkup := mk.2 }
        else
          match findTitleRefSpan raw with
          | some (l, r, spanStart, spanEnd) =>
            -- title/scripture reference (lines 846-872)
            let s := flushQAD (flushNoteD s)
            let lr := splitRunsBySpan segment spanStart spanEnd
            let lmk := runsToMarkup lr.1
            let rmk := runsToMarkup lr.2
            let lv := if lmk.2 then lmk.1 else l
            let rv := if rmk.2 then rmk.1 else r
            (emitD s s.curSectionTitle s.curChapterTitle "title_ref"
              (l ++ "\n" ++ r) (lv ++ "\n" ++ rv) (some (.titleRef l r))).1
          | none =>
            -- question/answer buffering (lines 874-891)
            let runs := segment.filter (·.text ≠ "")
            let s :=
              match runs with
              | [] => s
              | r0 :: _ =>
                let s := flushNoteD s
                let firstMode := if r0.isBlue then "question" else "answer"
                if s.curMode ≠ none ∧ s.curHasText then
                  if s.curMode = some firstMode then
                    { s with curBuffer := s.curBuffer ++ [⟨"\n", false, false, false⟩] }
                  else flushQAD s
                else s
            runs.foldl
              (fun s r =>
                let mode := if r.isBlue then "question" else "answer"
                let s := startModeD s mode
                { s with curBuffer := s.curBuffer ++ [r], curHasText := true })
              s

/-- Body of the paragraph loop of `_run_import` (lines 597-891): split on the
embedded `[N]` marker and dispatch each segment.  A paragraph is given as its
normalized `SimpleRun` list (`base_runs`). -/
def processParaD (s : StD) (baseRuns : List SimpleRun) : StD :=
  (splitRunsOnMarker baseRuns "[N]").foldl processSegmentD s

/-- `_run_import` over a whole document (paragraph loop plus the final
flushes, lines 893-895). -/
def runD (doc : List (List SimpleRun)) (imageFilenames : List String) : StD :=
  flushNoteD (flushQAD (flushAggregateD (doc.foldl processParaD (initStD imageFilenames))))

/-! ## dlbImportBRHCFinal.py: HTML helpers -/

/-- `_escape_html` (lines 36-42): the four chained replaces are equivalent to
this character-wise map because no replacement text contains a character that
an earlier replace in the chain targets unreplaced. -/
def escapeHtml (s : String) : String :=
  ⟨(s.data.map (fun c =>
      if c = '&' then "&amp;".data
      else if c = '<' then "&lt;".data
      else if c = '>' then "&gt;".data
      else if c = '"' then "&quot;".data
      else [c])).flatten⟩

def maxL : List Nat → Nat
  | [] => 0
  | x :: xs => max x (maxL xs)

/-- `_render_table` from `dlbImportBRHCFinal.py` (lines 45-61). -/
def renderTable (lines : List String) : String :=
  let pre := "<pre>" ++ escapeHtml (joinNL lines) ++ "</pre>"
  if lines.any (fun l => ¬ (l.data.contains '|' || l.data.contains '\t')) then pre
  else
    let rows := lines.map (fun l =>
      if l.data.contains '|' then (l.data.splitOn '|').map (fun c => (⟨c⟩ : String))
      else (l.data.splitOn '\t').map (fun c => (⟨c⟩ : String)))
    let colCount := maxL (rows.map List.length)
    if rows.any (fun r => r.length ≠ colCount) then pre
    else
      "<table>" ++
        concatStrings (rows.map (fun r =>
          "<tr>" ++
            concatStrings (r.map (fun c => "<td>" ++ escapeHtml c ++ "</td>")) ++
          "</tr>")) ++
      "</table>"

/-! ## dlbImportBRHCFinal.py: the Block-Identity Reconciler -/

/-- A previously persisted image-owning `doc_blocks` row as loaded by
`_load_image_blocks` (lines 64-94).  `table_json` and `image_blob_id` are
omitted: they take part in no comparison here, and rows are distinguished by
their (unique) `block_id`. -/
structure ImageBlock where
  blockId : Nat
  sectionTitle : Option String
  chapterTitle : Option String
  blockOrder : Nat
  blockType : String
  rawText : Option String
deriving DecidableEq, Repr

/-- The grouping key `(block_type, raw_text, section_title, chapter_title)`
of `_load_image_blocks` and `allocate_block_id`. -/
abbrev BKey := String × Option String × Option String × Option String

def ImageBlock.key (b : ImageBlock) : BKey :=
  (b.blockType, b.rawText, b.sectionTitle, b.chapterTitle)

def alookup {α β : Type} [DecidableEq α] : List (α × β) → α → Option β
  | [], _ => none
  | (k, v) :: rest, key => if k = key then some v else alookup rest key

/-- Replace the value stored at `key` (no-op when the key is absent). -/
def aupdate {α β : Type} [DecidableEq α] : List (α × β) → α → β → List (α × β)
  | [], _, _ => []
  | (k, v) :: rest, key, newv =>
    if k = key then (k, newv) :: rest else (k, v) :: aupdate rest key newv

/-- `image_blocks.setdefault(key, []).append(block)` over a whole list,
preserving dict insertion order (the fetch order of the rows). -/
def insMapEntry (m : List (BKey × List ImageBlock)) (b : ImageBlock) :
    List (BKey × List ImageBlock) :=
  match alookup m b.key with
  | some l => aupdate m b.key (l ++ [b])
  | none => m ++ [(b.key, [b])]

def buildMap (blocks : List ImageBlock) : List (BKey × List ImageBlock) :=
  blocks.foldl insMapEntry []

/-- One step of the `image_blocks_by_chapter` grouping:
`by_chapter.setdefault(chapter_title, []).append(block)`. -/
def insChapEntry (ch : List (Option String × List ImageBlock)) (b : ImageBlock) :
    List (Option String × List ImageBlock) :=
  match alookup ch b.chapterTitle with
  | some l => aupdate ch b.chapterTitle (l ++ [b])
  | none => ch ++ [(b.chapterTitle, [b])]

/-- `image_blocks_by_chapter` (lines 260-264): built by iterating the values
of the key-grouped map in insertion order. -/
def buildByChapter (m : List (BKey × List ImageBlock)) :
    List (Option String × List ImageBlock) :=
  ((m.map (·.2)).flatten).foldl insChapEntry []

/-- The reconciler's mutable data: the key-grouped map, the per-chapter
pools, `used_block_ids` and `next_block_id`. -/
structure ReconState where
  imageMap : List (BKey × List ImageBlock)
  byChapter : List (Option String × List ImageBlock)
  used : List Nat
  nextId : Nat
deriving DecidableEq

def initRecon (m0 : List ImageBlock) (maxId : Nat) : ReconState :=
  ⟨buildMap m0, buildByChapter (buildMap m0), [], maxId + 1⟩

/-- The `while candidates:` loop of `allocate_block_id` (lines 305-313):
pop entries until an unused one is found; returns it (if any) and what is
left of the candidate list. -/
def popCand (used : List Nat) : List ImageBlock → Option ImageBlock × List ImageBlock
  | [] => (none, [])
  | b :: rest => if used.contains b.blockId then popCand used rest else (some b, rest)

/-- Python `list.remove`: drop the first element equal to `b`. -/
def removeFirstIB : List ImageBlock → ImageBlock → List ImageBlock
  | [], _ => []
  | x :: rest, b => if x = b then rest else x :: removeFirstIB rest b

/-- `min(pool, key=lambda b: abs(b.block_order - v))`: the first element of
the pool attaining the minimal distance. -/
def pickClosest1 (v : Nat) (b : ImageBlock) : List ImageBlock → ImageBlock
  | [] => b
  | c :: rest =>
    let best := pickClosest1 v c rest
    if Nat.dist b.blockOrder v ≤ Nat.dist best.blockOrder v then b else best

/-- `blocks = [b for b in image_blocks_by_chapter[...] if b.block_id not in
used_block_ids]` (lines 315-319). -/
def unusedBlocks (used : List Nat) (chList : List ImageBlock) : List ImageBlock :=
  chList.filter (fun b => !(used.contains b.blockId))

/-- `pool = same_type if same_type else blocks` (lines 321-322). -/
def proximityPool (btype : String) (blocks : List ImageBlock) : List ImageBlock :=
  if blocks.filter (fun b => b.blockType = btype) = [] then blocks
  else blocks.filter (fun b => b.blockType = btype)

/-- The chapter-proximity stage of `allocate_block_id` (lines 314-331),
falling back to a fresh identifier (lines 332-334). -/
def allocateFromChapter (r : ReconState) (btype : String) (curCh : Option String)
    (v : Nat) : Nat × ReconState × Option String :=
  match alookup r.byChapter curCh with
  | none => (r.nextId, { r with nextId := r.nextId + 1 }, none)
  | some chList =>
    if unusedBlocks r.used chList = [] then
      (r.nextId, { r with nextId := r.nextId + 1 }, none)
    else
      match proximityPool btype (unusedBlocks r.used chList) with
      | [] => (r.nextId, { r with nextId := r.nextId + 1 }, none)
        -- unreachable: the pool is nonempty
      | p0 :: ps =>
        ((pickClosest1 v p0 ps).blockId,
         ⟨r.imageMap,
          aupdate r.byChapter curCh (removeFirstIB chList (pickClosest1 v p0 ps)),
          (pickClosest1 v p0 ps).blockId :: r.used, r.nextId⟩,
         some ("Reassigned image block_id=" ++ toString (pickClosest1 v p0 ps).blockId ++
               " to " ++ btype ++ " near order " ++ toString v))

/-- `allocate_block_id` from `dlbImportBRHCFinal.py` (lines 299-334).
Returns the identifier, the updated reconciler state and the anomaly entry
(if a proximity reassignment happened). -/
def allocate (r : ReconState) (btype raw : String)
    (curSec curCh : Option String) (v : Nat) : Nat × ReconState × Option String :=
  match alookup r.imageMap ((btype, some raw, curSec, curCh) : BKey) with
  | some (c :: cs) =>
    (match popCand r.used (c :: cs) with
     | (some b, rest) =>
       (b.blockId,
        ⟨aupdate r.imageMap ((btype, some raw, curSec, curCh) : BKey) rest,
         (match alookup r.byChapter b.chapterTitle with
          | some l =>
            if b ∈ l then aupdate r.byChapter b.chapterTitle (removeFirstIB l b)
            else r.byChapter
          | none => r.byChapter),
         b.blockId :: r.used, r.nextId⟩,
        none)
     | (none, _) =>
       -- the while loop consumed every candidate: the key now maps to []
       allocateFromChapter
         ⟨aupdate r.imageMap ((btype, some raw, curSec, curCh) : BKey) [],
          r.byChapter, r.used, r.nextId⟩
         btype curCh v)
  | _ => allocateFromChapter r btype curCh v

/-! ## dlbImportBRHCFinal.py: the import state machine (`main`) -/

/-- A text run of the final-import script: only the text, the bold flag
(used by the intro branch) and blueness (`_is_blue`) are consulted. -/
structure RunF where
  text : String
  bold : Bool
  isBlue : Bool
deriving DecidableEq, Repr

/-- A paragraph; `para.text` is the concatenation of its runs' texts. -/
abbrev ParaF := List RunF

def paraText (p : ParaF) : String := ⟨(p.map (fun r => r.text.data)).flatten⟩

/-- A `doc_blocks` row as inserted by `dlbImportBRHCFinal.py`
(`table_json` and `image_blob_id` are never set there). -/
structure DocBlockF where
  blockId : Nat
  sectionTitle : Option String
  chapterTitle : Option String
  blockOrder : Nat
  blockType : String
  rawText : String
  normalizedText : String
deriving DecidableEq, Repr

/-- The mutable locals of `main` (lines 271-297), plus the rows inserted so
far and an `aborted` flag modelling a raised `RuntimeError` (after which no
further paragraph is processed and the transaction is rolled back). -/
structure StF where
  recon : ReconState
  sectionOrder : Nat
  chapterOrder : Nat
  curSectionTitle : Option String
  curSectionId : Option Nat
  curChapterTitle : Option String
  curChapterNum : Option Nat
  blockOrder : Nat
  questionCounter : Nat
  introActive : Bool
  aggType : Option String
  aggLines : List String
  curMode : Option String
  curBuffer : List String
  curHasText : Bool
  blocks : List DocBlockF
  questions : List QuestionRow
  questionSummaries : List QuestionSummaryRow
  sections : List (Nat × String × Nat)
  chapters : List (Option Nat × String × Nat)
  anomalies : List String
  aborted : Option String
deriving DecidableEq

def initStF (m0 : List ImageBlock) (maxId : Nat) : StF :=
  { recon := initRecon m0 maxId
    sectionOrder := 0, chapterOrder := 0
    curSectionTitle := none, curSectionId := none
    curChapterTitle := none, curChapterNum := none
    blockOrder := 0, questionCounter := 0
    introActive := true
    aggType := none, aggLines := []
    curMode := none, curBuffer := [], curHasText := false
    blocks := [], questions := [], questionSummaries := []
    sections := [], chapters := []
    anomalies := [], aborted := none }

/-- A `block_order += 1` / `allocate_block_id` / `_insert_doc_block` triple.
`allocType` is the type string passed to `allocate_block_id`, `rowType` the
one stored in the row (they differ only in the intro branch). -/
def emitF (s : StF) (allocType rowType raw norm : String) : StF × Nat :=
  let bo := s.blockOrder + 1
  let a := allocate s.recon allocType raw s.curSectionTitle s.curChapterTitle bo
  ({ s with
      blockOrder := bo
      recon := a.2.1
      anomalies := s.anomalies ++ a.2.2.toList
      blocks := s.blocks ++
        [⟨a.1, s.curSectionTitle, s.curChapterTitle, bo, rowType, raw, norm⟩] },
   a.1)

/-- `flush_aggregate` (lines 336-366). -/
def flushAggregateF (s : StF) : StF :=
  match s.aggType with
  | none => { s with aggType := none, aggLines := [] }
  | some t =>
    if s.aggLines = [] then { s with aggType := none, aggLines := [] }
    else
      let raw := joinNL s.aggLines
      let payload := if t = "table" then renderTable s.aggLines else raw
      let s' := (emitF s t t raw payload).1
      { s' with aggType := none, aggLines := [] }

/-- `flush_qa_block` (lines 368-413). -/
def flushQAF (s : StF) : StF :=
  match s.curMode with
  | none => { s with curMode := none, curBuffer := [], curHasText := false }
  | some mode =>
    if s.curBuffer = [] then
      { s with curMode := none, curBuffer := [], curHasText := false }
    else
      let text := concatStrings s.curBuffer
      let btype := if mode = "question" then "question" else "answer"
      let (s', tid) := emitF s btype btype text text
      let s'' :=
        if mode = "question" then
          { s' with
              questionCounter := s'.questionCounter + 1
              questions := s'.questions ++
                [⟨tid, s'.questionCounter + 1, text, s'.curSectionTitle,
                  s'.curChapterTitle⟩]
              questionSummaries := s'.questionSummaries ++
                [⟨s'.curSectionTitle, s'.curChapterTitle, s'.curChapterNum,
                  s'.questionCounter + 1, text⟩] }
        else s'
      { s'' with curMode := none, curBuffer := [], curHasText := false }

/-- `start_mode` (lines 415-422). -/
def startModeF (s : StF) (mode : String) : StF :=
  match s.curMode with
  | none => { s with curMode := some mode }
  | some m =>
    if m ≠ mode then { (flushQAF s) with curMode := some mode } else s

def KNOWN_MARKERS : List String := ["[I]", "[S]", "[Ch]", "[N]", "[P]", "[R]", "[T]"]

/-- The marker prefix `stripped[: stripped.index("]") + 1]` when `stripped`
starts with `[` and contains `]`. -/
def bracketMarker (stripped : String) : Option String :=
  if pyStartsWith stripped "[" then
    match findChar stripped.data ']' with
    | some j => some ⟨stripped.data.take (j + 1)⟩
    | none => none
  else none

/-- The dispatch on a paragraph once past the aggregate / blank / marker
gates (lines 454-579 of `main`). -/
def dispatchF (s : StF) (p : ParaF) (raw stripped : String) : StF :=
  match matchChapter stripped.data with
  | some n =>
    -- chapter heading (lines 454-478)
    let s := flushQAF (flushAggregateF s)
    let s :=
      { s with
          curChapterNum := some n
          curChapterTitle := some stripped
          questionCounter := 0
          blockOrder := 0
          chapterOrder := s.chapterOrder + 1
          introActive := false
          chapters := s.chapters ++ [(s.curSectionId, stripped, s.chapterOrder + 1)] }
    (emitF s "chapter" "chapter" raw raw).1
  | none =>
    if pyStartsWith stripped "[S]" then
      -- section marker (lines 480-500)
      let s := flushQAF (flushAggregateF s)
      let sid := s.sections.length + 1
      let s :=
        { s with
            curSectionTitle := some stripped
            sectionOrder := s.sectionOrder + 1
            sections := s.sections ++ [(sid, stripped, s.sectionOrder + 1)]
            curSectionId := some sid }
      let s := (emitF s "section" "section" raw raw).1
      { s with introActive := false }
    else if s.introActive then
      -- intro mode (lines 502-523): non-[I] paragraphs are skipped
      if pyStartsWith stripped "[I]" then
        let s := flushQAF s
        let allBold := (p.filter (fun r => pyStrip r.text ≠ "")).all (·.bold)
        let content :=
          if allBold then "<strong>" ++ escapeHtml raw ++ "</strong>" else raw
        let btype := if allBold then "intro_heading" else "intro_paragraph"
        (emitF s "intro" btype raw content).1
      else s
    else if s.curChapterTitle = none then
      -- orphan content before any chapter (lines 525-528)
      if p.any (·.isBlue) then
        { s with anomalies := s.anomalies ++
            ["Orphan blue question before chapter: " ++ ⟨stripped.data.take 80⟩] }
      else s
    else if pyStartsWith stripped "[P]" then
      let s := flushQAF s
      { s with aggType := some "poetry", aggLines := [raw] }
    else if pyStartsWith stripped "[R]" then
      let s := flushQAF s
      { s with aggType := some "responsive", aggLines := [raw] }
    else if pyStartsWith stripped "[T]" then
      let s := flushQAF s
      { s with aggType := some "table", aggLines := [raw] }
    else if pyStartsWith stripped "[N]" then
      -- note paragraph (lines 548-563)
      let s := flushQAF s
      (emitF s "note" "note" raw raw).1
    else
      -- question/answer buffering (lines 565-579)
      let runs := p.filter (fun r => r.text ≠ "")
      let s :=
        match runs with
        | [] => s
        | r0 :: _ =>
          let firstMode := if r0.isBlue then "question" else "answer"
          if s.curMode ≠ none ∧ s.curHasText then
            if s.curMode = some firstMode then
              { s with curBuffer := s.curBuffer ++ ["\n"] }
            else flushQAF s
          else s
      runs.foldl
        (fun s r =>
          let mode := if r.isBlue then "question" else "answer"
          let s := startModeF s mode
          { s with curBuffer := s.curBuffer ++ [r.text], curHasText := true })
        s

/-- Body of the paragraph loop of `main` (lines 424-579). -/
def stepParaF (s : StF) (p : ParaF) : StF :=
  if s.aborted.isSome then s
  else
    let raw := paraText p
    let stripped := pyStrip raw
    let aggStep : StF × Bool :=
      match s.aggType with
      | some _ =>
        let boundary :=
          pyStartsWith stripped "[S]" || pyStartsWith stripped "[Ch]" ||
          pyStartsWith stripped "[N]" || pyStartsWith stripped "[R]" ||
          pyStartsWith stripped "[T]" || (matchChapter stripped.data).isSome
        if boundary then (flushAggregateF s, false)
        else ({ s with aggLines := s.aggLines ++ [raw] }, true)
      | none => (s, false)
    let s := aggStep.1
    if aggStep.2 then s
    else if stripped = "" then
      -- blank paragraph (lines 443-446)
      if s.curMode ≠ none ∧ s.curHasText then
        { s with curBuffer := s.curBuffer ++ ["\n"] }
      else s
    else
      match bracketMarker stripped with
      | some marker =>
        if marker ∉ KNOWN_MARKERS then
          -- strict mode: rollback and raise (lines 448-452)
          { s with aborted := some ("Unknown structural marker: " ++ marker) }
        else dispatchF s p raw stripped
      | none => dispatchF s p raw stripped

/-- The paragraph loop plus the final flushes (lines 581-582); as in the
script, an abort skips the final flushes. -/
def traceF (doc : List ParaF) (m0 : List ImageBlock) (maxId : Nat) : StF :=
  let s := doc.foldl stepParaF (initStF m0 maxId)
  if s.aborted.isSome then s else flushQAF (flushAggregateF s)

def minL : List Nat → Nat
  | [] => 0
  | x :: xs => xs.foldl min x

/-- `_validate` (lines 209-244): the three structural checks run against the
rows inserted by this run. -/
def validateF (s : StF) : List String :=
  let issue1 :=
    (s.chapters.filter (fun c =>
      match c.1 with
      | none => false
      | some sid => !(s.sections.map (·.1)).contains sid)) ≠ []
  let issue2 :=
    (s.blocks.filter (fun b => b.chapterTitle = none ∧
      b.blockType ∉ (["intro_heading", "intro_paragraph", "section"] : List String))) ≠ []
  let issue3 :=
    let titles := (s.questions.map (·.chapterTitle)).dedup
    titles.any (fun t =>
      let nums := (s.questions.filter (fun q => q.chapterTitle = t)).map (·.questionNumber)
      nums.length ≠ maxL nums ∨ minL nums ≠ 1)
  (if issue1 then ["Orphan chapters detected."] else []) ++
  (if issue2 then ["Orphan blocks detected (missing chapter_title)."] else []) ++
  (if issue3 then ["Question numbering not sequential per chapter."] else [])

/-- `image_block_ids` (line 261): the distinct identifiers of the loaded
image-owning blocks. -/
def imageIdsOf (m0 : List ImageBlock) : List Nat := (m0.map (·.blockId)).dedup

/-- `image_block_ids - used_block_ids` (line 583). -/
def missingImageIds (m0 : List ImageBlock) (used : List Nat) : List Nat :=
  (imageIdsOf m0).filter (fun i => !used.contains i)

/-- The whole run of `main` against loaded image blocks `m0` and the
pre-existing maximum identifier: an `error` models `RuntimeError` plus
rollback (lines 448-452, 583-594). -/
def runResultF (doc : List ParaF) (m0 : List ImageBlock) (maxId : Nat) :
    Except String StF :=
  let s := traceF doc m0 maxId
  match s.aborted with
  | some e => .error e
  | none =>
    if missingImageIds m0 s.recon.used ≠ [] then
      .error "Unmatched image blocks; aborting to preserve references."
    else if validateF s ≠ [] then .error "Validation failed."
    else .ok s

/-! ## dlbImportBRHCFinal.py: the persisted store

`doc_blocks` plus the identifiers recorded in `brhc_image_block_map` (which
`_delete_content_tables` does not touch).  The list order of `docBlocks`
models the database fetch order. -/

structure Store where
  docBlocks : List DocBlockF
  imageIds : List Nat
deriving DecidableEq

/-- `_load_image_blocks` (lines 64-94): the `doc_blocks` rows whose id the
image map references, in fetch order. -/
def loadImageBlocks (st : Store) : List ImageBlock :=
  st.docBlocks.filterMap (fun b =>
    if st.imageIds.contains b.blockId then
      some ⟨b.blockId, b.sectionTitle, b.chapterTitle, b.blockOrder,
            b.blockType, some b.rawText⟩
    else none)

/-- `SELECT COALESCE(MAX(block_id), 0) FROM doc_blocks` (lines 97-99). -/
def maxBlockId (l : List DocBlockF) : Nat := l.foldl (fun m b => max m b.blockId) 0

/-- One full import run against a store: on success the content tables are
replaced by the new rows (the image map is untouched); an error is a
rollback. -/
def runImport (doc : List ParaF) (st : Store) : Except String Store :=
  (runResultF doc (loadImageBlocks st) (maxBlockId st.docBlocks)).map
    (fun s => ⟨s.blocks, st.imageIds⟩)

/-- What is durably persisted after running the import: the new store on
commit, the untouched original on rollback. -/
def persistedAfter (doc : List ParaF) (st : Store) : Store :=
  match runImport doc st with
  | .ok st' => st'
  | .error _ => st

/-! # Claims

## C7 — the Markup Serializer -/

/-- The run list follows the exact bold parity sequence starting at `b`
(adjacent runs alternate bold / non-bold). -/
def altBoldB : Bool → List SimpleRun → Bool
  | _, [] => true
  | b, r :: rest => (r.bold == b) && altBoldB (!b) rest

/-- A serializer state with no styling recorded: either nothing opened yet or
plain tags opened. -/
def plainSt (st : MarkupSt) : Prop :=
  (st.curBold = none ∧ st.curItalic = none) ∨
  (st.curBold = some false ∧ st.curItalic = some false)

theorem foldl_markupStep_plain (runs : List SimpleRun) : ∀ st : MarkupSt,
    (∀ r ∈ runs, r.bold = false ∧ r.italic = false) → plainSt st →
    (runs.foldl markupStep st).output
        = st.output ++ (runs.filter (fun r => r.text ≠ "")).map (·.text) ∧
    (runs.foldl markupStep st).hasMarkup = st.hasMarkup ∧
    plainSt (runs.foldl markupStep st) := by
  induction runs with
  | nil => intro st _ hst; exact ⟨by simp, rfl, hst⟩
  | cons r rest ih =>
    intro st hall hst
    have hr := hall r (by simp)
    by_cases ht : r.text = ""
    · have hstep : markupStep st r = st := by simp [markupStep, ht]
      have := ih st (fun x hx => hall x (by simp [hx])) hst
      rw [List.foldl_cons, hstep]
      refine ⟨?_, this.2.1, this.2.2⟩
      rw [this.1]; simp [ht]
    · have hstep : markupStep st r =
          { st with
              output := st.output ++ [r.text]
              curBold := some false
              curItalic := some false } := by
        rcases hst with ⟨h1, h2⟩ | ⟨h1, h2⟩ <;>
          simp [markupStep, ht, h1, h2, openTags, hr.1, hr.2]
      have hplain : plainSt (markupStep st r) := by rw [hstep]; right; exact ⟨rfl, rfl⟩
      have := ih (markupStep st r) (fun x hx => hall x (by simp [hx])) hplain
      rw [List.foldl_cons]
      refine ⟨?_, ?_, this.2.2⟩
      · rw [this.1, hstep]; simp [ht]
      · rw [this.2.1, hstep]

theorem flatten_filter_texts (runs : List SimpleRun) :
    (((runs.filter (fun r => r.text ≠ "")).map (·.text)).map String.data).flatten
      = (runs.map (fun r => r.text.data)).flatten := by
  induction runs with
  | nil => rfl
  | cons r rest ih =>
    simp only [List.map_map, ne_eq, decide_not] at ih
    by_cases ht : r.text = ""
    · simp [List.filter_cons, ht, List.map_map, ih]
    · simp [List.filter_cons, ht, List.map_map, ih]

theorem concatStrings_map_filter_texts (runs : List SimpleRun) :
    concatStrings ((runs.filter (fun r => r.text ≠ "")).map (·.text))
      = concatTexts runs :=
  congrArg String.mk (flatten_filter_texts runs)

theorem foldl_markupStep_alt (runs : List SimpleRun) : ∀ (b : Bool) (st : MarkupSt),
    altBoldB b runs = true →
    (∀ r ∈ runs, r.italic = false ∧ r.text ≠ "" ∧ r.text ≠ "<strong>") →
    st.curBold = some (!b) → st.curItalic = some false →
    (runs.foldl markupStep st).output.count "<strong>"
        = st.output.count "<strong>" + (runs.filter (·.bold)).length ∧
    (runs.foldl markupStep st).curItalic = some false ∧
    ∃ b', (runs.foldl markupStep st).curBold = some b' := by
  induction runs with
  | nil => intro b st _ _ h1 h2; exact ⟨by simp, h2, _, h1⟩
  | cons r rest ih =>
    intro b st halt hside h1 h2
    have hb : r.bold = b := by
      have := halt; simp [altBoldB] at this; exact this.1
    have hrest : altBoldB (!b) rest = true := by
      have := halt; simp [altBoldB] at this; exact this.2
    have hr := hside r (by simp)
    have hstep : markupStep st r =
        { st with
            output := st.output
              ++ (if st.curBold = some true then ["</strong>"] else [])
              ++ (if b then ["<strong>"] else []) ++ [r.text]
            hasMarkup := st.hasMarkup || b
            curBold := some b
            curItalic := some false } := by
      have hne : some r.bold ≠ st.curBold := by
        rw [h1, hb]; simp
      simp only [markupStep, if_neg hr.2.1]
      rw [if_neg (by rw [h1]; simp), if_pos (Or.inl hne)]
      simp [openTags, closeTags, h1, h2, hb, hr.1]
    have := ih (!b) (markupStep st r)
      hrest (fun x hx => hside x (by simp [hx]))
      (by rw [hstep]; simp) (by rw [hstep])
    rw [List.foldl_cons]
    refine ⟨?_, this.2.1, this.2.2⟩
    rw [this.1, hstep]
    simp only [List.count_append, List.filter_cons]
    have hcnt1 : List.count "<strong>" (if st.curBold = some true then ["</strong>"] else [])
        = 0 := by split <;> simp [List.count_cons]
    have hcnt2 : List.count "<strong>" [r.text] = 0 := by
      rw [List.count_eq_zero]
      intro hmem
      exact hr.2.2 (List.mem_singleton.mp hmem).symm
    have hcnt3 : List.count "<strong>" (if b then ["<strong>"] else [])
        = if b then 1 else 0 := by split <;> simp
    simp only [hcnt1, hcnt2, hcnt3, hb]
    cases b <;> simp <;> omega

theorem markupPieces_alt_count (runs : List SimpleRun) (b : Bool)
    (halt : altBoldB b runs = true)
    (hside : ∀ r ∈ runs, r.italic = false ∧ r.text ≠ "" ∧ r.text ≠ "<strong>") :
    (markupPieces runs).count "<strong>" = (runs.filter (·.bold)).length := by
  cases runs with
  | nil => rfl
  | cons r rest =>
    have hb : r.bold = b := by
      have := halt; simp [altBoldB] at this; exact this.1
    have hrest : altBoldB (!b) rest = true := by
      have := halt; simp [altBoldB] at this; exact this.2
    have hr := hside r (by simp)
    have hstep : markupStep ⟨[], false, none, none⟩ r =
        { output := (if b then ["<strong>"] else []) ++ [r.text]
          hasMarkup := false || b || false
          curBold := some b
          curItalic := some false } := by
      simp only [markupStep, if_neg hr.2.1]
      rw [if_pos (by simp)]
      simp [openTags, hb, hr.1]
    have := foldl_markupStep_alt rest (!b) (markupStep ⟨[], false, none, none⟩ r)
      hrest (fun x hx => hside x (by simp [hx]))
      (by rw [hstep]; simp) (by rw [hstep])
    unfold markupPieces
    rw [List.foldl_cons]
    have hclose : ∀ st : MarkupSt,
        (closeTags st).output.count "<strong>" = st.output.count "<strong>" := by
      intro st
      simp only [closeTags, List.count_append]
      have : List.count "<strong>" (if st.curItalic = some true then ["</em>"] else [])
          = 0 := by split <;> simp [List.count_cons]
      have h2 : List.count "<strong>" (if st.curBold = some true then ["</strong>"] else [])
          = 0 := by split <;> simp [List.count_cons]
      omega
    rw [hclose, this.1, hstep]
    simp only [List.count_append, List.filter_cons]
    have hcnt2 : List.count "<strong>" [r.text] = 0 := by
      rw [List.count_eq_zero]
      intro hmem
      exact hr.2.2 (List.mem_singleton.mp hmem).symm
    have hcnt3 : List.count "<strong>" (if b then ["<strong>"] else [])
        = if b then 1 else 0 := by split <;> simp
    simp only [hcnt2, hcnt3, hb]
    cases b <;> simp <;> omega

theorem altBoldB_two_mul_count (runs : List SimpleRun) : ∀ b : Bool,
    altBoldB b runs = true →
    2 * (runs.filter (·.bold)).length ≤ runs.length + (if b then 1 else 0) := by
  induction runs with
  | nil => intro b _; simp
  | cons r rest ih =>
    intro b halt
    have hb : r.bold = b := by
      have := halt; simp [altBoldB] at this; exact this.1
    have hrest := ih (!b) (by have := halt; simp [altBoldB] at this; exact this.2)
    simp only [List.filter_cons, hb, List.length_cons]
    cases b <;> simp at hrest ⊢ <;> omega

theorem foldl_markupStep_skip_empty (runs : List SimpleRun) : ∀ st : MarkupSt,
    runs.foldl markupStep st = (runs.filter (fun r => r.text ≠ "")).foldl markupStep st := by
  induction runs with
  | nil => intro st; rfl
  | cons r rest ih =>
    intro st
    by_cases ht : r.text = ""
    · have : markupStep st r = st := by simp [markupStep, ht]
      simp [List.filter_cons, ht, this, ih]
    · simp [List.filter_cons, ht, ih]

/-- C7, as stated, is false on two counts, witnessed here.  First: a single
bold run has no style changes, yet the serializer returns
`has_markup = true` and a tagged normalized text (the claim asserts
`hasMarkup = false` and plain concatenation for every no-style-change
sequence).  Second: four runs alternating bold / plain / bold / plain have
three style transitions but the emitted markup contains only two opening
`<strong>` tags, so the number of opening tags is not the number of style
transitions. -/
theorem c7_counterexample :
    runsToMarkup [⟨"a", true, false, false⟩] = ("<strong>a</strong>", true) ∧
    (markupPieces [⟨"a", true, false, false⟩, ⟨"b", false, false, false⟩,
        ⟨"c", true, false, false⟩, ⟨"d", false, false, false⟩]).count "<strong>" = 2 ∧
    (2 : Nat) ≠ 3 := by
  refine ⟨by decide, by decide, by decide⟩

/-- C7 amended: (1) for a run sequence with no style changes *and no styling
at all* (every run non-bold, non-italic) the serializer returns
`has_markup = false` and the plain concatenation of the texts; (2) for a
sequence alternating bold and non-bold on each run (no italics, no empty
texts, no text equal to the literal `"<strong>"`), the number of `<strong>`
opening tags equals the number of bold runs — i.e. the number of
plain-to-bold transitions counting a bold start — and is strictly less than
the run count whenever there are at least two runs; (3) empty-text runs are
skipped entirely: the serializer gives the same result as on the sequence
with the empty-text runs removed. -/
theorem c7_amended :
    (∀ runs : List SimpleRun, (∀ r ∈ runs, r.bold = false ∧ r.italic = false) →
      runsToMarkup runs = (concatTexts runs, false)) ∧
    (∀ (b : Bool) (runs : List SimpleRun), altBoldB b runs = true →
      (∀ r ∈ runs, r.italic = false ∧ r.text ≠ "" ∧ r.text ≠ "<strong>") →
      (markupPieces runs).count "<strong>" = (runs.filter (·.bold)).length ∧
      (2 ≤ runs.length → (markupPieces runs).count "<strong>" < runs.length)) ∧
    (∀ runs : List SimpleRun,
      runsToMarkup runs = runsToMarkup (runs.filter (fun r => r.text ≠ ""))) := by
  refine ⟨?_, ?_, ?_⟩
  · intro runs hall
    have h := foldl_markupStep_plain runs ⟨[], false, none, none⟩ hall (Or.inl ⟨rfl, rfl⟩)
    have hclose : closeTags (runs.foldl markupStep ⟨[], false, none, none⟩) =
        { output := (runs.foldl markupStep ⟨[], false, none, none⟩).output
          hasMarkup := (runs.foldl markupStep ⟨[], false, none, none⟩).hasMarkup
          curBold := none
          curItalic := none } := by
      rcases h.2.2 with ⟨h1, h2⟩ | ⟨h1, h2⟩ <;> simp [closeTags, h1, h2]
    unfold runsToMarkup
    rw [hclose]
    simp only [h.1, h.2.1]
    rw [show ([] : List String) ++ (runs.filter (fun r => r.text ≠ "")).map (·.text)
        = (runs.filter (fun r => r.text ≠ "")).map (·.text) from rfl]
    rw [concatStrings_map_filter_texts]
  · intro b runs halt hside
    have hcount := markupPieces_alt_count runs b halt hside
    refine ⟨hcount, ?_⟩
    intro hlen
    have hbound := altBoldB_two_mul_count runs b halt
    rw [hcount]
    cases b <;> simp at hbound <;> omega
  · intro runs
    unfold runsToMarkup
    rw [foldl_markupStep_skip_empty]

/-- Witness for `c7_amended` at concrete inputs: two plain runs (part 1), the
alternating four-run sequence (part 2), and a sequence with an interleaved
empty run (part 3). -/
theorem c7_amended_witness :
    runsToMarkup [⟨"x", false, false, false⟩, ⟨"y", false, false, false⟩]
        = ("xy", false) ∧
    (markupPieces [⟨"a", true, false, false⟩, ⟨"b", false, false, false⟩,
        ⟨"c", true, false, false⟩, ⟨"d", false, false, false⟩]).count "<strong>" = 2 ∧
    runsToMarkup [⟨"x", false, false, false⟩, ⟨"", true, true, false⟩]
        = runsToMarkup [⟨"x", false, false, false⟩] := by
  refine ⟨?_, ?_, ?_⟩
  · have h := c7_amended.1 [⟨"x", false, false, false⟩, ⟨"y", false, false, false⟩]
      (by decide)
    rw [h]; decide
  · have h := (c7_amended.2.1 true [⟨"a", true, false, false⟩, ⟨"b", false, false, false⟩,
        ⟨"c", true, false, false⟩, ⟨"d", false, false, false⟩] (by decide) (by decide)).1
    rw [h]; decide
  · have h := c7_amended.2.2 [⟨"x", false, false, false⟩, ⟨"", true, true, false⟩]
    rw [h]; decide

/-! ## C8 — the `[N]`-marker segmentation -/

theorem splitRunsGo_flags (idx : Nat) : ∀ (runs : List SimpleRun) (cursor : Nat)
    (r' : SimpleRun),
    (r' ∈ (splitRunsGo idx cursor runs).1 ∨ r' ∈ (splitRunsGo idx cursor runs).2) →
    ∃ r ∈ runs, r'.bold = r.bold ∧ r'.italic = r.italic ∧ r'.isBlue = r.isBlue := by
  intro runs
  induction runs with
  | nil => intro cursor r' h; simp [splitRunsGo] at h
  | cons r rest ih =>
    intro cursor r' h
    have hrec := ih (cursor + r.text.length) r'
    rw [show splitRunsGo idx cursor (r :: rest) =
        (if r.text = "" then splitRunsGo idx cursor rest
         else if idx ≥ cursor + r.text.length then
          (r :: (splitRunsGo idx (cursor + r.text.length) rest).1,
           (splitRunsGo idx (cursor + r.text.length) rest).2)
         else if idx ≤ cursor then
          ((splitRunsGo idx (cursor + r.text.length) rest).1,
           r :: (splitRunsGo idx (cursor + r.text.length) rest).2)
         else
          ((if (⟨r.text.data.take (idx - cursor)⟩ : String) ≠ "" then
              [⟨⟨r.text.data.take (idx - cursor)⟩, r.bold, r.italic, r.isBlue⟩] else [])
             ++ (splitRunsGo idx (cursor + r.text.length) rest).1,
           (if (⟨r.text.data.drop (idx - cursor)⟩ : String) ≠ "" then
              [⟨⟨r.text.data.drop (idx - cursor)⟩, r.bold, r.italic, r.isBlue⟩] else [])
             ++ (splitRunsGo idx (cursor + r.text.length) rest).2)) from rfl] at h
    by_cases ht : r.text = ""
    case pos =>
      rw [if_pos ht] at h
      obtain ⟨x, hx, hfl⟩ := ih cursor r' h
      exact ⟨x, by simp [hx], hfl⟩
    rw [if_neg ht] at h
    by_cases h1 : idx ≥ cursor + r.text.length
    case pos =>
      rw [if_pos h1] at h
      rcases h with hmem | hmem
      · rcases List.mem_cons.mp hmem with heq | hmem'
        · exact ⟨r, by simp, by simp [heq]⟩
        · obtain ⟨x, hx, hfl⟩ := hrec (Or.inl hmem')
          exact ⟨x, by simp [hx], hfl⟩
      · obtain ⟨x, hx, hfl⟩ := hrec (Or.inr hmem)
        exact ⟨x, by simp [hx], hfl⟩
    rw [if_neg h1] at h
    by_cases h2 : idx ≤ cursor
    case pos =>
      rw [if_pos h2] at h
      rcases h with hmem | hmem
      · obtain ⟨x, hx, hfl⟩ := hrec (Or.inl hmem)
        exact ⟨x, by simp [hx], hfl⟩
      · rcases List.mem_cons.mp hmem with heq | hmem'
        · exact ⟨r, by simp, by simp [heq]⟩
        · obtain ⟨x, hx, hfl⟩ := hrec (Or.inr hmem')
          exact ⟨x, by simp [hx], hfl⟩
    rw [if_neg h2] at h
    rcases h with hmem | hmem
    · rcases List.mem_append.mp hmem with hmem' | hmem'
      · have heq : r' = ⟨⟨r.text.data.take (idx - cursor)⟩, r.bold, r.italic, r.isBlue⟩ := by
          by_cases hne : (⟨r.text.data.take (idx - cursor)⟩ : String) ≠ ""
          · rw [if_pos hne] at hmem'; exact List.mem_singleton.mp hmem'
          · rw [if_neg hne] at hmem'; simp at hmem'
        exact ⟨r, by simp, by simp [heq]⟩
      · obtain ⟨x, hx, hfl⟩ := hrec (Or.inl hmem')
        exact ⟨x, by simp [hx], hfl⟩
    · rcases List.mem_append.mp hmem with hmem' | hmem'
      · have heq : r' = ⟨⟨r.text.data.drop (idx - cursor)⟩, r.bold, r.italic, r.isBlue⟩ := by
          by_cases hne : (⟨r.text.data.drop (idx - cursor)⟩ : String) ≠ ""
          · rw [if_pos hne] at hmem'; exact List.mem_singleton.mp hmem'
          · rw [if_neg hne] at hmem'; simp at hmem'
        exact ⟨r, by simp, by simp [heq]⟩
      · obtain ⟨x, hx, hfl⟩ := hrec (Or.inr hmem')
        exact ⟨x, by simp [hx], hfl⟩

/-- C8: (1) a single uniform-style run `"before text [N] after text"` splits
into exactly two segments, `"before text "` and `"[N] after text"`, the
second beginning at the marker; (2) if after trimming the concatenated text
starts with the marker, no split happens; (3) every produced run carries the
bold / italic / distinguished-color flags of a source run. -/
theorem c8_segmentation :
    (∀ b i bl : Bool,
      splitRunsOnMarker [⟨"before text [N] after text", b, i, bl⟩] "[N]" =
        [[⟨"before text ", b, i, bl⟩], [⟨"[N] after text", b, i, bl⟩]]) ∧
    (∀ (runs : List SimpleRun) (marker : String),
      marker.data.isPrefixOf (stripChars (concatTexts runs).data) = true →
      splitRunsOnMarker runs marker = [runs]) ∧
    (∀ (runs : List SimpleRun) (marker : String) (seg : List SimpleRun)
        (r' : SimpleRun), seg ∈ splitRunsOnMarker runs marker → r' ∈ seg →
      ∃ r ∈ runs, r'.bold = r.bold ∧ r'.italic = r.italic ∧ r'.isBlue = r.isBlue) := by
  refine ⟨?_, ?_, ?_⟩
  · intro b i bl; rfl
  · intro runs marker h
    show (match findSub (concatTexts runs).data marker.data with
      | none => [runs]
      | some idx =>
        if marker.data.isPrefixOf (stripChars (concatTexts runs).data) then [runs]
        else
          if (splitRunsGo idx 0 runs).2 ≠ [] then
            [(splitRunsGo idx 0 runs).1, (splitRunsGo idx 0 runs).2]
          else [(splitRunsGo idx 0 runs).1]) = [runs]
    cases hfind : findSub (concatTexts runs).data marker.data with
    | none => rfl
    | some idx => simp [h]
  · intro runs marker seg r' hseg hmem
    replace hseg : seg ∈ (match findSub (concatTexts runs).data marker.data with
      | none => [runs]
      | some idx =>
        if marker.data.isPrefixOf (stripChars (concatTexts runs).data) then [runs]
        else
          if (splitRunsGo idx 0 runs).2 ≠ [] then
            [(splitRunsGo idx 0 runs).1, (splitRunsGo idx 0 runs).2]
          else [(splitRunsGo idx 0 runs).1]) := hseg
    cases hfind : findSub (concatTexts runs).data marker.data with
    | none =>
      rw [hfind] at hseg
      simp only [List.mem_singleton] at hseg
      subst hseg
      exact ⟨r', hmem, rfl, rfl, rfl⟩
    | some idx =>
      rw [hfind] at hseg
      simp only [] at hseg
      have flags := splitRunsGo_flags idx runs 0 r'
      by_cases hpre : marker.data.isPrefixOf (stripChars (concatTexts runs).data)
      · rw [if_pos hpre] at hseg
        simp only [List.mem_singleton] at hseg
        subst hseg
        exact ⟨r', hmem, rfl, rfl, rfl⟩
      · rw [if_neg hpre] at hseg
        by_cases hA : (splitRunsGo idx 0 runs).2 ≠ []
        · rw [if_pos hA] at hseg
          simp only [List.mem_cons, List.mem_singleton, List.not_mem_nil,
            or_false] at hseg
          rcases hseg with h | h
          · exact flags (Or.inl (h ▸ hmem))
          · exact flags (Or.inr (h ▸ hmem))
        · rw [if_neg hA] at hseg
          simp only [List.mem_singleton] at hseg
          exact flags (Or.inl (hseg ▸ hmem))

/-- Witness for `c8_segmentation`: part 2 at a marker-initial run, part 3 at
the scenario input. -/
theorem c8_segmentation_witness :
    splitRunsOnMarker [⟨" [N] note text", true, false, false⟩] "[N]" =
      [[⟨" [N] note text", true, false, false⟩]] ∧
    (∃ r ∈ [(⟨"before text [N] after text", true, true, false⟩ : SimpleRun)],
      (true = r.bold ∧ true = r.italic ∧ false = r.isBlue)) := by
  constructor
  · exact c8_segmentation.2.1 [⟨" [N] note text", true, false, false⟩] "[N]" (by decide)
  · have h := c8_segmentation.2.2 [⟨"before text [N] after text", true, true, false⟩]
      "[N]" [⟨"before text ", true, true, false⟩] ⟨"before text ", true, true, false⟩
      (by rw [c8_segmentation.1 true true false]; simp) (by simp)
    obtain ⟨r, hr, h1, h2, h3⟩ := h
    exact ⟨r, hr, h1, h2, h3⟩

/-! ## C6 — the title/scripture-reference split -/

/-- C6, as stated, is false: on the input
`"The Creation\t.......Genesis 1:1"` the tab branch of
`_find_title_reference_span` fires first and only strips whitespace from the
right-hand side, so the dot leader stays in `right`; the resulting
`title_ref` payload is `{"left": "The Creation", "right":
".......Genesis 1:1"}`, not `{"left": "The Creation", "right":
"Genesis 1:1"}` as claimed, and the raw text keeps the dots too. -/
theorem c6_counterexample :
    findTitleRefSpan "The Creation\t.......Genesis 1:1"
        = some ("The Creation", ".......Genesis 1:1", 12, 13) ∧
    ((runD [[⟨"Chapter 1", false, false, false⟩],
        [⟨"The Creation\t.......Genesis 1:1", false, false, false⟩]] []).blocks.filter
          (fun b => b.blockType = "title_ref")).map (·.tableJson)
        = [some (.titleRef "The Creation" ".......Genesis 1:1")] ∧
    (".......Genesis 1:1" : String) ≠ "Genesis 1:1" := by
  refine ⟨by decide, by decide, by decide⟩

/-- C6 amended: a segment `"The Creation\t.......Genesis 1:1"` inside a
chapter yields a `title_ref` block whose raw text is
`"The Creation\n.......Genesis 1:1"` and whose structured payload is
`{left := "The Creation", right := ".......Genesis 1:1"}` — the tab split
wins and the dot leader remains on the (whitespace-trimmed) right side. -/
theorem c6_amended :
    (runD [[⟨"Chapter 1", false, false, false⟩],
        [⟨"The Creation\t.......Genesis 1:1", false, false, false⟩]] []).blocks =
      [⟨1, none, some "Chapter 1", 1, "chapter", "Chapter 1", "Chapter 1", none⟩,
       ⟨2, none, some "Chapter 1", 2, "title_ref",
        "The Creation\n.......Genesis 1:1", "The Creation\n.......Genesis 1:1",
        some (.titleRef "The Creation" ".......Genesis 1:1")⟩] := by
  decide

/-! ## C5 — the question/answer alternation scenario -/

/-- C5, as stated, is false in its `blockOrder` part: in the minimal chapter
containing the two runs, the chapter heading block itself takes
`blockOrder` 1, so the question block gets `blockOrder` 2, not 1. -/
theorem c5_counterexample :
    ((traceF [[⟨"Chapter 1", false, false⟩],
        [⟨"What is sin?", false, true⟩,
         ⟨"Sin is transgression of law.", false, false⟩]] [] 0).blocks.filter
          (fun b => b.blockType = "question")).map (·.blockOrder) = [2] ∧
    (2 : Nat) ≠ 1 := by
  refine ⟨by decide, by decide⟩

/-- C5 amended: a chapter containing a distinguished-color (blue) run
`"What is sin?"` immediately followed by a plain run
`"Sin is transgression of law."` produces exactly one `question` block
(text `"What is sin?"`, question number 1) and then one `answer` block, in
that order, with `blockOrder` 2 and 3 respectively — the chapter heading
block occupies `blockOrder` 1 — and the run completes successfully. -/
theorem c5_amended :
    (traceF [[⟨"Chapter 1", false, false⟩],
        [⟨"What is sin?", false, true⟩,
         ⟨"Sin is transgression of law.", false, false⟩]] [] 0).blocks =
      [⟨1, none, some "Chapter 1", 1, "chapter", "Chapter 1", "Chapter 1"⟩,
       ⟨2, none, some "Chapter 1", 2, "question", "What is sin?", "What is sin?"⟩,
       ⟨3, none, some "Chapter 1", 3, "answer", "Sin is transgression of law.",
        "Sin is transgression of law."⟩] ∧
    (traceF [[⟨"Chapter 1", false, false⟩],
        [⟨"What is sin?", false, true⟩,
         ⟨"Sin is transgression of law.", false, false⟩]] [] 0).questions =
      [⟨2, 1, "What is sin?", none, some "Chapter 1"⟩] ∧
    (runResultF [[⟨"Chapter 1", false, false⟩],
        [⟨"What is sin?", false, true⟩,
         ⟨"Sin is transgression of law.", false, false⟩]] [] 0).toOption.isSome = true := by
  refine ⟨by decide, by decide, by decide⟩

/-! ## C10 — `[S]` sections after a chapter in the two variants -/

/-- C10: in the strict variant (`dlbImportBRHCFinal`), an `[S]` paragraph
processed while a chapter is current emits its section block with
`chapter_title` equal to that chapter's title (not null) and with
`block_order` continuing the current numbering (one past the current order;
nothing resets it).  The other variant (`dlbDocxImport`), on the same
segment, emits the section block with a null `chapter_title`.  Both parts
are stated with no open aggregate, note, or Q/A buffer, so that no flush
emission precedes the section block. -/
theorem c10_section_after_chapter :
    (∀ (s : StF) (t : String), s.aborted = none → s.aggType = none →
      s.curMode = none → s.curChapterTitle = some t →
      ∃ id : Nat, (stepParaF s [⟨"[S] Godly Living", false, false⟩]).blocks =
        s.blocks ++ [⟨id, some "[S] Godly Living", some t, s.blockOrder + 1,
          "section", "[S] Godly Living", "[S] Godly Living"⟩]) ∧
    (∀ (s : StD) (t : String), s.aggType = none → s.noteActive = false →
      s.curMode = none → s.curChapterTitle = some t →
      (processParaD s [⟨"[S] Godly Living", false, false, false⟩]).blocks =
        s.blocks ++ [⟨s.blockId, some "Godly Living", none, s.blockOrder + 1,
          "section", "Godly Living", "Godly Living", none⟩]) := by
  constructor
  · intro s t hab hagg hmode hch
    have h1 : paraText [⟨"[S] Godly Living", false, false⟩] = "[S] Godly Living" := rfl
    have h2 : pyStrip "[S] Godly Living" = "[S] Godly Living" := rfl
    have h3 : matchChapter "[S] Godly Living".data = none := by decide
    have h4 : bracketMarker "[S] Godly Living" = some "[S]" := rfl
    have h5 : pyStartsWith "[S] Godly Living" "[S]" = true := rfl
    have h6 : "[S]" ∈ KNOWN_MARKERS := by decide
    simp [stepParaF, hab, h1, h2, h3, h4, h5, h6, dispatchF, flushAggregateF, hagg,
      flushQAF, hmode, emitF, hch]
  · intro s t hagg hnote hmode hch
    have h0 : splitRunsOnMarker [⟨"[S] Godly Living", false, false, false⟩] "[N]" =
        [[⟨"[S] Godly Living", false, false, false⟩]] := rfl
    have h1 : concatTexts [⟨"[S] Godly Living", false, false, false⟩]
        = "[S] Godly Living" := rfl
    have h2 : picScan "[S] Godly Living".data = [] := by decide
    have h2b : removeSpans "[S] Godly Living".data [] = "[S] Godly Living".data := by
      decide
    have h3 : pyStrip "[S] Godly Living" = "[S] Godly Living" := rfl
    have h4 : matchChapter "[S] Godly Living".data = none := by decide
    have h5 : pyStartsWith "[S] Godly Living" "[S]" = true := rfl
    have h6 : pyStrip (replaceFirst "[S] Godly Living" "[S]" "") = "Godly Living" := by
      decide
    simp [processParaD, h0, processSegmentD, h1, h2, h2b, h3, h4, h5, h6,
      flushNoteD, hnote, flushAggregateD, hagg, flushQAD, hmode, emitD, hch]

/-- Witness for `c10_section_after_chapter` at concrete mid-chapter states of
both variants. -/
theorem c10_section_after_chapter_witness :
    (∃ id : Nat, (stepParaF
        { initStF [] 0 with curChapterTitle := some "Chapter 1", blockOrder := 7 }
        [⟨"[S] Godly Living", false, false⟩]).blocks =
      ({ initStF [] 0 with curChapterTitle := some "Chapter 1", blockOrder := 7 }
          : StF).blocks ++
        [⟨id, some "[S] Godly Living", some "Chapter 1", 7 + 1, "section",
          "[S] Godly Living", "[S] Godly Living"⟩]) ∧
    (processParaD
        { initStD [] with curChapterTitle := some "Chapter 1", blockOrder := 7 }
        [⟨"[S] Godly Living", false, false, false⟩]).blocks =
      ({ initStD [] with curChapterTitle := some "Chapter 1", blockOrder := 7 }
          : StD).blocks ++
        [⟨({ initStD [] with curChapterTitle := some "Chapter 1", blockOrder := 7 }
            : StD).blockId,
          some "Godly Living", none, 7 + 1, "section", "Godly Living",
          "Godly Living", none⟩] :=
  ⟨c10_section_after_chapter.1
      { initStF [] 0 with curChapterTitle := some "Chapter 1", blockOrder := 7 }
      "Chapter 1" rfl rfl rfl rfl,
   c10_section_after_chapter.2
      { initStD [] with curChapterTitle := some "Chapter 1", blockOrder := 7 }
      "Chapter 1" rfl rfl rfl rfl⟩

/-! ## C4 — per-chapter `blockOrder` numbering

`chainOrders 0 blocks` says: walking the emitted blocks in order, each
`chapter` block carries `blockOrder` 1 (the numbering resets), and every
other block carries the previous order plus one — so within one chapter the
orders are exactly 1, 2, 3, …, strictly increasing in emission order. -/

def nextOrd (k : Nat) (b : DocBlockF) : Nat :=
  if b.blockType = "chapter" then 1 else k + 1

def chainOrders : Nat → List DocBlockF → Bool
  | _, [] => true
  | k, b :: rest => (b.blockOrder == nextOrd k b) && chainOrders (nextOrd k b) rest

def runOrder : Nat → List DocBlockF → Nat
  | k, [] => k
  | k, b :: rest => runOrder (nextOrd k b) rest

theorem chainOrders_append (b : DocBlockF) :
    ∀ (bs : List DocBlockF) (k : Nat),
    chainOrders k (bs ++ [b])
      = (chainOrders k bs && (b.blockOrder == nextOrd (runOrder k bs) b)) := by
  intro bs
  induction bs with
  | nil => intro k; simp [chainOrders, runOrder]
  | cons x rest ih =>
    intro k
    simp only [List.cons_append, chainOrders, runOrder, List.append_eq]
    rw [ih, Bool.and_assoc]

theorem runOrder_append (b : DocBlockF) : ∀ (bs : List DocBlockF) (k : Nat),
    runOrder k (bs ++ [b]) = nextOrd (runOrder k bs) b := by
  intro bs
  induction bs with
  | nil => intro k; simp [runOrder]
  | cons x rest ih =>
    intro k
    simp only [List.cons_append, runOrder, List.append_eq]
    exact ih _

/-- The aggregation type is only ever poetry / responsive / table. -/
def WfAgg (s : StF) : Prop :=
  s.aggType = none ∨ s.aggType = some "poetry" ∨ s.aggType = some "responsive" ∨
    s.aggType = some "table"

def OrdInv (s : StF) : Prop :=
  chainOrders 0 s.blocks = true ∧ runOrder 0 s.blocks = s.blockOrder ∧ WfAgg s

theorem foldl_pres {σ α : Type} (P : σ → Prop) (f : σ → α → σ)
    (h : ∀ s a, P s → P (f s a)) :
    ∀ (l : List α) (s : σ), P s → P (l.foldl f s) := by
  intro l
  induction l with
  | nil => intro s hs; exact hs
  | cons a rest ih => intro s hs; exact ih (f s a) (h s a hs)

theorem emitF_blocks (s : StF) (aT rT raw norm : String) :
    (emitF s aT rT raw norm).1.blocks = s.blocks ++
      [⟨(emitF s aT rT raw norm).2, s.curSectionTitle, s.curChapterTitle,
        s.blockOrder + 1, rT, raw, norm⟩] := by
  simp [emitF]

theorem emitF_ord_nonchapter (s : StF) (aT rT raw norm : String)
    (hT : rT ≠ "chapter")
    (h1 : chainOrders 0 s.blocks = true) (h2 : runOrder 0 s.blocks = s.blockOrder) :
    chainOrders 0 (emitF s aT rT raw norm).1.blocks = true ∧
    runOrder 0 (emitF s aT rT raw norm).1.blocks = (emitF s aT rT raw norm).1.blockOrder := by
  rw [emitF_blocks, chainOrders_append, runOrder_append]
  constructor
  · simp [h1, h2, nextOrd, hT]
  · simp [emitF, h2, nextOrd, hT]

theorem emitF_ord_chapter (s : StF) (aT raw norm : String)
    (hbo : s.blockOrder = 0)
    (h1 : chainOrders 0 s.blocks = true) :
    chainOrders 0 (emitF s aT "chapter" raw norm).1.blocks = true ∧
    runOrder 0 (emitF s aT "chapter" raw norm).1.blocks
      = (emitF s aT "chapter" raw norm).1.blockOrder := by
  rw [emitF_blocks, chainOrders_append, runOrder_append]
  constructor
  · simp [h1, hbo, nextOrd]
  · simp [emitF, hbo, nextOrd]

/-- `emitF` with a non-chapter row type preserves the whole order
invariant (`emitF` never touches `aggType`). -/
theorem emitF_ordInv (s : StF) (aT rT raw norm : String) (hT : rT ≠ "chapter")
    (h : OrdInv s) : OrdInv (emitF s aT rT raw norm).1 := by
  have he := emitF_ord_nonchapter s aT rT raw norm hT h.1 h.2.1
  exact ⟨he.1, he.2, h.2.2⟩

theorem flushAggregateF_ord (s : StF) (h : OrdInv s) : OrdInv (flushAggregateF s) := by
  obtain ⟨h1, h2, h3⟩ := h
  rcases h3 with h3 | h3 | h3 | h3 <;> simp only [flushAggregateF, h3]
  · exact ⟨h1, h2, Or.inl rfl⟩
  all_goals {
    by_cases hl : s.aggLines = []
    · rw [if_pos hl]; exact ⟨h1, h2, Or.inl rfl⟩
    · rw [if_neg hl]
      refine ⟨(emitF_ord_nonchapter s _ _ _ _ ?_ h1 h2).1,
              (emitF_ord_nonchapter s _ _ _ _ ?_ h1 h2).2, Or.inl rfl⟩ <;> simp }

theorem flushQAF_ord (s : StF) (h : OrdInv s) : OrdInv (flushQAF s) := by
  obtain ⟨h1, h2, h3⟩ := h
  cases hm : s.curMode with
  | none =>
    simp only [flushQAF, hm]
    exact ⟨h1, h2, h3⟩
  | some mode =>
    simp only [flushQAF, hm]
    by_cases hb : s.curBuffer = []
    · rw [if_pos hb]; exact ⟨h1, h2, h3⟩
    · rw [if_neg hb]
      by_cases hq : mode = "question"
      · simp only [if_pos hq]
        have he := emitF_ord_nonchapter s "question" "question"
          (concatStrings s.curBuffer) (concatStrings s.curBuffer) (by simp) h1 h2
        exact ⟨he.1, he.2, h3⟩
      · simp only [if_neg hq]
        have he := emitF_ord_nonchapter s "answer" "answer"
          (concatStrings s.curBuffer) (concatStrings s.curBuffer) (by simp) h1 h2
        exact ⟨he.1, he.2, h3⟩

theorem startModeF_ord (s : StF) (mode : String) (h : OrdInv s) :
    OrdInv (startModeF s mode) := by
  cases hm : s.curMode with
  | none =>
    simp only [startModeF, hm]
    exact ⟨h.1, h.2.1, h.2.2⟩
  | some m =>
    simp only [startModeF, hm]
    split
    · have := flushQAF_ord s h
      exact ⟨this.1, this.2.1, this.2.2⟩
    · exact h

set_option maxHeartbeats 3200000 in
theorem dispatchF_ord (s : StF) (p : ParaF) (raw stripped : String)
    (h : OrdInv s) : OrdInv (dispatchF s p raw stripped) := by
  unfold dispatchF
  split
  next n heq =>
    -- chapter heading branch
    have hf := flushQAF_ord _ (flushAggregateF_ord s h)
    set s0 := flushQAF (flushAggregateF s) with hs0
    have he := emitF_ord_chapter
      { s0 with
          curChapterNum := some n
          curChapterTitle := some stripped
          questionCounter := 0
          blockOrder := 0
          chapterOrder := s0.chapterOrder + 1
          introActive := false
          chapters := s0.chapters ++ [(s0.curSectionId, stripped, s0.chapterOrder + 1)] }
      "chapter" raw raw rfl hf.1
    exact ⟨he.1, he.2, hf.2.2⟩
  next heq =>
    by_cases hc1 : pyStartsWith stripped "[S]" = true
    case pos =>
      -- section branch
      rw [if_pos hc1]
      have hf := flushQAF_ord _ (flushAggregateF_ord s h)
      set s0 := flushQAF (flushAggregateF s) with hs0
      exact emitF_ordInv
        { s0 with
            curSectionTitle := some stripped
            sectionOrder := s0.sectionOrder + 1
            sections := s0.sections ++
              [(s0.sections.length + 1, stripped, s0.sectionOrder + 1)]
            curSectionId := some (s0.sections.length + 1) }
        "section" "section" raw raw (by simp) ⟨hf.1, hf.2.1, hf.2.2⟩
    rw [if_neg hc1]
    by_cases hc2 : s.introActive = true
    case pos =>
      rw [if_pos hc2]
      by_cases hc3 : pyStartsWith stripped "[I]" = true
      case pos =>
        -- tagged intro paragraph
        rw [if_pos hc3]
        have hf := flushQAF_ord s h
        by_cases hbold : ((p.filter (fun r => pyStrip r.text ≠ "")).all (·.bold)) = true
        case pos =>
          simp only [hbold, if_true, ite_true]
          exact emitF_ordInv (flushQAF s) "intro" "intro_heading" raw
            ("<strong>" ++ escapeHtml raw ++ "</strong>") (by simp) hf
        rw [Bool.not_eq_true] at hbold
        simp only [hbold, Bool.false_eq_true, if_false, ite_false]
        exact emitF_ordInv (flushQAF s) "intro" "intro_paragraph" raw raw (by simp) hf
      rw [if_neg hc3]
      exact h
    rw [if_neg hc2]
    by_cases hc4 : s.curChapterTitle = none
    case pos =>
      -- orphan content before any chapter
      rw [if_pos hc4]
      by_cases hblue : p.any (·.isBlue) = true
      case pos => rw [if_pos hblue]; exact ⟨h.1, h.2.1, h.2.2⟩
      rw [if_neg hblue]; exact h
    rw [if_neg hc4]
    by_cases hc5 : pyStartsWith stripped "[P]" = true
    case pos =>
      rw [if_pos hc5]
      have hf := flushQAF_ord s h
      exact ⟨hf.1, hf.2.1, Or.inr (Or.inl rfl)⟩
    rw [if_neg hc5]
    by_cases hc6 : pyStartsWith stripped "[R]" = true
    case pos =>
      rw [if_pos hc6]
      have hf := flushQAF_ord s h
      exact ⟨hf.1, hf.2.1, Or.inr (Or.inr (Or.inl rfl))⟩
    rw [if_neg hc6]
    by_cases hc7 : pyStartsWith stripped "[T]" = true
    case pos =>
      rw [if_pos hc7]
      have hf := flushQAF_ord s h
      exact ⟨hf.1, hf.2.1, Or.inr (Or.inr (Or.inr rfl))⟩
    rw [if_neg hc7]
    by_cases hc8 : pyStartsWith stripped "[N]" = true
    case pos =>
      rw [if_pos hc8]
      have hf := flushQAF_ord s h
      exact emitF_ordInv (flushQAF s) "note" "note" raw raw (by simp) hf
    rw [if_neg hc8]
    -- question/answer buffering
    have hstart : OrdInv (match p.filter (fun r => r.text ≠ "") with
        | [] => s
        | r0 :: _ =>
          if s.curMode ≠ none ∧ s.curHasText then
            if s.curMode = some (if r0.isBlue then "question" else "answer") then
              { s with curBuffer := s.curBuffer ++ ["\n"] }
            else flushQAF s
          else s) := by
      split
      · exact h
      · split
        · split <;>
            first
              | exact ⟨h.1, h.2.1, h.2.2⟩
              | exact flushQAF_ord s h
              | (split <;>
                  first
                    | exact ⟨h.1, h.2.1, h.2.2⟩
                    | exact flushQAF_ord s h)
        · exact h
    refine foldl_pres OrdInv _ ?_ _ _ hstart
    intro s' r hs'
    have := startModeF_ord s' (if r.isBlue then "question" else "answer") hs'
    exact ⟨this.1, this.2.1, this.2.2⟩

theorem stepParaF_ord (s : StF) (p : ParaF) (h : OrdInv s) : OrdInv (stepParaF s p) := by
  have hrest : ∀ s' : StF, OrdInv s' →
      OrdInv (if pyStrip (paraText p) = "" then
          (if s'.curMode ≠ none ∧ s'.curHasText then
            { s' with curBuffer := s'.curBuffer ++ ["\n"] }
          else s')
        else
          match bracketMarker (pyStrip (paraText p)) with
          | some marker =>
            if marker ∉ KNOWN_MARKERS then
              { s' with aborted := some ("Unknown structural marker: " ++ marker) }
            else dispatchF s' p (paraText p) (pyStrip (paraText p))
          | none => dispatchF s' p (paraText p) (pyStrip (paraText p))) := by
    intro s' h'
    split
    · split
      · exact ⟨h'.1, h'.2.1, h'.2.2⟩
      · exact h'
    · split
      · split
        · exact ⟨h'.1, h'.2.1, h'.2.2⟩
        · exact dispatchF_ord s' p _ _ h'
      · exact dispatchF_ord s' p _ _ h'
  unfold stepParaF
  by_cases hab : s.aborted.isSome
  · rw [if_pos hab]; exact h
  rw [if_neg hab]
  cases hagg : s.aggType with
  | none =>
    have h' := hrest s h
    simp only [hagg] at h' ⊢
    exact h'
  | some t =>
    simp only [hagg]
    by_cases hb : (pyStartsWith (pyStrip (paraText p)) "[S]" ||
        pyStartsWith (pyStrip (paraText p)) "[Ch]" ||
        pyStartsWith (pyStrip (paraText p)) "[N]" ||
        pyStartsWith (pyStrip (paraText p)) "[R]" ||
        pyStartsWith (pyStrip (paraText p)) "[T]" ||
        (matchChapter (pyStrip (paraText p)).data).isSome) = true
    · have h' := hrest (flushAggregateF s) (flushAggregateF_ord s h)
      simp only [hagg] at h'
      simp only [hb, if_true, ite_true]
      exact h'
    · simp only [Bool.not_eq_true] at hb
      simp only [hb, Bool.false_eq_true, if_false, ite_false]
      exact ⟨h.1, h.2.1, by
        rcases h.2.2 with h3 | h3 | h3 | h3 <;> rw [hagg] at h3
        · exact absurd h3 (by simp)
        all_goals simp [WfAgg, h3]⟩

theorem traceF_ord (doc : List ParaF) (m0 : List ImageBlock) (maxId : Nat) :
    OrdInv (traceF doc m0 maxId) := by
  have hinit : OrdInv (initStF m0 maxId) := ⟨rfl, rfl, Or.inl rfl⟩
  have hfold := foldl_pres OrdInv stepParaF (fun s p => stepParaF_ord s p) doc
    (initStF m0 maxId) hinit
  rw [show traceF doc m0 maxId =
      (if (doc.foldl stepParaF (initStF m0 maxId)).aborted.isSome then
        doc.foldl stepParaF (initStF m0 maxId)
      else flushQAF (flushAggregateF (doc.foldl stepParaF (initStF m0 maxId))))
    from rfl]
  split
  · exact hfold
  · exact flushQAF_ord _ (flushAggregateF_ord _ hfold)


/-- C4: within a single chapter the `blockOrder` values of emitted blocks
are strictly increasing in emission order — in fact consecutive — and the
numbering resets at each chapter boundary so that the chapter block itself
(the first block emitted in the new chapter) carries `blockOrder` 1:
`chainOrders 0` checks exactly that a `chapter` block always carries order 1
and every other block carries its predecessor's order plus one. -/
theorem c4_order_monotonicity (doc : List ParaF) (m0 : List ImageBlock) (maxId : Nat) :
    chainOrders 0 (traceF doc m0 maxId).blocks = true :=
  (traceF_ord doc m0 maxId).1

/-! ## C9 — uniqueness of allocated block identifiers

Specification lemmas for `allocate`: every identifier it hands out is either
a reused image-block identifier (at most `maxId`, not seen before, recorded
in `used`) or the fresh counter value (which is then bumped). -/

theorem alookup_mem {α β : Type} [DecidableEq α] :
    ∀ (m : List (α × β)) (k : α) (v : β), alookup m k = some v → (k, v) ∈ m := by
  intro m
  induction m with
  | nil => intro k v h; simp [alookup] at h
  | cons e rest ih =>
    intro k v h
    rcases e with ⟨k', v'⟩
    by_cases hk : k' = k
    · simp only [alookup, if_pos hk] at h
      subst hk
      have hv : v' = v := Option.some_inj.mp h
      subst hv
      exact List.mem_cons_self _ _
    · simp only [alookup, if_neg hk] at h
      exact List.mem_cons_of_mem _ (ih k v h)

theorem aupdate_mem {α β : Type} [DecidableEq α] :
    ∀ (m : List (α × β)) (k : α) (newv : β) (e : α × β),
    e ∈ aupdate m k newv → e ∈ m ∨ e = (k, newv) := by
  intro m
  induction m with
  | nil => intro k newv e h; simp [aupdate] at h
  | cons x rest ih =>
    intro k newv e h
    rcases x with ⟨k', v'⟩
    by_cases hk : k' = k
    · simp only [aupdate, if_pos hk] at h
      rcases List.mem_cons.mp h with heq | hmem
      · right; rw [heq, hk]
      · left; exact List.mem_cons_of_mem _ hmem
    · simp only [aupdate, if_neg hk] at h
      rcases List.mem_cons.mp h with heq | hmem
      · left; rw [heq]; simp
      · rcases ih k newv e hmem with h' | h'
        · left; exact List.mem_cons_of_mem _ h'
        · right; exact h'

theorem popCand_some_mem (used : List Nat) :
    ∀ (l : List ImageBlock) (b : ImageBlock) (rest : List ImageBlock),
    popCand used l = (some b, rest) →
    b ∈ l ∧ used.contains b.blockId = false ∧ ∀ x ∈ rest, x ∈ l := by
  intro l
  induction l with
  | nil => intro b rest h; simp [popCand] at h
  | cons c cs ih =>
    intro b rest h
    by_cases hc : used.contains c.blockId
    · simp only [popCand, if_pos hc] at h
      obtain ⟨h1, h2, h3⟩ := ih b rest h
      exact ⟨List.mem_cons_of_mem _ h1, h2, fun x hx => List.mem_cons_of_mem _ (h3 x hx)⟩
    · simp only [popCand, if_neg hc] at h
      obtain ⟨hb, hrest⟩ := Prod.mk.injEq .. ▸ h
      refine ⟨?_, ?_, ?_⟩
      · rw [← Option.some_inj.mp hb]; simp
      · rw [← Option.some_inj.mp hb]; simpa using hc
      · intro x hx; rw [← hrest] at hx; exact List.mem_cons_of_mem _ hx

theorem pickClosest1_mem (v : Nat) (b : ImageBlock) :
    ∀ l : List ImageBlock, pickClosest1 v b l ∈ b :: l := by
  intro l
  induction l generalizing b with
  | nil => simp [pickClosest1]
  | cons c cs ih =>
    simp only [pickClosest1]
    split
    · simp
    · rcases List.mem_cons.mp (ih c) with h | h
      · simp [h]
      · simp [List.mem_cons_of_mem _ (List.mem_cons_of_mem _ h)]

theorem removeFirstIB_mem :
    ∀ (l : List ImageBlock) (b x : ImageBlock), x ∈ removeFirstIB l b → x ∈ l := by
  intro l
  induction l with
  | nil => intro b x h; simp [removeFirstIB] at h
  | cons c cs ih =>
    intro b x h
    by_cases hc : c = b
    · simp only [removeFirstIB, if_pos hc] at h
      exact List.mem_cons_of_mem _ h
    · simp only [removeFirstIB, if_neg hc] at h
      rcases List.mem_cons.mp h with heq | hmem
      · simp [heq]
      · exact List.mem_cons_of_mem _ (ih b x hmem)

/-- Every identifier the reconciler can still hand out for reuse
satisfies `Q`. -/
structure ReconQ (Q : Nat → Prop) (r : ReconState) : Prop where
  map : ∀ e ∈ r.imageMap, ∀ b ∈ e.2, Q b.blockId
  chap : ∀ e ∈ r.byChapter, ∀ b ∈ e.2, Q b.blockId

theorem proximityPool_sub (btype : String) (l : List ImageBlock) :
    ∀ x ∈ proximityPool btype l, x ∈ l := by
  intro x hx
  unfold proximityPool at hx
  split at hx
  · exact hx
  · exact List.mem_of_mem_filter hx

theorem allocateFromChapter_spec (Q : Nat → Prop) (r : ReconState) (btype : String)
    (curCh : Option String) (v : Nat) (hb : ReconQ Q r) :
    ReconQ Q (allocateFromChapter r btype curCh v).2.1 ∧
    (((allocateFromChapter r btype curCh v).1 ∉ r.used ∧
      Q (allocateFromChapter r btype curCh v).1 ∧
      (allocateFromChapter r btype curCh v).2.1.used
        = (allocateFromChapter r btype curCh v).1 :: r.used ∧
      (allocateFromChapter r btype curCh v).2.1.nextId = r.nextId) ∨
     ((allocateFromChapter r btype curCh v).1 = r.nextId ∧
      (allocateFromChapter r btype curCh v).2.1.used = r.used ∧
      (allocateFromChapter r btype curCh v).2.1.nextId = r.nextId + 1)) := by
  cases hch : alookup r.byChapter curCh with
  | none =>
    simp only [allocateFromChapter, hch]
    exact ⟨⟨hb.map, hb.chap⟩, Or.inr ⟨by trivial, by trivial, by trivial⟩⟩
  | some chList =>
    by_cases hemp : unusedBlocks r.used chList = []
    · simp only [allocateFromChapter, hch, if_pos hemp]
      exact ⟨⟨hb.map, hb.chap⟩, Or.inr ⟨by trivial, by trivial, by trivial⟩⟩
    · simp only [allocateFromChapter, hch, if_neg hemp]
      have hchmem := alookup_mem _ _ _ hch
      cases hpool : proximityPool btype (unusedBlocks r.used chList) with
      | nil =>
        -- unreachable in fact, but the code has a fresh fallback here
        exact ⟨⟨hb.map, hb.chap⟩, Or.inr ⟨by trivial, by trivial, by trivial⟩⟩
      | cons p0 ps =>
        have hpick0 : pickClosest1 v p0 ps ∈ unusedBlocks r.used chList := by
          have hm := pickClosest1_mem v p0 ps
          rw [← hpool] at hm
          exact proximityPool_sub btype _ _ hm
        have hpick : pickClosest1 v p0 ps ∈ chList.filter
            (fun b => !(r.used.contains b.blockId)) := hpick0
        have hpickch : pickClosest1 v p0 ps ∈ chList := List.mem_of_mem_filter hpick
        have hpickunused : (r.used.contains (pickClosest1 v p0 ps).blockId) = false := by
          have := List.of_mem_filter hpick
          simpa using this
        have hpickle : Q (pickClosest1 v p0 ps).blockId :=
          hb.chap _ hchmem _ hpickch
        refine ⟨⟨hb.map, ?_⟩, Or.inl ⟨?_, hpickle, by trivial, by trivial⟩⟩
        · intro e he b hbmem
          rcases aupdate_mem _ _ _ _ he with h' | h'
          · exact hb.chap e h' b hbmem
          · subst h'
            exact hb.chap _ hchmem b (removeFirstIB_mem _ _ _ hbmem)
        · intro hmem
          simp at hpickunused
          exact hpickunused hmem

theorem allocate_spec (Q : Nat → Prop) (r : ReconState) (btype raw : String)
    (curSec curCh : Option String) (v : Nat) (hb : ReconQ Q r) :
    ReconQ Q (allocate r btype raw curSec curCh v).2.1 ∧
    (((allocate r btype raw curSec curCh v).1 ∉ r.used ∧
      Q (allocate r btype raw curSec curCh v).1 ∧
      (allocate r btype raw curSec curCh v).2.1.used
        = (allocate r btype raw curSec curCh v).1 :: r.used ∧
      (allocate r btype raw curSec curCh v).2.1.nextId = r.nextId) ∨
     ((allocate r btype raw curSec curCh v).1 = r.nextId ∧
      (allocate r btype raw curSec curCh v).2.1.used = r.used ∧
      (allocate r btype raw curSec curCh v).2.1.nextId = r.nextId + 1)) := by
  cases hmap : alookup r.imageMap ((btype, some raw, curSec, curCh) : BKey) with
  | none =>
    simp only [allocate, hmap]
    exact allocateFromChapter_spec Q r btype curCh v hb
  | some cands =>
    cases cands with
    | nil =>
      simp only [allocate, hmap]
      exact allocateFromChapter_spec Q r btype curCh v hb
    | cons c cs =>
      have hmapmem := alookup_mem _ _ _ hmap
      cases hpop : popCand r.used (c :: cs) with
      | mk found rest =>
        cases found with
        | none =>
          simp only [allocate, hmap, hpop]
          refine allocateFromChapter_spec Q
            ⟨aupdate r.imageMap ((btype, some raw, curSec, curCh) : BKey) [],
             r.byChapter, r.used, r.nextId⟩ btype curCh v
            ⟨?_, hb.chap⟩
          intro e he b hbmem
          rcases aupdate_mem _ _ _ _ he with h' | h'
          · exact hb.map e h' b hbmem
          · subst h'; simp at hbmem
        | some b =>
          simp only [allocate, hmap, hpop]
          obtain ⟨hbmem, hbunused, hrest⟩ := popCand_some_mem r.used (c :: cs) b rest hpop
          have hble : Q b.blockId := hb.map _ hmapmem b hbmem
          refine ⟨⟨?_, ?_⟩, Or.inl ⟨?_, hble, by trivial, by trivial⟩⟩
          · intro e he x hx
            rcases aupdate_mem _ _ _ _ he with h' | h'
            · exact hb.map e h' x hx
            · subst h'
              exact hb.map _ hmapmem x (hrest x hx)
          · intro e he x hx
            cases hch2 : alookup r.byChapter b.chapterTitle with
            | none =>
              simp only [hch2] at he
              exact hb.chap e he x hx
            | some l =>
              simp only [hch2] at he
              by_cases hin : b ∈ l
              · rw [if_pos hin] at he
                rcases aupdate_mem _ _ _ _ he with h' | h'
                · exact hb.chap e h' x hx
                · subst h'
                  exact hb.chap _ (alookup_mem _ _ _ hch2) x (removeFirstIB_mem _ _ _ hx)
              · rw [if_neg hin] at he
                exact hb.chap e he x hx
          · intro hmem
            simp at hbunused
            exact hbunused hmem

/-! ### The reconciler's initial state under a predicate on identifiers -/

theorem foldl_pres_mem {σ α : Type} (P : σ → Prop) (f : σ → α → σ) (R : α → Prop)
    (h : ∀ s a, P s → R a → P (f s a)) :
    ∀ (l : List α) (s : σ), P s → (∀ a ∈ l, R a) → P (l.foldl f s) := by
  intro l
  induction l with
  | nil => intro s hs _; exact hs
  | cons a rest ih =>
    intro s hs hr
    exact ih (f s a) (h s a hs (hr a (List.mem_cons_self a rest)))
      (fun x hx => hr x (List.mem_cons_of_mem _ hx))

theorem insMapEntry_Q (Q : ImageBlock → Prop) (m : List (BKey × List ImageBlock))
    (b : ImageBlock) (hm : ∀ e ∈ m, ∀ x ∈ e.2, Q x) (hb : Q b) :
    ∀ e ∈ insMapEntry m b, ∀ x ∈ e.2, Q x := by
  intro e he x hx
  cases hl : alookup m b.key with
  | some l =>
    simp only [insMapEntry, hl] at he
    rcases aupdate_mem _ _ _ _ he with h' | h'
    · exact hm e h' x hx
    · subst h'
      rcases List.mem_append.mp hx with h'' | h''
      · exact hm _ (alookup_mem _ _ _ hl) x h''
      · rw [List.mem_singleton.mp h'']; exact hb
  | none =>
    simp only [insMapEntry, hl] at he
    rcases List.mem_append.mp he with h' | h'
    · exact hm e h' x hx
    · rw [List.mem_singleton.mp h'] at hx
      rw [List.mem_singleton.mp hx]
      exact hb

theorem insChapEntry_Q (Q : ImageBlock → Prop)
    (ch : List (Option String × List ImageBlock))
    (b : ImageBlock) (hm : ∀ e ∈ ch, ∀ x ∈ e.2, Q x) (hb : Q b) :
    ∀ e ∈ insChapEntry ch b, ∀ x ∈ e.2, Q x := by
  intro e he x hx
  cases hl : alookup ch b.chapterTitle with
  | some l =>
    simp only [insChapEntry, hl] at he
    rcases aupdate_mem _ _ _ _ he with h' | h'
    · exact hm e h' x hx
    · subst h'
      rcases List.mem_append.mp hx with h'' | h''
      · exact hm _ (alookup_mem _ _ _ hl) x h''
      · rw [List.mem_singleton.mp h'']; exact hb
  | none =>
    simp only [insChapEntry, hl] at he
    rcases List.mem_append.mp he with h' | h'
    · exact hm e h' x hx
    · rw [List.mem_singleton.mp h'] at hx
      rw [List.mem_singleton.mp hx]
      exact hb

theorem buildMap_Q (Q : ImageBlock → Prop) (bs : List ImageBlock)
    (h : ∀ b ∈ bs, Q b) : ∀ e ∈ buildMap bs, ∀ x ∈ e.2, Q x :=
  @foldl_pres_mem (List (BKey × List ImageBlock)) ImageBlock
    (fun m => ∀ e ∈ m, ∀ x ∈ e.2, Q x) insMapEntry Q
    (fun m b hm hb => insMapEntry_Q Q m b hm hb) bs [] (by simp) h

theorem buildByChapter_Q (Q : ImageBlock → Prop) (m : List (BKey × List ImageBlock))
    (h : ∀ e ∈ m, ∀ x ∈ e.2, Q x) : ∀ e ∈ buildByChapter m, ∀ x ∈ e.2, Q x := by
  refine @foldl_pres_mem (List (Option String × List ImageBlock)) ImageBlock
    (fun ch => ∀ e ∈ ch, ∀ x ∈ e.2, Q x) insChapEntry Q
    (fun ch b hc hb => insChapEntry_Q Q ch b hc hb) _ [] (by simp) ?_
  intro b hb
  rcases List.mem_flatten.mp hb with ⟨l, hl, hbl⟩
  rcases List.mem_map.mp hl with ⟨e, he, rfl⟩
  exact h e he b hbl

theorem initRecon_Q (Q : Nat → Prop) (m0 : List ImageBlock) (maxId : Nat)
    (h : ∀ b ∈ m0, Q b.blockId) : ReconQ Q (initRecon m0 maxId) :=
  ⟨buildMap_Q (fun b => Q b.blockId) m0 h,
   buildByChapter_Q (fun b => Q b.blockId) _ (buildMap_Q _ m0 h)⟩

/-! ### The combined per-state invariant of one run of `main`

`IdsInv` collects everything the identifier-uniqueness (C9), question
numbering (C3) and image-reuse (C1) arguments need about a reachable state,
for an arbitrary predicate `Q` bounding the reusable identifiers. -/

/-- The question numbers recorded for chapter title `t`, in insertion
order (the list `_validate` inspects). -/
def qNums (s : StF) (t : Option String) : List Nat :=
  (s.questions.filter (fun q => q.chapterTitle = t)).map (·.questionNumber)

/-- `[1, ..., n1] ++ [1, ..., n2] ++ ...`: one completed numbering run per
(possibly repeated) visit of a chapter title. -/
def flattenRuns (ns : List Nat) : List Nat :=
  (ns.map (fun n => List.range' 1 n)).flatten

/-- Every `block_type` value `main` ever inserts. -/
def BTYPES : List String :=
  ["chapter", "section", "intro_heading", "intro_paragraph", "poetry",
   "responsive", "table", "note", "question", "answer"]

/-- The identifier-related components: they never mention the question
tables, so `emitF` preserves them for every row type. -/
structure IdsInvA (maxId : Nat) (Q : Nat → Prop) (s : StF) : Prop where
  rq : ReconQ Q s.recon
  next : maxId < s.recon.nextId
  usedQ : ∀ id ∈ s.recon.used, Q id
  nodup : (s.blocks.map (·.blockId)).Nodup
  cls : ∀ b ∈ s.blocks, b.blockId ∈ s.recon.used ∨
    (maxId < b.blockId ∧ b.blockId < s.recon.nextId)
  usedEmitted : ∀ id ∈ s.recon.used, id ∈ s.blocks.map (·.blockId)
  wfAgg : WfAgg s
  introNone : s.introActive = true → s.curChapterTitle = none
  btypes : ∀ b ∈ s.blocks, b.blockType ∈ BTYPES
  noneInc : List.Pairwise (· < ·)
    ((s.blocks.filter (fun b => b.chapterTitle = none)).map (·.blockOrder))
  noneAll : s.curChapterTitle = none →
    ∀ b ∈ s.blocks, b.chapterTitle = none ∧ b.blockOrder ≤ s.blockOrder

/-- The full invariant: `IdsInvA` plus the question-numbering components. -/
structure IdsInv (maxId : Nat) (Q : Nat → Prop) (s : StF) : Prop where
  a : IdsInvA maxId Q s
  rowCount : ∀ t, (s.questions.filter (fun q => q.chapterTitle = t)).length
    = (s.blocks.filter (fun b => b.blockType = "question" ∧ b.chapterTitle = t)).length
  qcur : ∃ ns, qNums s s.curChapterTitle
    = flattenRuns ns ++ List.range' 1 s.questionCounter
  qother : ∀ t, t ≠ s.curChapterTitle → ∃ ns, qNums s t = flattenRuns ns

theorem flattenRuns_concat (ns : List Nat) (n : Nat) :
    flattenRuns (ns ++ [n]) = flattenRuns ns ++ List.range' 1 n := by
  simp [flattenRuns]

theorem nodupN_concat {l : List Nat} {a : Nat} (h : l.Nodup) (ha : a ∉ l) :
    (l ++ [a]).Nodup :=
  List.Nodup.append h (List.nodup_singleton a) (by simp [List.disjoint_singleton, ha])

theorem range1_concat (n : Nat) : List.range' 1 n ++ [n + 1] = List.range' 1 (n + 1) := by
  have h := @List.range'_concat 1 1 n
  simp only [Nat.one_mul] at h
  rw [h, Nat.add_comm 1 n]

theorem emitF_idsA (maxId : Nat) (Q : Nat → Prop) (hQle : ∀ x, Q x → x ≤ maxId)
    (s : StF) (aT rT raw norm : String) (hT : rT ∈ BTYPES)
    (h : IdsInvA maxId Q s) : IdsInvA maxId Q (emitF s aT rT raw norm).1 := by
  have hs := allocate_spec Q s.recon aT raw s.curSectionTitle s.curChapterTitle
    (s.blockOrder + 1) h.rq
  set A := allocate s.recon aT raw s.curSectionTitle s.curChapterTitle (s.blockOrder + 1)
    with hA
  have hrec : (emitF s aT rT raw norm).1.recon = A.2.1 := rfl
  have hblk : (emitF s aT rT raw norm).1.blocks = s.blocks ++
      [⟨A.1, s.curSectionTitle, s.curChapterTitle, s.blockOrder + 1, rT, raw, norm⟩] := rfl
  have hnew : A.1 ∉ s.blocks.map (·.blockId) := by
    intro hmem
    rcases List.mem_map.mp hmem with ⟨b, hb, hid⟩
    rcases hs.2 with ⟨hnu, hq, _, _⟩ | ⟨hfr, _, _⟩
    · rcases h.cls b hb with hu | ⟨hgt, _⟩
      · rw [hid] at hu
        exact hnu hu
      · have h1 := hQle _ hq
        rw [hid] at hgt
        omega
    · rcases h.cls b hb with hu | ⟨_, hlt⟩
      · have h1 := hQle _ (h.usedQ _ hu)
        have h2 := h.next
        rw [hid, hfr] at h1
        omega
      · rw [hid, hfr] at hlt
        omega
  rcases hs.2 with ⟨hnu, hq, hus, hnx⟩ | ⟨hfr, hus, hnx⟩
  · -- a previously image-owning identifier is reused
    refine ⟨?_, ?_, ?_, ?_, ?_, ?_, h.wfAgg, h.introNone, ?_, ?_, ?_⟩
    · rw [hrec]; exact hs.1
    · rw [hrec, hnx]; exact h.next
    · rw [hrec, hus]
      intro id hid
      rcases List.mem_cons.mp hid with h1 | h1
      · rw [h1]; exact hq
      · exact h.usedQ _ h1
    · rw [hblk]
      simp only [List.map_append, List.map_cons, List.map_nil]
      exact nodupN_concat h.nodup hnew
    · rw [hrec, hblk, hus, hnx]
      intro b hb
      rcases List.mem_append.mp hb with h1 | h1
      · rcases h.cls b h1 with h2 | h2
        · exact Or.inl (List.mem_cons_of_mem _ h2)
        · exact Or.inr h2
      · rw [List.mem_singleton.mp h1]
        exact Or.inl (List.mem_cons_self _ _)
    · rw [hrec, hblk, hus]
      intro id hid
      rcases List.mem_cons.mp hid with h1 | h1
      · rw [h1]
        simp
      · simp only [List.map_append, List.mem_append]
        exact Or.inl (h.usedEmitted _ h1)
    · rw [hblk]
      intro b hb
      rcases List.mem_append.mp hb with h1 | h1
      · exact h.btypes b h1
      · rw [List.mem_singleton.mp h1]
        exact hT
    · rw [hblk, List.filter_append]
      by_cases hc : s.curChapterTitle = none
      · have hone : (List.filter (fun b => b.chapterTitle = none)
            [(⟨A.1, s.curSectionTitle, s.curChapterTitle, s.blockOrder + 1, rT, raw,
              norm⟩ : DocBlockF)])
            = [⟨A.1, s.curSectionTitle, s.curChapterTitle, s.blockOrder + 1, rT, raw,
               norm⟩] := by
          simp [hc]
        rw [hone, List.map_append]
        rw [List.pairwise_append]
        refine ⟨h.noneInc, by simp, ?_⟩
        intro x hx y hy
        simp only [List.map_cons, List.map_nil, List.mem_singleton] at hy
        rw [hy]
        rcases List.mem_map.mp hx with ⟨b, hbmem, hord⟩
        have := (h.noneAll hc b (List.mem_of_mem_filter hbmem)).2
        rw [← hord] at *
        omega
      · have hzero : (List.filter (fun b => b.chapterTitle = none)
            [(⟨A.1, s.curSectionTitle, s.curChapterTitle, s.blockOrder + 1, rT, raw,
              norm⟩ : DocBlockF)]) = [] := by
          simp [hc]
        rw [hzero, List.append_nil]
        exact h.noneInc
    · intro hc b hb
      rw [hblk] at hb
      rcases List.mem_append.mp hb with h1 | h1
      · have h2 := h.noneAll hc b h1
        exact ⟨h2.1, Nat.le_succ_of_le h2.2⟩
      · rw [List.mem_singleton.mp h1]
        exact ⟨hc, Nat.le_refl _⟩
  · -- a fresh identifier past every pre-existing one
    refine ⟨?_, ?_, ?_, ?_, ?_, ?_, h.wfAgg, h.introNone, ?_, ?_, ?_⟩
    · rw [hrec]; exact hs.1
    · rw [hrec, hnx]
      exact Nat.lt_succ_of_lt h.next
    · rw [hrec, hus]
      exact h.usedQ
    · rw [hblk]
      simp only [List.map_append, List.map_cons, List.map_nil]
      exact nodupN_concat h.nodup hnew
    · rw [hrec, hblk, hus, hnx]
      intro b hb
      rcases List.mem_append.mp hb with h1 | h1
      · rcases h.cls b h1 with h2 | h2
        · exact Or.inl h2
        · exact Or.inr ⟨h2.1, Nat.lt_succ_of_lt h2.2⟩
      · rw [List.mem_singleton.mp h1]
        refine Or.inr ?_
        simp only [hfr]
        exact ⟨h.next, Nat.lt_succ_self _⟩
    · rw [hrec, hblk, hus]
      intro id hid
      simp only [List.map_append, List.mem_append]
      exact Or.inl (h.usedEmitted _ hid)
    · rw [hblk]
      intro b hb
      rcases List.mem_append.mp hb with h1 | h1
      · exact h.btypes b h1
      · rw [List.mem_singleton.mp h1]
        exact hT
    · rw [hblk, List.filter_append]
      by_cases hc : s.curChapterTitle = none
      · have hone : (List.filter (fun b => b.chapterTitle = none)
            [(⟨A.1, s.curSectionTitle, s.curChapterTitle, s.blockOrder + 1, rT, raw,
              norm⟩ : DocBlockF)])
            = [⟨A.1, s.curSectionTitle, s.curChapterTitle, s.blockOrder + 1, rT, raw,
               norm⟩] := by
          simp [hc]
        rw [hone, List.map_append]
        rw [List.pairwise_append]
        refine ⟨h.noneInc, by simp, ?_⟩
        intro x hx y hy
        simp only [List.map_cons, List.map_nil, List.mem_singleton] at hy
        rw [hy]
        rcases List.mem_map.mp hx with ⟨b, hbmem, hord⟩
        have := (h.noneAll hc b (List.mem_of_mem_filter hbmem)).2
        rw [← hord] at *
        omega
      · have hzero : (List.filter (fun b => b.chapterTitle = none)
            [(⟨A.1, s.curSectionTitle, s.curChapterTitle, s.blockOrder + 1, rT, raw,
              norm⟩ : DocBlockF)]) = [] := by
          simp [hc]
        rw [hzero, List.append_nil]
        exact h.noneInc
    · intro hc b hb
      rw [hblk] at hb
      rcases List.mem_append.mp hb with h1 | h1
      · have h2 := h.noneAll hc b h1
        exact ⟨h2.1, Nat.le_succ_of_le h2.2⟩
      · rw [List.mem_singleton.mp h1]
        exact ⟨hc, Nat.le_refl _⟩

theorem emitF_idsInv (maxId : Nat) (Q : Nat → Prop) (hQle : ∀ x, Q x → x ≤ maxId)
    (s : StF) (aT rT raw norm : String) (hT : rT ∈ BTYPES)
    (hTq : rT ≠ "question") (h : IdsInv maxId Q s) :
    IdsInv maxId Q (emitF s aT rT raw norm).1 := by
  refine ⟨emitF_idsA maxId Q hQle s aT rT raw norm hT h.a, ?_, h.qcur, h.qother⟩
  intro t
  have hblk : (emitF s aT rT raw norm).1.blocks = s.blocks ++
      [⟨(allocate s.recon aT raw s.curSectionTitle s.curChapterTitle
          (s.blockOrder + 1)).1,
        s.curSectionTitle, s.curChapterTitle, s.blockOrder + 1, rT, raw, norm⟩] := rfl
  rw [hblk, List.filter_append]
  have hz : (List.filter (fun b => b.blockType = "question" ∧ b.chapterTitle = t)
      [(⟨(allocate s.recon aT raw s.curSectionTitle s.curChapterTitle
           (s.blockOrder + 1)).1,
         s.curSectionTitle, s.curChapterTitle, s.blockOrder + 1, rT, raw,
         norm⟩ : DocBlockF)]) = [] := by
    simp [hTq]
  rw [hz, List.append_nil]
  exact h.rowCount t

/-- Rebuild `IdsInv` across a state change that leaves every component it
mentions intact (up to the given equations). -/
theorem idsInv_mk (maxId : Nat) (Q : Nat → Prop) (s' : StF) (s : StF)
    (h : IdsInv maxId Q s)
    (hrec : s'.recon = s.recon) (hblk : s'.blocks = s.blocks)
    (hqs : s'.questions = s.questions) (hagg : WfAgg s')
    (hintro : s'.introActive = true → s'.curChapterTitle = none)
    (hct : s'.curChapterTitle = s.curChapterTitle)
    (hbo : s'.blockOrder = s.blockOrder)
    (hqn : s'.questionCounter = s.questionCounter) :
    IdsInv maxId Q s' := by
  refine ⟨⟨?_, ?_, ?_, ?_, ?_, ?_, hagg, hintro, ?_, ?_, ?_⟩, ?_, ?_, ?_⟩
  · rw [hrec]; exact h.a.rq
  · rw [hrec]; exact h.a.next
  · rw [hrec]; exact h.a.usedQ
  · rw [hblk]; exact h.a.nodup
  · rw [hblk, hrec]; exact h.a.cls
  · rw [hrec, hblk]; exact h.a.usedEmitted
  · rw [hblk]; exact h.a.btypes
  · rw [hblk]; exact h.a.noneInc
  · rw [hct, hbo, hblk]
    exact h.a.noneAll
  · intro t
    rw [hqs, hblk]
    exact h.rowCount t
  · have hq := h.qcur
    simp only [qNums] at hq ⊢
    rw [hqs, hct, hqn]
    exact hq
  · intro t ht
    have hq := h.qother t (by rw [← hct]; exact ht)
    simp only [qNums] at hq ⊢
    rw [hqs]
    exact hq

theorem flushAggregateF_idsInv (maxId : Nat) (Q : Nat → Prop)
    (hQle : ∀ x, Q x → x ≤ maxId) (s : StF) (h : IdsInv maxId Q s) :
    IdsInv maxId Q (flushAggregateF s) := by
  rcases h.a.wfAgg with h3 | h3 | h3 | h3 <;> simp only [flushAggregateF, h3]
  · exact idsInv_mk maxId Q _ s h rfl rfl rfl (Or.inl rfl) h.a.introNone rfl rfl rfl
  · by_cases hl : s.aggLines = []
    · rw [if_pos hl]
      exact idsInv_mk maxId Q _ s h rfl rfl rfl (Or.inl rfl) h.a.introNone rfl rfl rfl
    · rw [if_neg hl]
      have he := emitF_idsInv maxId Q hQle s "poetry" "poetry" (joinNL s.aggLines)
        (joinNL s.aggLines) (by decide) (by decide) h
      exact idsInv_mk maxId Q _ _ he rfl rfl rfl (Or.inl rfl) he.a.introNone rfl rfl rfl
  · by_cases hl : s.aggLines = []
    · rw [if_pos hl]
      exact idsInv_mk maxId Q _ s h rfl rfl rfl (Or.inl rfl) h.a.introNone rfl rfl rfl
    · rw [if_neg hl]
      have he := emitF_idsInv maxId Q hQle s "responsive" "responsive"
        (joinNL s.aggLines) (joinNL s.aggLines) (by decide) (by decide) h
      exact idsInv_mk maxId Q _ _ he rfl rfl rfl (Or.inl rfl) he.a.introNone rfl rfl rfl
  · by_cases hl : s.aggLines = []
    · rw [if_pos hl]
      exact idsInv_mk maxId Q _ s h rfl rfl rfl (Or.inl rfl) h.a.introNone rfl rfl rfl
    · rw [if_neg hl]
      have he := emitF_idsInv maxId Q hQle s "table" "table" (joinNL s.aggLines)
        (renderTable s.aggLines) (by decide) (by decide) h
      exact idsInv_mk maxId Q _ _ he rfl rfl rfl (Or.inl rfl) he.a.introNone rfl rfl rfl

/-- The `flush_qa_block` question branch: the emitted row and the recorded
question number stay in lock step with `question_counter`. -/
theorem flushQA_question_idsInv (maxId : Nat) (Q : Nat → Prop)
    (hQle : ∀ x, Q x → x ≤ maxId) (s : StF) (text : String) (h : IdsInv maxId Q s) :
    IdsInv maxId Q
      { (emitF s "question" "question" text text).1 with
          questionCounter := s.questionCounter + 1
          questions := s.questions ++
            [⟨(emitF s "question" "question" text text).2, s.questionCounter + 1,
              text, s.curSectionTitle, s.curChapterTitle⟩]
          questionSummaries := s.questionSummaries ++
            [⟨s.curSectionTitle, s.curChapterTitle, s.curChapterNum,
              s.questionCounter + 1, text⟩] } := by
  have ha' := emitF_idsA maxId Q hQle s "question" "question" text text (by decide) h.a
  have hblk : (emitF s "question" "question" text text).1.blocks = s.blocks ++
      [⟨(emitF s "question" "question" text text).2, s.curSectionTitle,
        s.curChapterTitle, s.blockOrder + 1, "question", text, text⟩] := rfl
  refine ⟨⟨ha'.rq, ha'.next, ha'.usedQ, ha'.nodup, ha'.cls, ha'.usedEmitted, ha'.wfAgg,
    ha'.introNone, ha'.btypes, ha'.noneInc, ha'.noneAll⟩, ?_, ?_, ?_⟩
  · intro t
    show (List.filter (fun q => q.chapterTitle = t) (s.questions ++
        [⟨(emitF s "question" "question" text text).2, s.questionCounter + 1,
          text, s.curSectionTitle, s.curChapterTitle⟩])).length
      = ((emitF s "question" "question" text text).1.blocks.filter
          (fun b => b.blockType = "question" ∧ b.chapterTitle = t)).length
    rw [hblk, List.filter_append, List.filter_append, List.length_append,
      List.length_append, h.rowCount t]
    congr 1
    by_cases ht : s.curChapterTitle = t
    · simp [ht]
    · simp [ht]
  · show ∃ ns, (List.filter (fun q => q.chapterTitle = s.curChapterTitle)
        (s.questions ++
          [⟨(emitF s "question" "question" text text).2, s.questionCounter + 1,
            text, s.curSectionTitle, s.curChapterTitle⟩])).map (·.questionNumber)
      = flattenRuns ns ++ List.range' 1 (s.questionCounter + 1)
    rcases h.qcur with ⟨ns, hns⟩
    simp only [qNums] at hns
    refine ⟨ns, ?_⟩
    rw [List.filter_append, List.map_append, hns]
    have hone : (List.filter (fun q => q.chapterTitle = s.curChapterTitle)
        [(⟨(emitF s "question" "question" text text).2, s.questionCounter + 1,
           text, s.curSectionTitle, s.curChapterTitle⟩ : QuestionRow)]).map
        (·.questionNumber) = [s.questionCounter + 1] := by simp
    rw [hone, List.append_assoc, range1_concat]
  · intro t ht
    rcases h.qother t (by
      intro hc
      exact ht (by rw [hc]; rfl)) with ⟨ns, hns⟩
    simp only [qNums] at hns
    refine ⟨ns, ?_⟩
    show (List.filter (fun q => q.chapterTitle = t) (s.questions ++
        [⟨(emitF s "question" "question" text text).2, s.questionCounter + 1,
          text, s.curSectionTitle, s.curChapterTitle⟩])).map (·.questionNumber)
      = flattenRuns ns
    rw [List.filter_append]
    have hzero : (List.filter (fun q => q.chapterTitle = t)
        [(⟨(emitF s "question" "question" text text).2, s.questionCounter + 1,
           text, s.curSectionTitle, s.curChapterTitle⟩ : QuestionRow)]) = [] := by
      simp
      intro hc
      exact absurd hc.symm ht
    rw [hzero, List.append_nil, hns]

theorem flushQAF_idsInv (maxId : Nat) (Q : Nat → Prop)
    (hQle : ∀ x, Q x → x ≤ maxId) (s : StF) (h : IdsInv maxId Q s) :
    IdsInv maxId Q (flushQAF s) := by
  cases hm : s.curMode with
  | none =>
    simp only [flushQAF, hm]
    exact idsInv_mk maxId Q _ s h rfl rfl rfl h.a.wfAgg h.a.introNone rfl rfl rfl
  | some mode =>
    simp only [flushQAF, hm]
    by_cases hb : s.curBuffer = []
    · rw [if_pos hb]
      exact idsInv_mk maxId Q _ s h rfl rfl rfl h.a.wfAgg h.a.introNone rfl rfl rfl
    · rw [if_neg hb]
      by_cases hq : mode = "question"
      · simp only [if_pos hq]
        have he := flushQA_question_idsInv maxId Q hQle s (concatStrings s.curBuffer) h
        exact idsInv_mk maxId Q _ _ he rfl rfl rfl he.a.wfAgg he.a.introNone rfl rfl rfl
      · simp only [if_neg hq]
        have he := emitF_idsInv maxId Q hQle s "answer" "answer"
          (concatStrings s.curBuffer) (concatStrings s.curBuffer)
          (by decide) (by decide) h
        exact idsInv_mk maxId Q _ _ he rfl rfl rfl he.a.wfAgg he.a.introNone rfl rfl rfl

theorem startModeF_idsInv (maxId : Nat) (Q : Nat → Prop)
    (hQle : ∀ x, Q x → x ≤ maxId) (s : StF) (mode : String) (h : IdsInv maxId Q s) :
    IdsInv maxId Q (startModeF s mode) := by
  cases hm : s.curMode with
  | none =>
    simp only [startModeF, hm]
    exact idsInv_mk maxId Q _ s h rfl rfl rfl h.a.wfAgg h.a.introNone rfl rfl rfl
  | some m =>
    simp only [startModeF, hm]
    split
    · have hf := flushQAF_idsInv maxId Q hQle s h
      exact idsInv_mk maxId Q _ _ hf rfl rfl rfl hf.a.wfAgg hf.a.introNone rfl rfl rfl
    · exact h

/-- The state update at a chapter heading (before the chapter row is
emitted) re-establishes the invariant: the question counter restarts at 0
and the numbering run so far is archived as a completed run. -/
theorem idsInv_chapter_update (maxId : Nat) (Q : Nat → Prop) (s0 : StF)
    (hf : IdsInv maxId Q s0) (n : Nat) (stripped : String) :
    IdsInv maxId Q
      { s0 with
          curChapterNum := some n
          curChapterTitle := some stripped
          questionCounter := 0
          blockOrder := 0
          chapterOrder := s0.chapterOrder + 1
          introActive := false
          chapters := s0.chapters ++ [(s0.curSectionId, stripped, s0.chapterOrder + 1)] } := by
  refine ⟨⟨hf.a.rq, hf.a.next, hf.a.usedQ, hf.a.nodup, hf.a.cls, hf.a.usedEmitted,
    hf.a.wfAgg, by simp, hf.a.btypes, hf.a.noneInc, by simp⟩, hf.rowCount, ?_, ?_⟩
  · by_cases hts : some stripped = s0.curChapterTitle
    · rcases hf.qcur with ⟨ns, hns⟩
      refine ⟨ns ++ [s0.questionCounter], ?_⟩
      rw [show List.range' 1 0 = [] from rfl, List.append_nil, flattenRuns_concat]
      show qNums s0 (some stripped) = flattenRuns ns ++ List.range' 1 s0.questionCounter
      rw [hts, hns]
    · rcases hf.qother (some stripped) hts with ⟨ns, hns⟩
      refine ⟨ns, ?_⟩
      rw [show List.range' 1 0 = [] from rfl, List.append_nil]
      exact hns
  · intro t ht
    by_cases hts : t = s0.curChapterTitle
    · rcases hf.qcur with ⟨ns, hns⟩
      refine ⟨ns ++ [s0.questionCounter], ?_⟩
      rw [flattenRuns_concat]
      show qNums s0 t = flattenRuns ns ++ List.range' 1 s0.questionCounter
      rw [hts, hns]
    · exact hf.qother t hts

set_option maxHeartbeats 3200000 in
theorem dispatchF_idsInv (maxId : Nat) (Q : Nat → Prop) (hQle : ∀ x, Q x → x ≤ maxId)
    (s : StF) (p : ParaF) (raw stripped : String)
    (h : IdsInv maxId Q s) : IdsInv maxId Q (dispatchF s p raw stripped) := by
  unfold dispatchF
  split
  next n heq =>
    have hf := flushQAF_idsInv maxId Q hQle _ (flushAggregateF_idsInv maxId Q hQle s h)
    set s0 := flushQAF (flushAggregateF s) with hs0
    exact emitF_idsInv maxId Q hQle _ "chapter" "chapter" raw raw (by decide) (by decide)
      (idsInv_chapter_update maxId Q s0 hf n stripped)
  next heq =>
    by_cases hc1 : pyStartsWith stripped "[S]" = true
    case pos =>
      rw [if_pos hc1]
      have hf := flushQAF_idsInv maxId Q hQle _ (flushAggregateF_idsInv maxId Q hQle s h)
      set s0 := flushQAF (flushAggregateF s) with hs0
      have hupd : IdsInv maxId Q
          { s0 with
              curSectionTitle := some stripped
              sectionOrder := s0.sectionOrder + 1
              sections := s0.sections ++
                [(s0.sections.length + 1, stripped, s0.sectionOrder + 1)]
              curSectionId := some (s0.sections.length + 1) } :=
        idsInv_mk maxId Q _ s0 hf rfl rfl rfl hf.a.wfAgg hf.a.introNone rfl rfl rfl
      have he := emitF_idsInv maxId Q hQle _ "section" "section" raw raw
        (by decide) (by decide) hupd
      exact idsInv_mk maxId Q _ _ he rfl rfl rfl he.a.wfAgg (by simp) rfl rfl rfl
    rw [if_neg hc1]
    by_cases hc2 : s.introActive = true
    case pos =>
      rw [if_pos hc2]
      by_cases hc3 : pyStartsWith stripped "[I]" = true
      case pos =>
        rw [if_pos hc3]
        have hf := flushQAF_idsInv maxId Q hQle s h
        by_cases hbold : ((p.filter (fun r => pyStrip r.text ≠ "")).all (·.bold)) = true
        case pos =>
          simp only [hbold, if_true, ite_true]
          exact emitF_idsInv maxId Q hQle (flushQAF s) "intro" "intro_heading" raw
            ("<strong>" ++ escapeHtml raw ++ "</strong>") (by decide) (by decide) hf
        rw [Bool.not_eq_true] at hbold
        simp only [hbold, Bool.false_eq_true, if_false, ite_false]
        exact emitF_idsInv maxId Q hQle (flushQAF s) "intro" "intro_paragraph" raw raw
          (by decide) (by decide) hf
      rw [if_neg hc3]
      exact h
    rw [if_neg hc2]
    by_cases hc4 : s.curChapterTitle = none
    case pos =>
      rw [if_pos hc4]
      by_cases hblue : p.any (·.isBlue) = true
      case pos =>
        rw [if_pos hblue]
        exact idsInv_mk maxId Q _ s h rfl rfl rfl h.a.wfAgg h.a.introNone rfl rfl rfl
      rw [if_neg hblue]; exact h
    rw [if_neg hc4]
    by_cases hc5 : pyStartsWith stripped "[P]" = true
    case pos =>
      rw [if_pos hc5]
      have hf := flushQAF_idsInv maxId Q hQle s h
      exact idsInv_mk maxId Q _ _ hf rfl rfl rfl (Or.inr (Or.inl rfl))
        hf.a.introNone rfl rfl rfl
    rw [if_neg hc5]
    by_cases hc6 : pyStartsWith stripped "[R]" = true
    case pos =>
      rw [if_pos hc6]
      have hf := flushQAF_idsInv maxId Q hQle s h
      exact idsInv_mk maxId Q _ _ hf rfl rfl rfl (Or.inr (Or.inr (Or.inl rfl)))
        hf.a.introNone rfl rfl rfl
    rw [if_neg hc6]
    by_cases hc7 : pyStartsWith stripped "[T]" = true
    case pos =>
      rw [if_pos hc7]
      have hf := flushQAF_idsInv maxId Q hQle s h
      exact idsInv_mk maxId Q _ _ hf rfl rfl rfl (Or.inr (Or.inr (Or.inr rfl)))
        hf.a.introNone rfl rfl rfl
    rw [if_neg hc7]
    by_cases hc8 : pyStartsWith stripped "[N]" = true
    case pos =>
      rw [if_pos hc8]
      have hf := flushQAF_idsInv maxId Q hQle s h
      exact emitF_idsInv maxId Q hQle (flushQAF s) "note" "note" raw raw
        (by decide) (by decide) hf
    rw [if_neg hc8]
    have hstart : IdsInv maxId Q (match p.filter (fun r => r.text ≠ "") with
        | [] => s
        | r0 :: _ =>
          if s.curMode ≠ none ∧ s.curHasText then
            if s.curMode = some (if r0.isBlue then "question" else "answer") then
              { s with curBuffer := s.curBuffer ++ ["\n"] }
            else flushQAF s
          else s) := by
      split
      · exact h
      · split
        · split <;>
            first
              | exact idsInv_mk maxId Q _ s h rfl rfl rfl h.a.wfAgg h.a.introNone
                  rfl rfl rfl
              | exact flushQAF_idsInv maxId Q hQle s h
              | (split <;>
                  first
                    | exact idsInv_mk maxId Q _ s h rfl rfl rfl h.a.wfAgg h.a.introNone
                        rfl rfl rfl
                    | exact flushQAF_idsInv maxId Q hQle s h)
        · exact h
    refine foldl_pres (IdsInv maxId Q) _ ?_ _ _ hstart
    intro s' r hs'
    have h1 := startModeF_idsInv maxId Q hQle s'
      (if r.isBlue then "question" else "answer") hs'
    exact idsInv_mk maxId Q _ _ h1 rfl rfl rfl h1.a.wfAgg h1.a.introNone rfl rfl rfl

theorem stepParaF_idsInv (maxId : Nat) (Q : Nat → Prop) (hQle : ∀ x, Q x → x ≤ maxId)
    (s : StF) (p : ParaF) (h : IdsInv maxId Q s) : IdsInv maxId Q (stepParaF s p) := by
  have hrest : ∀ s' : StF, IdsInv maxId Q s' →
      IdsInv maxId Q (if pyStrip (paraText p) = "" then
          (if s'.curMode ≠ none ∧ s'.curHasText then
            { s' with curBuffer := s'.curBuffer ++ ["\n"] }
          else s')
        else
          match bracketMarker (pyStrip (paraText p)) with
          | some marker =>
            if marker ∉ KNOWN_MARKERS then
              { s' with aborted := some ("Unknown structural marker: " ++ marker) }
            else dispatchF s' p (paraText p) (pyStrip (paraText p))
          | none => dispatchF s' p (paraText p) (pyStrip (paraText p))) := by
    intro s' h'
    split
    · split
      · exact idsInv_mk maxId Q _ s' h' rfl rfl rfl h'.a.wfAgg h'.a.introNone rfl rfl rfl
      · exact h'
    · split
      · split
        · exact idsInv_mk maxId Q _ s' h' rfl rfl rfl h'.a.wfAgg h'.a.introNone rfl rfl rfl
        · exact dispatchF_idsInv maxId Q hQle s' p _ _ h'
      · exact dispatchF_idsInv maxId Q hQle s' p _ _ h'
  unfold stepParaF
  by_cases hab : s.aborted.isSome
  · rw [if_pos hab]; exact h
  rw [if_neg hab]
  cases hagg : s.aggType with
  | none =>
    have h' := hrest s h
    simp only [hagg] at h' ⊢
    exact h'
  | some t =>
    simp only [hagg]
    by_cases hb : (pyStartsWith (pyStrip (paraText p)) "[S]" ||
        pyStartsWith (pyStrip (paraText p)) "[Ch]" ||
        pyStartsWith (pyStrip (paraText p)) "[N]" ||
        pyStartsWith (pyStrip (paraText p)) "[R]" ||
        pyStartsWith (pyStrip (paraText p)) "[T]" ||
        (matchChapter (pyStrip (paraText p)).data).isSome) = true
    · have h' := hrest (flushAggregateF s) (flushAggregateF_idsInv maxId Q hQle s h)
      simp only [hagg] at h'
      simp only [hb, if_true, ite_true]
      exact h'
    · simp only [Bool.not_eq_true] at hb
      simp only [hb, Bool.false_eq_true, if_false, ite_false]
      refine idsInv_mk maxId Q _ s h rfl rfl rfl ?_ h.a.introNone rfl rfl rfl
      rcases h.a.wfAgg with h3 | h3 | h3 | h3 <;> rw [hagg] at h3
      · exact absurd h3 (by simp)
      all_goals simp [WfAgg, h3]

theorem initStF_idsInv (maxId : Nat) (Q : Nat → Prop) (m0 : List ImageBlock)
    (h0 : ∀ b ∈ m0, Q b.blockId) : IdsInv maxId Q (initStF m0 maxId) := by
  refine ⟨⟨initRecon_Q Q m0 maxId h0, Nat.lt_succ_self maxId,
    by simp [initStF, initRecon], by simp [initStF], by simp [initStF],
    by simp [initStF, initRecon], Or.inl rfl, fun _ => rfl, by simp [initStF],
    by simp [initStF], ?_⟩, fun t => rfl, ⟨[], rfl⟩, fun t ht => ⟨[], rfl⟩⟩
  intro _ b hb
  simp [initStF] at hb

theorem traceF_idsInv (maxId : Nat) (Q : Nat → Prop) (hQle : ∀ x, Q x → x ≤ maxId)
    (doc : List ParaF) (m0 : List ImageBlock) (h0 : ∀ b ∈ m0, Q b.blockId) :
    IdsInv maxId Q (traceF doc m0 maxId) := by
  have hfold := foldl_pres (IdsInv maxId Q) stepParaF
    (fun s p => stepParaF_idsInv maxId Q hQle s p) doc (initStF m0 maxId)
    (initStF_idsInv maxId Q m0 h0)
  rw [show traceF doc m0 maxId =
      (if (doc.foldl stepParaF (initStF m0 maxId)).aborted.isSome then
        doc.foldl stepParaF (initStF m0 maxId)
      else flushQAF (flushAggregateF (doc.foldl stepParaF (initStF m0 maxId))))
    from rfl]
  split
  · exact hfold
  · exact flushQAF_idsInv maxId Q hQle _ (flushAggregateF_idsInv maxId Q hQle _ hfold)

/-! ## C9 — no two emitted blocks share a block identifier -/

/-- C9: within one import run of the strict variant, no two emitted blocks
are ever assigned the same block identifier, provided every pre-existing
image-owning row's identifier is at most the pre-existing maximum (which
`_next_block_id` computes over all of `doc_blocks`).  Moreover every
emitted identifier is either a reused one — recorded in `used_block_ids`
and bounded by the old maximum — or a fresh one, strictly above the old
maximum and below the strictly-increasing fresh counter. -/
theorem c9_id_uniqueness (doc : List ParaF) (m0 : List ImageBlock) (maxId : Nat)
    (h : ∀ b ∈ m0, b.blockId ≤ maxId) :
    ((traceF doc m0 maxId).blocks.map (·.blockId)).Nodup ∧
    ∀ b ∈ (traceF doc m0 maxId).blocks,
      (b.blockId ∈ (traceF doc m0 maxId).recon.used ∧ b.blockId ≤ maxId) ∨
      (maxId < b.blockId ∧ b.blockId < (traceF doc m0 maxId).recon.nextId) := by
  have hi := traceF_idsInv maxId (fun x => x ≤ maxId) (fun _ hx => hx) doc m0 h
  refine ⟨hi.a.nodup, fun b hb => ?_⟩
  rcases hi.a.cls b hb with hu | hf
  · exact Or.inl ⟨hu, hi.a.usedQ _ hu⟩
  · exact Or.inr hf

/-- Witness: the chapter/question/answer scenario against one pre-existing
image-owning question row with identifier 2 (old maximum 3). -/
theorem c9_id_uniqueness_witness :
    ((traceF [[⟨"Chapter 1", false, false⟩],
        [⟨"What is sin?", false, true⟩,
         ⟨"Sin is transgression of law.", false, false⟩]]
        [⟨2, none, some "Chapter 1", 2, "question", some "What is sin?"⟩]
        3).blocks.map (·.blockId)).Nodup ∧
    ∀ b ∈ (traceF [[⟨"Chapter 1", false, false⟩],
        [⟨"What is sin?", false, true⟩,
         ⟨"Sin is transgression of law.", false, false⟩]]
        [⟨2, none, some "Chapter 1", 2, "question", some "What is sin?"⟩]
        3).blocks,
      (b.blockId ∈ (traceF [[⟨"Chapter 1", false, false⟩],
        [⟨"What is sin?", false, true⟩,
         ⟨"Sin is transgression of law.", false, false⟩]]
        [⟨2, none, some "Chapter 1", 2, "question", some "What is sin?"⟩]
        3).recon.used ∧ b.blockId ≤ 3) ∨
      (3 < b.blockId ∧ b.blockId < (traceF [[⟨"Chapter 1", false, false⟩],
        [⟨"What is sin?", false, true⟩,
         ⟨"Sin is transgression of law.", false, false⟩]]
        [⟨2, none, some "Chapter 1", 2, "question", some "What is sin?"⟩]
        3).recon.nextId) :=
  c9_id_uniqueness [[⟨"Chapter 1", false, false⟩],
      [⟨"What is sin?", false, true⟩,
       ⟨"Sin is transgression of law.", false, false⟩]]
    [⟨2, none, some "Chapter 1", 2, "question", some "What is sin?"⟩] 3
    (by decide)

/-! ## C3 — question numbers form exactly 1..N per chapter -/

theorem maxL_mem : ∀ (l : List Nat), l ≠ [] → maxL l ∈ l := by
  intro l
  induction l with
  | nil => intro hl; exact absurd rfl hl
  | cons x xs ih =>
    intro _
    show max x (maxL xs) ∈ x :: xs
    cases xs with
    | nil => simp [maxL]
    | cons y ys =>
      rcases max_choice x (maxL (y :: ys)) with hc | hc
      · rw [hc]
        exact List.mem_cons_self _ _
      · rw [hc]
        exact List.mem_cons_of_mem _ (ih (by simp))

theorem flattenRuns_mem_le : ∀ (ns : List Nat) (k : Nat),
    k ∈ flattenRuns ns → k ≤ (flattenRuns ns).length := by
  intro ns
  induction ns with
  | nil => intro k hk; simp [flattenRuns] at hk
  | cons n rest ih =>
    intro k hk
    have hcons : flattenRuns (n :: rest) = List.range' 1 n ++ flattenRuns rest := rfl
    rw [hcons] at hk ⊢
    rw [List.length_append]
    have hlen : (List.range' 1 n).length = n := by simp
    rcases List.mem_append.mp hk with h' | h'
    · have := List.mem_range'_1.mp h'
      omega
    · have := ih k h'
      omega

/-- A concatenation of runs `[1..n_i]` whose length equals its maximum is a
single run: the list `[1, ..., length]`. -/
theorem flattenRuns_eq_range : ∀ ns : List Nat,
    (flattenRuns ns).length = maxL (flattenRuns ns) →
    flattenRuns ns = List.range' 1 (flattenRuns ns).length := by
  intro ns
  induction ns with
  | nil => intro _; rfl
  | cons n rest ih =>
    intro h
    cases n with
    | zero => exact ih h
    | succ m =>
      have hcons : flattenRuns ((m + 1) :: rest)
          = List.range' 1 (m + 1) ++ flattenRuns rest := rfl
      have hlenr : (List.range' 1 (m + 1)).length = m + 1 := by simp
      have hlen2 : (List.range' 1 (m + 1) ++ flattenRuns rest).length
          = (m + 1) + (flattenRuns rest).length := by
        rw [List.length_append, hlenr]
      have hne : flattenRuns ((m + 1) :: rest) ≠ [] := by
        rw [hcons]
        intro hz
        rcases List.append_eq_nil.mp hz with ⟨hr, _⟩
        have hl0 : (List.range' 1 (m + 1)).length = 0 := by rw [hr]; rfl
        rw [hlenr] at hl0
        omega
      have hmax := maxL_mem _ hne
      rw [← h, hcons] at hmax
      rcases List.mem_append.mp hmax with h' | h'
      · have hb := List.mem_range'_1.mp h'
        have hz : (flattenRuns rest).length = 0 := by omega
        have hzz : flattenRuns rest = [] := List.length_eq_zero.mp hz
        rw [hcons, hzz, List.append_nil, hlenr]
      · have hle := flattenRuns_mem_le rest _ h'
        omega

theorem validateF_issue3 (s : StF) (hv : validateF s = []) :
    ∀ t ∈ (s.questions.map (·.chapterTitle)).dedup,
      (qNums s t).length = maxL (qNums s t) ∧ minL (qNums s t) = 1 := by
  intro t ht
  simp only [validateF] at hv
  rcases List.append_eq_nil.mp hv with ⟨_, h3⟩
  split at h3
  next hcond => cases h3
  next hcond =>
    rw [List.any_eq_true] at hcond
    push_neg at hcond
    have hthis := hcond t ht
    simp only [decide_eq_true_eq, not_or, not_not, ne_eq] at hthis
    exact ⟨hthis.1, hthis.2⟩

theorem runResultF_ok_valid (doc : List ParaF) (m0 : List ImageBlock) (maxId : Nat)
    (s : StF) (hok : runResultF doc m0 maxId = Except.ok s) :
    s = traceF doc m0 maxId ∧ (traceF doc m0 maxId).aborted = none ∧
    missingImageIds m0 (traceF doc m0 maxId).recon.used = [] ∧
    validateF (traceF doc m0 maxId) = [] := by
  unfold runResultF at hok
  cases hab : (traceF doc m0 maxId).aborted with
  | some e =>
    simp only [hab] at hok
    simp at hok
  | none =>
    simp only [hab] at hok
    by_cases hm : missingImageIds m0 (traceF doc m0 maxId).recon.used ≠ []
    · rw [if_pos hm] at hok
      cases hok
    · rw [if_neg hm] at hok
      by_cases hvv : validateF (traceF doc m0 maxId) ≠ []
      · rw [if_pos hvv] at hok
        cases hok
      · rw [if_neg hvv] at hok
        rw [not_not] at hm hvv
        cases hok
        exact ⟨rfl, rfl, hm, hvv⟩

/-- C3: in a completed (successful) import, for every chapter title the
recorded question numbers are exactly the list `1, 2, ..., N`, where `N` is
the number of `question` blocks emitted for that chapter. -/
theorem c3_question_numbering (doc : List ParaF) (m0 : List ImageBlock) (maxId : Nat)
    (s : StF) (hok : runResultF doc m0 maxId = Except.ok s)
    (hm0 : ∀ b ∈ m0, b.blockId ≤ maxId) (t : Option String) :
    qNums s t = List.range' 1 ((s.blocks.filter
      (fun b => b.blockType = "question" ∧ b.chapterTitle = t)).length) := by
  obtain ⟨rfl, hab, hmiss, hval⟩ := runResultF_ok_valid doc m0 maxId s hok
  have hi := traceF_idsInv maxId (fun x => x ≤ maxId) (fun _ hx => hx) doc m0 hm0
  set s := traceF doc m0 maxId with hs
  have hrc := hi.rowCount t
  have hlen : (qNums s t).length = (s.blocks.filter
      (fun b => b.blockType = "question" ∧ b.chapterTitle = t)).length := by
    rw [← hrc]
    simp [qNums]
  by_cases hmem : t ∈ s.questions.map (·.chapterTitle)
  · have hded : t ∈ (s.questions.map (·.chapterTitle)).dedup := List.mem_dedup.mpr hmem
    have hv3 := validateF_issue3 s hval t hded
    have hruns : ∃ ns, qNums s t = flattenRuns ns := by
      by_cases hts : t = s.curChapterTitle
      · rcases hi.qcur with ⟨ns, hns⟩
        refine ⟨ns ++ [s.questionCounter], ?_⟩
        rw [flattenRuns_concat, hts, hns]
      · exact hi.qother t hts
    rcases hruns with ⟨ns, hns⟩
    have heq := flattenRuns_eq_range ns (by rw [← hns]; exact hv3.1)
    calc qNums s t = flattenRuns ns := hns
      _ = List.range' 1 (flattenRuns ns).length := heq
      _ = List.range' 1 (qNums s t).length := by rw [← hns]
      _ = List.range' 1 ((s.blocks.filter
            (fun b => b.blockType = "question" ∧ b.chapterTitle = t)).length) := by
          rw [hlen]
  · have hnil : s.questions.filter (fun q => q.chapterTitle = t) = [] := by
      rw [List.filter_eq_nil]
      intro q hq hdec
      refine hmem (List.mem_map.mpr ⟨q, hq, ?_⟩)
      simpa using hdec
    have hq0 : qNums s t = [] := by
      simp [qNums, hnil]
    have hb0 : (s.blocks.filter
        (fun b => b.blockType = "question" ∧ b.chapterTitle = t)).length = 0 := by
      rw [← hrc, hnil]
      rfl
    rw [hq0, hb0]
    rfl

/-- Witness for C3 at the concrete chapter/question/answer document. -/
theorem c3_question_numbering_witness :
    qNums (traceF [[⟨"Chapter 1", false, false⟩],
        [⟨"What is sin?", false, true⟩,
         ⟨"Sin is transgression of law.", false, false⟩]] [] 0) (some "Chapter 1")
      = List.range' 1 (((traceF [[⟨"Chapter 1", false, false⟩],
          [⟨"What is sin?", false, true⟩,
           ⟨"Sin is transgression of law.", false, false⟩]] [] 0).blocks.filter
            (fun b => b.blockType = "question" ∧
              b.chapterTitle = some "Chapter 1")).length) :=
  c3_question_numbering [[⟨"Chapter 1", false, false⟩],
      [⟨"What is sin?", false, true⟩,
       ⟨"Sin is transgression of law.", false, false⟩]] [] 0
    (traceF [[⟨"Chapter 1", false, false⟩],
      [⟨"What is sin?", false, true⟩,
       ⟨"Sin is transgression of law.", false, false⟩]] [] 0)
    rfl (by decide) (some "Chapter 1")

/-! ## C1 — image-owning identifiers are reused exactly once, or the batch
is rejected with a full rollback -/

theorem foldl_maxBlock_init : ∀ (l : List DocBlockF) (m : Nat),
    m ≤ l.foldl (fun m b => max m b.blockId) m := by
  intro l
  induction l with
  | nil => intro m; exact Nat.le_refl m
  | cons x rest ih =>
    intro m
    exact Nat.le_trans (Nat.le_max_left m x.blockId) (ih (max m x.blockId))

theorem maxBlockId_ge : ∀ (l : List DocBlockF) (d : DocBlockF), d ∈ l →
    d.blockId ≤ maxBlockId l := by
  have haux : ∀ (l : List DocBlockF) (m : Nat) (d : DocBlockF), d ∈ l →
      d.blockId ≤ l.foldl (fun m b => max m b.blockId) m := by
    intro l
    induction l with
    | nil => intro m d hd; simp at hd
    | cons x rest ih =>
      intro m d hd
      rcases List.mem_cons.mp hd with h' | h'
      · rw [h']
        exact Nat.le_trans (Nat.le_max_right m x.blockId) (foldl_maxBlock_init rest _)
      · exact ih _ d h'
  intro l d hd
  exact haux l 0 d hd

theorem loadImageBlocks_le (st : Store) :
    ∀ b ∈ loadImageBlocks st, b.blockId ≤ maxBlockId st.docBlocks := by
  intro b hb
  unfold loadImageBlocks at hb
  rcases List.mem_filterMap.mp hb with ⟨d, hd, hsome⟩
  by_cases hc : st.imageIds.contains d.blockId
  · rw [if_pos hc] at hsome
    have hbd : b = ⟨d.blockId, d.sectionTitle, d.chapterTitle, d.blockOrder,
        d.blockType, some d.rawText⟩ := (Option.some_inj.mp hsome).symm
    rw [hbd]
    exact maxBlockId_ge st.docBlocks d hd
  · rw [if_neg hc] at hsome
    cases hsome

/-- C1: (i) on a successful import, every identifier that owned at least one
attached image before the run appears exactly once among the persisted
blocks; (ii) if, when emission finishes without abort, some image-owning
identifier was never reused, the run fails; (iii) any failing run rolls the
store back unchanged. -/
theorem c1_image_reuse (doc : List ParaF) (st : Store) :
    (∀ st', runImport doc st = Except.ok st' →
      ∀ id ∈ imageIdsOf (loadImageBlocks st),
        (st'.docBlocks.map (·.blockId)).count id = 1) ∧
    ((traceF doc (loadImageBlocks st) (maxBlockId st.docBlocks)).aborted = none →
      missingImageIds (loadImageBlocks st)
        (traceF doc (loadImageBlocks st) (maxBlockId st.docBlocks)).recon.used ≠ [] →
      ∃ e, runImport doc st = Except.error e) ∧
    (∀ e, runImport doc st = Except.error e → persistedAfter doc st = st) := by
  refine ⟨?_, ?_, ?_⟩
  · intro st' hok id hid
    unfold runImport at hok
    cases hr : runResultF doc (loadImageBlocks st) (maxBlockId st.docBlocks) with
    | error e =>
      rw [hr] at hok
      simp [Except.map] at hok
    | ok s =>
      rw [hr] at hok
      simp only [Except.map] at hok
      cases hok
      obtain ⟨hs, hab, hmiss, hval⟩ := runResultF_ok_valid _ _ _ s hr
      subst hs
      have hi := traceF_idsInv (maxBlockId st.docBlocks)
        (fun x => x ≤ maxBlockId st.docBlocks) (fun _ hx => hx) doc
        (loadImageBlocks st) (loadImageBlocks_le st)
      have hused : id ∈ (traceF doc (loadImageBlocks st)
          (maxBlockId st.docBlocks)).recon.used := by
        by_contra hnu
        have hmem : id ∈ missingImageIds (loadImageBlocks st)
            (traceF doc (loadImageBlocks st) (maxBlockId st.docBlocks)).recon.used := by
          unfold missingImageIds
          rw [List.mem_filter]
          exact ⟨hid, by simp [hnu]⟩
        rw [hmiss] at hmem
        simp at hmem
      have hmemblocks := hi.a.usedEmitted id hused
      exact List.count_eq_one_of_mem hi.a.nodup hmemblocks
  · intro hab hmiss
    refine ⟨"Unmatched image blocks; aborting to preserve references.", ?_⟩
    have h1 : runResultF doc (loadImageBlocks st) (maxBlockId st.docBlocks)
        = Except.error "Unmatched image blocks; aborting to preserve references." := by
      unfold runResultF
      simp only [hab]
      rw [if_pos hmiss]
    unfold runImport
    rw [h1]
    rfl
  · intro e he
    unfold persistedAfter
    rw [he]

/-- The document and the store used to instantiate C1: block 2 of the store
owns an image and is reused by the question block. -/
def docC1 : List ParaF :=
  [[⟨"Chapter 1", false, false⟩],
   [⟨"What is sin?", false, true⟩,
    ⟨"Sin is transgression of law.", false, false⟩]]

def storeC1 : Store :=
  ⟨[⟨1, none, some "Chapter 1", 1, "chapter", "Chapter 1", "Chapter 1"⟩,
    ⟨2, none, some "Chapter 1", 2, "question", "What is sin?", "What is sin?"⟩,
    ⟨3, none, some "Chapter 1", 3, "answer", "Sin is transgression of law.",
     "Sin is transgression of law."⟩],
   [2]⟩

/-- Witness for C1: after re-importing against `storeC1`, identifier 2 (the
image-owning one) appears exactly once among the persisted blocks. -/
theorem c1_image_reuse_witness :
    (((⟨(traceF docC1 (loadImageBlocks storeC1) (maxBlockId storeC1.docBlocks)).blocks,
       storeC1.imageIds⟩ : Store)).docBlocks.map (·.blockId)).count 2 = 1 :=
  (c1_image_reuse docC1 storeC1).1
    ⟨(traceF docC1 (loadImageBlocks storeC1) (maxBlockId storeC1.docBlocks)).blocks,
     storeC1.imageIds⟩ rfl 2 (by decide)

/-! ## C2 — infrastructure: association lists and grouping

Re-importing runs the same machine against the store the first run wrote.
The lemmas below characterize the reconciler's grouped structures. -/

def alookupD {α β : Type} [DecidableEq α] (m : List (α × List β)) (k : α) :
    List β := (alookup m k).getD []

theorem alookup_aupdate_self {α β : Type} [DecidableEq α] :
    ∀ (m : List (α × β)) (k : α) (w v : β), alookup m k = some w →
    alookup (aupdate m k v) k = some v := by
  intro m
  induction m with
  | nil => intro k w v h; simp [alookup] at h
  | cons e rest ih =>
    intro k w v h
    rcases e with ⟨k', v'⟩
    by_cases hk : k' = k
    · simp [aupdate, if_pos hk, alookup, hk]
    · simp only [aupdate, if_neg hk, alookup, if_neg hk]
      simp only [alookup, if_neg hk] at h
      exact ih k w v h

theorem alookup_aupdate_other {α β : Type} [DecidableEq α] :
    ∀ (m : List (α × β)) (k k' : α) (v : β), k' ≠ k →
    alookup (aupdate m k v) k' = alookup m k' := by
  intro m
  induction m with
  | nil => intro k k' v _; rfl
  | cons e rest ih =>
    intro k k' v hne
    rcases e with ⟨k0, v0⟩
    by_cases hk : k0 = k
    · simp only [aupdate, if_pos hk, alookup]
      rw [if_neg (by rw [hk]; exact fun hh => hne hh.symm),
        if_neg (by rw [hk]; exact fun hh => hne hh.symm)]
    · simp only [aupdate, if_neg hk, alookup]
      by_cases hk' : k0 = k'
      · rw [if_pos hk', if_pos hk']
      · rw [if_neg hk', if_neg hk']
        exact ih k k' v hne

theorem aupdate_absent {α β : Type} [DecidableEq α] :
    ∀ (m : List (α × β)) (k : α) (v : β), alookup m k = none →
    aupdate m k v = m := by
  intro m
  induction m with
  | nil => intro k v _; rfl
  | cons e rest ih =>
    intro k v h
    rcases e with ⟨k0, v0⟩
    by_cases hk : k0 = k
    · simp [alookup, if_pos hk] at h
    · simp only [alookup, if_neg hk] at h
      simp only [aupdate, if_neg hk]
      rw [ih k v h]

theorem aupdate_keys {α β : Type} [DecidableEq α] :
    ∀ (m : List (α × β)) (k : α) (v : β),
    (aupdate m k v).map (fun e : α × β => e.1) = m.map (fun e : α × β => e.1) := by
  intro m
  induction m with
  | nil => intro k v; rfl
  | cons e rest ih =>
    intro k v
    rcases e with ⟨k0, v0⟩
    by_cases hk : k0 = k
    · simp [aupdate, if_pos hk]
    · simp only [aupdate, if_neg hk, List.map_cons]
      rw [ih k v]

theorem alookup_none_notkey {α β : Type} [DecidableEq α] :
    ∀ (m : List (α × β)) (k : α), alookup m k = none → ∀ e ∈ m, e.1 ≠ k := by
  intro m
  induction m with
  | nil => intro k _ e he; simp at he
  | cons x rest ih =>
    intro k h e he
    rcases x with ⟨k0, v0⟩
    by_cases hk : k0 = k
    · simp [alookup, if_pos hk] at h
    · simp only [alookup, if_neg hk] at h
      rcases List.mem_cons.mp he with h' | h'
      · rw [h']; exact hk
      · exact ih k h e h'

theorem alookup_append_left {α β : Type} [DecidableEq α] :
    ∀ (m m2 : List (α × β)) (k : α) (v : β), alookup m k = some v →
    alookup (m ++ m2) k = some v := by
  intro m
  induction m with
  | nil => intro m2 k v h; simp [alookup] at h
  | cons e rest ih =>
    intro m2 k v h
    rcases e with ⟨k0, v0⟩
    by_cases hk : k0 = k
    · simp only [alookup, if_pos hk] at h ⊢
      exact h
    · simp only [List.cons_append, alookup, if_neg hk] at h ⊢
      exact ih m2 k v h

theorem alookup_append_right {α β : Type} [DecidableEq α] :
    ∀ (m m2 : List (α × β)) (k : α), alookup m k = none →
    alookup (m ++ m2) k = alookup m2 k := by
  intro m
  induction m with
  | nil => intro m2 k _; rfl
  | cons e rest ih =>
    intro m2 k h
    rcases e with ⟨k0, v0⟩
    by_cases hk : k0 = k
    · simp [alookup, if_pos hk] at h
    · simp only [alookup, if_neg hk] at h
      simp only [List.cons_append, alookup, if_neg hk]
      exact ih m2 k h

/-- Grouping one more block preserves the grouping characterization and the
distinctness of group keys. -/
theorem ins_char {κ : Type} [DecidableEq κ] (kf : ImageBlock → κ)
    (m : List (κ × List ImageBlock)) (pre : List ImageBlock) (b : ImageBlock)
    (hm : ∀ k, match alookup m k with
      | some v => v = pre.filter (fun x => kf x = k)
      | none => pre.filter (fun x => kf x = k) = [])
    (hknd : (m.map (fun e => e.1)).Nodup) :
    (∀ k, match alookup (match alookup m (kf b) with
        | some l => aupdate m (kf b) (l ++ [b])
        | none => m ++ [(kf b, [b])]) k with
      | some v => v = (pre ++ [b]).filter (fun x => kf x = k)
      | none => (pre ++ [b]).filter (fun x => kf x = k) = []) ∧
    ((match alookup m (kf b) with
        | some l => aupdate m (kf b) (l ++ [b])
        | none => m ++ [(kf b, [b])]).map
      (fun e : κ × List ImageBlock => e.1)).Nodup := by
  cases hl : alookup m (kf b) with
  | some l =>
    constructor
    · intro k
      by_cases hkb : kf b = k
      · subst hkb
        rw [alookup_aupdate_self m (kf b) l _ hl]
        have hv := hm (kf b)
        rw [hl] at hv
        rw [List.filter_append, ← hv]
        simp
      · rw [alookup_aupdate_other m (kf b) k _ (fun hh => hkb hh.symm)]
        have hfb : (pre ++ [b]).filter (fun x => kf x = k)
            = pre.filter (fun x => kf x = k) := by
          rw [List.filter_append]
          simp [hkb]
        rw [hfb]
        exact hm k
    · have hgoal : ((aupdate m (kf b) (l ++ [b])).map (fun e => e.1)).Nodup := by
        rw [aupdate_keys]
        exact hknd
      exact hgoal
  | none =>
    constructor
    · intro k
      by_cases hkb : kf b = k
      · subst hkb
        rw [alookup_append_right m _ (kf b) hl]
        simp only [alookup, if_pos rfl]
        have hv := hm (kf b)
        rw [hl] at hv
        rw [List.filter_append, hv]
        simp
      · cases hlk : alookup m k with
        | some v =>
          rw [alookup_append_left m _ k v hlk]
          have hvv := hm k
          rw [hlk] at hvv
          rw [List.filter_append]
          simp [hkb, hvv]
        | none =>
          rw [alookup_append_right m _ k hlk]
          simp only [alookup]
          rw [if_neg hkb]
          have hvv := hm k
          rw [hlk] at hvv
          rw [List.filter_append]
          simp [hkb, hvv]
    · have hgoal : ((m ++ [(kf b, [b])]).map (fun e => e.1)).Nodup := by
        simp only [List.map_append]
        refine List.Nodup.append hknd (by simp) ?_
        intro x hx hy
        simp only [List.map_cons, List.map_nil, List.mem_singleton] at hy
        rcases List.mem_map.mp hx with ⟨e, he, hex⟩
        exact absurd (hex.trans hy) (alookup_none_notkey m (kf b) hl e he)
      exact hgoal

theorem foldl_ins_char {κ : Type} [DecidableEq κ] (kf : ImageBlock → κ)
    (ins : List (κ × List ImageBlock) → ImageBlock → List (κ × List ImageBlock))
    (hins : ∀ m b, ins m b = match alookup m (kf b) with
      | some l => aupdate m (kf b) (l ++ [b])
      | none => m ++ [(kf b, [b])]) :
    ∀ (l : List ImageBlock) (m : List (κ × List ImageBlock)) (pre : List ImageBlock),
    (∀ k, match alookup m k with
      | some v => v = pre.filter (fun x => kf x = k)
      | none => pre.filter (fun x => kf x = k) = []) →
    (m.map (fun e => e.1)).Nodup →
    (∀ k, match alookup (l.foldl ins m) k with
      | some v => v = (pre ++ l).filter (fun x => kf x = k)
      | none => (pre ++ l).filter (fun x => kf x = k) = []) ∧
    ((l.foldl ins m).map (fun e => e.1)).Nodup := by
  intro l
  induction l with
  | nil =>
    intro m pre hm hknd
    refine ⟨fun k => ?_, hknd⟩
    have := hm k
    simp only [List.append_nil, List.foldl_nil]
    exact this
  | cons b rest ih =>
    intro m pre hm hknd
    have hstep := ins_char kf m pre b hm hknd
    rw [← hins m b] at hstep
    have := ih (ins m b) (pre ++ [b]) hstep.1 hstep.2
    simp only [List.foldl_cons]
    constructor
    · intro k
      have h2 := this.1 k
      rw [List.append_assoc] at h2
      simp only [List.singleton_append] at h2
      exact h2
    · exact this.2

theorem alookup_of_mem_nodup {α β : Type} [DecidableEq α] :
    ∀ (m : List (α × β)) (k : α) (v : β),
    (m.map (fun e => e.1)).Nodup → (k, v) ∈ m → alookup m k = some v := by
  intro m
  induction m with
  | nil => intro k v _ h; simp at h
  | cons e rest ih =>
    intro k v hnd hm
    rcases e with ⟨k0, v0⟩
    rcases List.mem_cons.mp hm with h' | h'
    · obtain ⟨hk, hv⟩ := Prod.mk.injEq .. ▸ h'
      simp [alookup, hk.symm, hv]
    · by_cases hk : k0 = k
      · exfalso
        subst hk
        have hh := (List.nodup_cons.mp hnd).1
        exact hh (List.mem_map.mpr ⟨(k0, v), h', rfl⟩)
      · simp only [alookup, if_neg hk]
        exact ih k v (List.nodup_cons.mp hnd).2 h'

theorem buildMap_char (l : List ImageBlock) :
    (∀ k, match alookup (buildMap l) k with
      | some v => v = l.filter (fun x => x.key = k)
      | none => l.filter (fun x => x.key = k) = []) ∧
    ((buildMap l).map (fun e => e.1)).Nodup := by
  have h := foldl_ins_char ImageBlock.key insMapEntry (fun m b => rfl) l [] []
    (by
      intro k
      simp [alookup])
    (by simp)
  simpa using h

theorem buildMap_groupD (l : List ImageBlock) (k : BKey) :
    alookupD (buildMap l) k = l.filter (fun x => x.key = k) := by
  have h := (buildMap_char l).1 k
  cases hl : alookup (buildMap l) k with
  | some v =>
    rw [hl] at h
    simp [alookupD, hl, h]
  | none =>
    rw [hl] at h
    simp [alookupD, hl, h.symm]

theorem buildMap_entry (l : List ImageBlock) :
    ∀ e ∈ buildMap l, e.2 = l.filter (fun x => x.key = e.1) := by
  intro e he
  rcases e with ⟨k, v⟩
  have hl := alookup_of_mem_nodup (buildMap l) k v (buildMap_char l).2 he
  have h := (buildMap_char l).1 k
  rw [hl] at h
  exact h

def mapFlat (m : List (BKey × List ImageBlock)) : List ImageBlock :=
  (m.map (·.2)).flatten

theorem mapFlat_mem (l : List ImageBlock) (b : ImageBlock) :
    b ∈ mapFlat (buildMap l) ↔ b ∈ l := by
  constructor
  · intro hb
    rcases List.mem_flatten.mp hb with ⟨g, hg, hbg⟩
    rcases List.mem_map.mp hg with ⟨e, he, rfl⟩
    exact buildMap_Q (fun x => x ∈ l) l (fun x hx => hx) e he b hbg
  · intro hb
    have hchar := buildMap_groupD l b.key
    have hbmem : b ∈ l.filter (fun x => x.key = b.key) :=
      List.mem_filter.mpr ⟨hb, by simp⟩
    rw [← hchar] at hbmem
    unfold alookupD at hbmem
    cases hl : alookup (buildMap l) b.key with
    | none =>
      rw [hl] at hbmem
      simp at hbmem
    | some v =>
      rw [hl] at hbmem
      simp only [Option.getD_some] at hbmem
      have hmm := alookup_mem _ _ _ hl
      exact List.mem_flatten.mpr ⟨v, List.mem_map.mpr ⟨(b.key, v), hmm, rfl⟩, hbmem⟩

theorem mapFlat_nodup (l : List ImageBlock) (hnd : l.Nodup) :
    (mapFlat (buildMap l)).Nodup := by
  unfold mapFlat
  rw [List.nodup_flatten]
  constructor
  · intro g hg
    rcases List.mem_map.mp hg with ⟨e, he, rfl⟩
    rw [buildMap_entry l e he]
    exact List.Nodup.filter _ hnd
  · rw [List.pairwise_map]
    have hknd := (buildMap_char l).2
    rw [List.Nodup, List.pairwise_map] at hknd
    refine List.Pairwise.imp_of_mem ?_ hknd
    intro e e' he he' hne
    intro x hx hx'
    have h1 := buildMap_entry l e he
    have h2 := buildMap_entry l e' he'
    rw [h1] at hx
    rw [h2] at hx'
    have k1 := List.of_mem_filter hx
    have k2 := List.of_mem_filter hx'
    simp only [decide_eq_true_eq] at k1 k2
    exact hne (k1 ▸ k2)

def chapPoolOf (l : List ImageBlock) (c : Option String) : List ImageBlock :=
  alookupD (buildByChapter (buildMap l)) c

theorem byChapter_char (l : List ImageBlock) :
    (∀ c, match alookup (buildByChapter (buildMap l)) c with
      | some v => v = (mapFlat (buildMap l)).filter (fun x => x.chapterTitle = c)
      | none => (mapFlat (buildMap l)).filter (fun x => x.chapterTitle = c) = []) ∧
    ((buildByChapter (buildMap l)).map (fun e => e.1)).Nodup := by
  have h := foldl_ins_char (fun b => b.chapterTitle) insChapEntry (fun m b => rfl)
    (mapFlat (buildMap l)) [] []
    (by
      intro c
      simp [alookup])
    (by simp)
  simpa using h

theorem chapPool_groupD (l : List ImageBlock) (c : Option String) :
    chapPoolOf l c = (mapFlat (buildMap l)).filter (fun x => x.chapterTitle = c) := by
  have h := (byChapter_char l).1 c
  unfold chapPoolOf
  cases hl : alookup (buildByChapter (buildMap l)) c with
  | some v =>
    rw [hl] at h
    simp [alookupD, hl, h]
  | none =>
    rw [hl] at h
    simp [alookupD, hl, h.symm]

theorem chapPool_mem (l : List ImageBlock) (c : Option String) (b : ImageBlock) :
    b ∈ chapPoolOf l c ↔ (b ∈ l ∧ b.chapterTitle = c) := by
  rw [chapPool_groupD, List.mem_filter]
  constructor
  · intro ⟨h1, h2⟩
    exact ⟨(mapFlat_mem l b).mp h1, by simpa using h2⟩
  · intro ⟨h1, h2⟩
    exact ⟨(mapFlat_mem l b).mpr h1, by simpa using h2⟩

theorem chapPool_nodup (l : List ImageBlock) (hnd : l.Nodup) (c : Option String) :
    (chapPoolOf l c).Nodup := by
  rw [chapPool_groupD]
  exact List.Nodup.filter _ (mapFlat_nodup l hnd)

theorem buildMap_groupD_nodup (l : List ImageBlock) (hnd : l.Nodup) (k : BKey) :
    (alookupD (buildMap l) k).Nodup := by
  rw [buildMap_groupD]
  exact List.Nodup.filter _ hnd

/-! ### Image rows of a block list, and row-wise matching of two runs -/

def imOf (b : DocBlockF) : ImageBlock :=
  ⟨b.blockId, b.sectionTitle, b.chapterTitle, b.blockOrder, b.blockType, some b.rawText⟩

/-- The image-owning rows of a block list, as `_load_image_blocks` sees them. -/
def imRows (IM : List Nat) (bs : List DocBlockF) : List ImageBlock :=
  bs.filterMap (fun b => if IM.contains b.blockId then some (imOf b) else none)

theorem loadImageBlocks_eq (bs : List DocBlockF) (IM : List Nat) :
    loadImageBlocks ⟨bs, IM⟩ = imRows IM bs := rfl

theorem imRows_append (IM : List Nat) (l1 l2 : List DocBlockF) :
    imRows IM (l1 ++ l2) = imRows IM l1 ++ imRows IM l2 := by
  simp [imRows]

theorem imRows_cons_mem (IM : List Nat) (b : DocBlockF) (l : List DocBlockF)
    (h : IM.contains b.blockId = true) :
    imRows IM (b :: l) = imOf b :: imRows IM l := by
  have h' : b.blockId ∈ IM := by simpa using h
  simp [imRows, h']

theorem imRows_cons_not (IM : List Nat) (b : DocBlockF) (l : List DocBlockF)
    (h : IM.contains b.blockId = false) :
    imRows IM (b :: l) = imRows IM l := by
  have h' : ¬(b.blockId ∈ IM) := by simpa using h
  simp [imRows, h']

theorem imRows_mem (IM : List Nat) (bs : List DocBlockF) (r : ImageBlock) :
    r ∈ imRows IM bs ↔ ∃ b ∈ bs, IM.contains b.blockId = true ∧ r = imOf b := by
  constructor
  · intro h
    rcases List.mem_filterMap.mp h with ⟨b, hb, hsome⟩
    by_cases hc : IM.contains b.blockId
    · rw [if_pos hc] at hsome
      exact ⟨b, hb, hc, (Option.some_inj.mp hsome).symm⟩
    · rw [if_neg hc] at hsome
      cases hsome
  · intro ⟨b, hb, hc, hr⟩
    exact List.mem_filterMap.mpr ⟨b, hb, by rw [if_pos hc, hr]⟩

/-- Positional matching of the two runs' emitted rows: all fields agree
except possibly the identifier, and the identifiers agree whenever either
one owns an image. -/
def rowEqIM (IM : List Nat) (b u : DocBlockF) : Prop :=
  u.sectionTitle = b.sectionTitle ∧ u.chapterTitle = b.chapterTitle ∧
  u.blockOrder = b.blockOrder ∧ u.blockType = b.blockType ∧
  u.rawText = b.rawText ∧ u.normalizedText = b.normalizedText ∧
  ((IM.contains b.blockId = true ∨ IM.contains u.blockId = true) →
    u.blockId = b.blockId)

def rowsMatch (IM : List Nat) : List DocBlockF → List DocBlockF → Prop
  | [], [] => True
  | b :: bs, u :: us => rowEqIM IM b u ∧ rowsMatch IM bs us
  | _, _ => False

theorem rowsMatch_append (IM : List Nat) :
    ∀ (bs us : List DocBlockF), rowsMatch IM bs us →
    ∀ (b u : DocBlockF), rowEqIM IM b u →
    rowsMatch IM (bs ++ [b]) (us ++ [u]) := by
  intro bs
  induction bs with
  | nil =>
    intro us h b u hbu
    cases us with
    | nil => exact ⟨hbu, trivial⟩
    | cons x xs => exact absurd h (by simp [rowsMatch])
  | cons b0 bs0 ih =>
    intro us h b u hbu
    cases us with
    | nil => exact absurd h (by simp [rowsMatch])
    | cons u0 us0 =>
      obtain ⟨h1, h2⟩ := h
      exact ⟨h1, ih us0 h2 b u hbu⟩

theorem rowsMatch_imRows (IM : List Nat) :
    ∀ (bs us : List DocBlockF), rowsMatch IM bs us →
    imRows IM us = imRows IM bs := by
  intro bs
  induction bs with
  | nil =>
    intro us h
    cases us with
    | nil => rfl
    | cons x xs => exact absurd h (by simp [rowsMatch])
  | cons b bs0 ih =>
    intro us h
    cases us with
    | nil => exact absurd h (by simp [rowsMatch])
    | cons u us0 =>
      obtain ⟨h1, h2⟩ := h
      by_cases hb : IM.contains b.blockId = true
      · have hid : u.blockId = b.blockId := h1.2.2.2.2.2.2 (Or.inl hb)
        have hu : IM.contains u.blockId = true := by rw [hid]; exact hb
        rw [imRows_cons_mem IM b bs0 hb, imRows_cons_mem IM u us0 hu, ih us0 h2]
        have himof : imOf u = imOf b := by
          simp [imOf, h1.1, h1.2.1, h1.2.2.1, h1.2.2.2.1, h1.2.2.2.2.1, hid]
        rw [himof]
      · have hb' : IM.contains b.blockId = false := by
          simpa using hb
        have hu' : IM.contains u.blockId = false := by
          by_contra hcon
          have hu : IM.contains u.blockId = true := by
            simpa using hcon
          have hid : u.blockId = b.blockId := h1.2.2.2.2.2.2 (Or.inr hu)
          rw [hid] at hu
          rw [hu] at hb'
          cases hb'
        rw [imRows_cons_not IM b bs0 hb', imRows_cons_not IM u us0 hu']
        exact ih us0 h2

theorem rowsMatch_filter_nil (IM : List Nat) (p : DocBlockF → Bool)
    (hp : ∀ b u, rowEqIM IM b u → p u = p b) :
    ∀ (bs us : List DocBlockF), rowsMatch IM bs us →
    ((us.filter p = []) ↔ (bs.filter p = [])) := by
  intro bs
  induction bs with
  | nil =>
    intro us h
    cases us with
    | nil => exact Iff.rfl
    | cons x xs => exact absurd h (by simp [rowsMatch])
  | cons b bs0 ih =>
    intro us h
    cases us with
    | nil => exact absurd h (by simp [rowsMatch])
    | cons u us0 =>
      obtain ⟨h1, h2⟩ := h
      have hpu := hp b u h1
      by_cases hpb : p b = true
      · rw [List.filter_cons_of_pos (by rw [hpu]; exact hpb),
          List.filter_cons_of_pos hpb]
        simp
      · have hpb' : p b = false := by simpa using hpb
        rw [List.filter_cons_of_neg (by simp [hpu, hpb']),
          List.filter_cons_of_neg (by simp [hpb'])]
        exact ih us0 h2

/-! ### Question-row projections shared by the two runs -/

def qProj (q : QuestionRow) : Nat × Option String := (q.questionNumber, q.chapterTitle)

theorem qProj_titles (bs us : List QuestionRow)
    (h : us.map qProj = bs.map qProj) :
    us.map (·.chapterTitle) = bs.map (·.chapterTitle) := by
  have h2 := congrArg (List.map Prod.snd) h
  simpa [List.map_map, Function.comp, qProj] using h2

theorem qProj_nums (t : Option String) :
    ∀ (bs us : List QuestionRow), us.map qProj = bs.map qProj →
    (us.filter (fun q => q.chapterTitle = t)).map (·.questionNumber)
      = (bs.filter (fun q => q.chapterTitle = t)).map (·.questionNumber) := by
  intro bs
  induction bs with
  | nil =>
    intro us h
    cases us with
    | nil => rfl
    | cons x xs => simp at h
  | cons b bs0 ih =>
    intro us h
    cases us with
    | nil => simp at h
    | cons u us0 =>
      simp only [List.map_cons, List.cons.injEq] at h
      obtain ⟨hh, ht⟩ := h
      have hnum : u.questionNumber = b.questionNumber := congrArg Prod.fst hh
      have hch : u.chapterTitle = b.chapterTitle := congrArg Prod.snd hh
      by_cases hc : b.chapterTitle = t
      · rw [List.filter_cons_of_pos (by simp [hch, hc]),
          List.filter_cons_of_pos (by simp [hc])]
        simp only [List.map_cons, hnum]
        rw [ih us0 ht]
      · rw [List.filter_cons_of_neg (by simp [hch, hc]),
          List.filter_cons_of_neg (by simp [hc])]
        exact ih us0 ht

/-! ### Candidate popping, removal and proximity selection, characterized -/

theorem unusedBlocks_cons (used : List Nat) (c : ImageBlock) (cs : List ImageBlock) :
    unusedBlocks used (c :: cs) =
      if used.contains c.blockId then unusedBlocks used cs
      else c :: unusedBlocks used cs := by
  by_cases hc : c.blockId ∈ used
  · have hc' : used.contains c.blockId = true := by simpa using hc
    rw [if_pos hc']
    simp [unusedBlocks, hc]
  · have hc' : used.contains c.blockId = false := by simpa using hc
    rw [if_neg (by simpa using hc)]
    simp [unusedBlocks, hc]

theorem popCand_char (used : List Nat) : ∀ l : List ImageBlock,
    (unusedBlocks used l = [] → popCand used l = (none, [])) ∧
    (∀ b bs, unusedBlocks used l = b :: bs →
      ∃ pre rest, l = pre ++ b :: rest ∧
        (∀ x ∈ pre, used.contains x.blockId = true) ∧
        popCand used l = (some b, rest)) := by
  intro l
  induction l with
  | nil =>
    refine ⟨fun _ => rfl, fun b bs h => ?_⟩
    simp [unusedBlocks] at h
  | cons c cs ih =>
    rw [unusedBlocks_cons]
    by_cases hc : used.contains c.blockId
    · rw [if_pos hc]
      refine ⟨fun h => ?_, fun b bs h => ?_⟩
      · simp only [popCand, if_pos hc]
        exact ih.1 h
      · rcases ih.2 b bs h with ⟨pre, rest, hsplit, hpre, hpop⟩
        refine ⟨c :: pre, rest, (by rw [List.cons_append, hsplit]), ?_, ?_⟩
        · intro x hx
          rcases List.mem_cons.mp hx with h' | h'
          · rw [h']; exact hc
          · exact hpre x h'
        · simp only [popCand, if_pos hc]
          exact hpop
    · rw [if_neg hc]
      refine ⟨fun h => (by cases h), fun b bs h => ?_⟩
      injection h with hb hbs
      refine ⟨[], cs, ?_, (by intro x hx; simp at hx), ?_⟩
      · rw [hb]
        rfl
      · simp only [popCand, if_neg hc]
        rw [hb]

theorem removeFirstIB_mem_of_ne :
    ∀ (l : List ImageBlock) (y x : ImageBlock), x ∈ l → x ≠ y →
    x ∈ removeFirstIB l y := by
  intro l
  induction l with
  | nil => intro y x hx _; simp at hx
  | cons c cs ih =>
    intro y x hx hne
    by_cases hc : c = y
    · simp only [removeFirstIB, if_pos hc]
      rcases List.mem_cons.mp hx with h' | h'
      · exact absurd (h'.trans hc) hne
      · exact h'
    · simp only [removeFirstIB, if_neg hc]
      rcases List.mem_cons.mp hx with h' | h'
      · rw [h']; exact List.mem_cons_self _ _
      · exact List.mem_cons_of_mem _ (ih y x h' hne)

theorem removeFirstIB_not_mem_self :
    ∀ (l : List ImageBlock) (y : ImageBlock), l.Nodup → y ∉ removeFirstIB l y := by
  intro l
  induction l with
  | nil => intro y _ h; simp [removeFirstIB] at h
  | cons c cs ih =>
    intro y hnd h
    by_cases hc : c = y
    · simp only [removeFirstIB, if_pos hc] at h
      have := (List.nodup_cons.mp hnd).1
      rw [hc] at this
      exact this h
    · simp only [removeFirstIB, if_neg hc] at h
      rcases List.mem_cons.mp h with h' | h'
      · exact hc h'.symm
      · exact ih y (List.nodup_cons.mp hnd).2 h'

theorem removeFirstIB_sublist :
    ∀ (l : List ImageBlock) (y : ImageBlock), List.Sublist (removeFirstIB l y) l := by
  intro l
  induction l with
  | nil => intro y; simp [removeFirstIB]
  | cons c cs ih =>
    intro y
    by_cases hc : c = y
    · simp only [removeFirstIB, if_pos hc]
      exact List.sublist_cons_self c cs
    · simp only [removeFirstIB, if_neg hc]
      exact List.Sublist.cons₂ c (ih y)

theorem pickClosest1_min (v : Nat) :
    ∀ (l : List ImageBlock) (b x : ImageBlock), x ∈ b :: l →
    Nat.dist (pickClosest1 v b l).blockOrder v ≤ Nat.dist x.blockOrder v := by
  intro l
  induction l with
  | nil =>
    intro b x hx
    rcases List.mem_singleton.mp hx with rfl
    exact Nat.le_refl _
  | cons c rest ih =>
    intro b x hx
    simp only [pickClosest1]
    by_cases hcmp : Nat.dist b.blockOrder v ≤
        Nat.dist (pickClosest1 v c rest).blockOrder v
    · rw [if_pos hcmp]
      rcases List.mem_cons.mp hx with h' | h'
      · rw [h']
      · exact Nat.le_trans hcmp (ih c x h')
    · rw [if_neg hcmp]
      rcases List.mem_cons.mp hx with h' | h'
      · rw [h']
        exact Nat.le_of_lt (Nat.lt_of_not_le hcmp)
      · exact ih c x h'

/-- With a unique distance-minimal element in the pool, `min(...)` picks it. -/
theorem pickClosest1_unique (v : Nat) (p0 : ImageBlock) (ps : List ImageBlock)
    (y : ImageBlock) (hy : y ∈ p0 :: ps) (hy0 : y.blockOrder = v)
    (hothers : ∀ x ∈ p0 :: ps, x ≠ y → x.blockOrder ≠ v) :
    pickClosest1 v p0 ps = y := by
  have hmem := pickClosest1_mem v p0 ps
  have hmin := pickClosest1_min v ps p0 y hy
  have hy0d : Nat.dist y.blockOrder v = 0 := by rw [hy0]; exact Nat.dist_self v
  rw [hy0d] at hmin
  have h0 : Nat.dist (pickClosest1 v p0 ps).blockOrder v = 0 := Nat.le_zero.mp hmin
  have hord : (pickClosest1 v p0 ps).blockOrder = v := Nat.eq_of_dist_eq_zero h0
  by_contra hne
  exact hothers _ hmem hne hord

/-! ### Availability of image blocks in the first run's reconciler -/

/-- `r` can still be handed out by the reconciler of `s`: an unused block
with its identifier sits in the chapter pool of `r`'s chapter. -/
def availIn (s : StF) (r : ImageBlock) : Prop :=
  ∃ b ∈ alookupD s.recon.byChapter r.chapterTitle,
    b.blockId = r.blockId ∧ r.blockId ∉ s.recon.used

/-- Structural facts about the first run's reconciler that hold along the
whole run: map entries carry their own key, unused map entries are still in
their chapter pool, chapter pools carry their own chapter. -/
structure SyncOK (maxId : Nat) (s : StF) : Prop where
  mapkey : ∀ k, ∀ b ∈ alookupD s.recon.imageMap k, b.key = k
  sync : ∀ k, ∀ b ∈ alookupD s.recon.imageMap k, b.blockId ∉ s.recon.used →
    b ∈ alookupD s.recon.byChapter b.chapterTitle
  chapkey : ∀ c, ∀ b ∈ alookupD s.recon.byChapter c, b.chapterTitle = c
  next : maxId < s.recon.nextId

theorem alookupD_aupdate_self {α β : Type} [DecidableEq α]
    (m : List (α × List β)) (k : α) (w : List β) (v : List β)
    (h : alookup m k = some w) : alookupD (aupdate m k v) k = v := by
  unfold alookupD
  rw [alookup_aupdate_self m k w v h]
  rfl

theorem alookupD_aupdate_other {α β : Type} [DecidableEq α]
    (m : List (α × List β)) (k k' : α) (v : List β) (h : k' ≠ k) :
    alookupD (aupdate m k v) k' = alookupD m k' := by
  unfold alookupD
  rw [alookup_aupdate_other m k k' v h]

/-- What one `allocate_block_id` call does to the chapter pools and the used
set, from the viewpoint of availability. -/
structure AllocSync (maxId : Nat) (IM : List Nat) (r : ReconState)
    (curCh : Option String) (A : Nat × ReconState × Option String) : Prop where
  avail : A.1 ∈ IM → ∃ b ∈ alookupD r.byChapter curCh,
    b.blockId = A.1 ∧ A.1 ∉ r.used
  chapsub : ∀ c, List.Sublist (alookupD A.2.1.byChapter c) (alookupD r.byChapter c)
  usedmono : ∀ a ∈ r.used, a ∈ A.2.1.used
  usednew : ∀ a ∈ A.2.1.used, a ∈ r.used ∨ a = A.1
  keep : ∀ c x, x ∈ alookupD r.byChapter c → x.blockId ∉ A.2.1.used →
    x ∈ alookupD A.2.1.byChapter c
  mapkey : ∀ k, ∀ b ∈ alookupD A.2.1.imageMap k, b.key = k
  sync : ∀ k, ∀ b ∈ alookupD A.2.1.imageMap k, b.blockId ∉ A.2.1.used →
    b ∈ alookupD A.2.1.byChapter b.chapterTitle
  chapkey : ∀ c, ∀ b ∈ alookupD A.2.1.byChapter c, b.chapterTitle = c
  next : maxId < A.2.1.nextId

theorem prox_sync (maxId : Nat) (IM : List Nat) (r : ReconState)
    (btype : String) (curCh : Option String) (v : Nat)
    (chList : List ImageBlock) (p0 : ImageBlock) (ps : List ImageBlock)
    (hch : alookup r.byChapter curCh = some chList)
    (hpick0 : pickClosest1 v p0 ps ∈ unusedBlocks r.used chList)
    (hmapkey : ∀ k, ∀ b ∈ alookupD r.imageMap k, b.key = k)
    (hsync : ∀ k, ∀ b ∈ alookupD r.imageMap k, b.blockId ∉ r.used →
      b ∈ alookupD r.byChapter b.chapterTitle)
    (hchapkey : ∀ c, ∀ b ∈ alookupD r.byChapter c, b.chapterTitle = c)
    (hnext : maxId < r.nextId) :
    AllocSync maxId IM r curCh
      ((pickClosest1 v p0 ps).blockId,
       ⟨r.imageMap,
        aupdate r.byChapter curCh (removeFirstIB chList (pickClosest1 v p0 ps)),
        (pickClosest1 v p0 ps).blockId :: r.used, r.nextId⟩,
       some ("Reassigned image block_id=" ++ toString (pickClosest1 v p0 ps).blockId ++
             " to " ++ btype ++ " near order " ++ toString v)) := by
  have hpickch : pickClosest1 v p0 ps ∈ chList := List.mem_of_mem_filter hpick0
  have hpickunused : (pickClosest1 v p0 ps).blockId ∉ r.used := by
    have hf := List.of_mem_filter hpick0
    simpa using hf
  have hchD : alookupD r.byChapter curCh = chList := by
    unfold alookupD
    rw [hch]
    rfl
  set pk := pickClosest1 v p0 ps with hpk
  refine ⟨?_, ?_, ?_, ?_, ?_, hmapkey, ?_, ?_, hnext⟩
  · intro _
    exact ⟨pk, (by rw [hchD]; exact hpickch), rfl, hpickunused⟩
  · intro c
    by_cases hc : c = curCh
    · rw [hc, alookupD_aupdate_self r.byChapter curCh chList _ hch, hchD]
      exact removeFirstIB_sublist chList pk
    · rw [alookupD_aupdate_other r.byChapter curCh c _ hc]
  · intro a ha
    exact List.mem_cons_of_mem _ ha
  · intro a ha
    rcases List.mem_cons.mp ha with h' | h'
    · exact Or.inr h'
    · exact Or.inl h'
  · intro c x hx hxu
    have hxne : x ≠ pk := by
      intro hxeq
      exact hxu (by rw [hxeq]; exact List.mem_cons_self _ _)
    by_cases hc : c = curCh
    · rw [hc, alookupD_aupdate_self r.byChapter curCh chList _ hch]
      rw [hc, hchD] at hx
      exact removeFirstIB_mem_of_ne chList pk x hx hxne
    · rw [alookupD_aupdate_other r.byChapter curCh c _ hc]
      exact hx
  · intro k b hb hbu
    have hbu' : b.blockId ∉ r.used := fun hin =>
      hbu (List.mem_cons_of_mem _ hin)
    have hold := hsync k b hb hbu'
    have hbne : b ≠ pk := by
      intro hbeq
      exact hbu (by rw [hbeq]; exact List.mem_cons_self _ _)
    by_cases hc : b.chapterTitle = curCh
    · rw [hc]
      rw [alookupD_aupdate_self r.byChapter curCh chList _ hch]
      rw [hc, hchD] at hold
      exact removeFirstIB_mem_of_ne chList pk b hold hbne
    · rw [alookupD_aupdate_other r.byChapter curCh b.chapterTitle _ hc]
      exact hold
  · intro c b hb
    by_cases hc : c = curCh
    · rw [hc, alookupD_aupdate_self r.byChapter curCh chList _ hch] at hb
      have hbl : b ∈ chList := List.Sublist.mem hb (removeFirstIB_sublist chList pk)
      exact hchapkey c b (by rw [hc, hchD]; exact hbl)
    · rw [alookupD_aupdate_other r.byChapter curCh c _ hc] at hb
      exact hchapkey c b hb

theorem allocateFromChapter_sync (maxId : Nat) (IM : List Nat)
    (hIMle : ∀ a ∈ IM, a ≤ maxId)
    (r : ReconState) (btype : String) (curCh : Option String) (v : Nat)
    (hmapkey : ∀ k, ∀ b ∈ alookupD r.imageMap k, b.key = k)
    (hsync : ∀ k, ∀ b ∈ alookupD r.imageMap k, b.blockId ∉ r.used →
      b ∈ alookupD r.byChapter b.chapterTitle)
    (hchapkey : ∀ c, ∀ b ∈ alookupD r.byChapter c, b.chapterTitle = c)
    (hnext : maxId < r.nextId) :
    AllocSync maxId IM r curCh (allocateFromChapter r btype curCh v) := by
  cases hch : alookup r.byChapter curCh with
  | none =>
    simp only [allocateFromChapter, hch]
    refine ⟨?_, fun c => List.Sublist.refl _, fun a ha => ha, fun a ha => Or.inl ha,
      fun c x hx _ => hx, hmapkey, hsync, hchapkey,
      (by show maxId < r.nextId + 1; omega)⟩
    intro hin
    have hin' : r.nextId ∈ IM := hin
    have hle := hIMle _ hin'
    exact absurd hle (by omega)
  | some chList =>
    by_cases hemp : unusedBlocks r.used chList = []
    · simp only [allocateFromChapter, hch, if_pos hemp]
      refine ⟨?_, fun c => List.Sublist.refl _, fun a ha => ha, fun a ha => Or.inl ha,
        fun c x hx _ => hx, hmapkey, hsync, hchapkey,
        (by show maxId < r.nextId + 1; omega)⟩
      intro hin
      have hin' : r.nextId ∈ IM := hin
      have hle := hIMle _ hin'
      exact absurd hle (by omega)
    · simp only [allocateFromChapter, hch, if_neg hemp]
      cases hpool : proximityPool btype (unusedBlocks r.used chList) with
      | nil =>
        refine ⟨?_, fun c => List.Sublist.refl _, fun a ha => ha, fun a ha => Or.inl ha,
          fun c x hx _ => hx, hmapkey, hsync, hchapkey,
          (by show maxId < r.nextId + 1; omega)⟩
        intro hin
        have hin' : r.nextId ∈ IM := hin
        have hle := hIMle _ hin'
        exact absurd hle (by omega)
      | cons p0 ps =>
        have hpick0 : pickClosest1 v p0 ps ∈ unusedBlocks r.used chList := by
          have hm := pickClosest1_mem v p0 ps
          rw [← hpool] at hm
          exact proximityPool_sub btype _ _ hm
        exact prox_sync maxId IM r btype curCh v chList p0 ps hch hpick0
          hmapkey hsync hchapkey hnext

theorem exact_sync (maxId : Nat) (IM : List Nat) (r : ReconState)
    (k : BKey) (b : ImageBlock) (rest : List ImageBlock)
    (hbg : b ∈ alookupD r.imageMap k)
    (hrestg : ∀ x ∈ rest, x ∈ alookupD r.imageMap k)
    (hbu : b.blockId ∉ r.used)
    (hmapkey : ∀ k', ∀ x ∈ alookupD r.imageMap k', x.key = k')
    (hsync : ∀ k', ∀ x ∈ alookupD r.imageMap k', x.blockId ∉ r.used →
      x ∈ alookupD r.byChapter x.chapterTitle)
    (hchapkey : ∀ c, ∀ x ∈ alookupD r.byChapter c, x.chapterTitle = c)
    (hnext : maxId < r.nextId) :
    AllocSync maxId IM r k.2.2.2 (b.blockId,
      ⟨aupdate r.imageMap k rest,
       (match alookup r.byChapter b.chapterTitle with
        | some l =>
          if b ∈ l then aupdate r.byChapter b.chapterTitle (removeFirstIB l b)
          else r.byChapter
        | none => r.byChapter),
       b.blockId :: r.used, r.nextId⟩, none) := by
  have hbkey := hmapkey k b hbg
  have hbch : b.chapterTitle = k.2.2.2 := by rw [← hbkey]; rfl
  have hbpool := hsync k b hbg hbu
  -- how the chapter pools change, uniformly over the three sub-branches
  have hchapsub : ∀ c, List.Sublist
      (alookupD (match alookup r.byChapter b.chapterTitle with
        | some l =>
          if b ∈ l then aupdate r.byChapter b.chapterTitle (removeFirstIB l b)
          else r.byChapter
        | none => r.byChapter) c)
      (alookupD r.byChapter c) := by
    intro c
    cases hbc : alookup r.byChapter b.chapterTitle with
    | none => exact List.Sublist.refl _
    | some l =>
      dsimp only
      by_cases hbl : b ∈ l
      · rw [if_pos hbl]
        by_cases hc : c = b.chapterTitle
        · rw [hc, alookupD_aupdate_self r.byChapter b.chapterTitle l _ hbc]
          have : alookupD r.byChapter b.chapterTitle = l := by
            unfold alookupD
            rw [hbc]
            rfl
          rw [this]
          exact removeFirstIB_sublist l b
        · rw [alookupD_aupdate_other r.byChapter b.chapterTitle c _ hc]
      · rw [if_neg hbl]
  have hkeep : ∀ c x, x ∈ alookupD r.byChapter c → x ≠ b →
      x ∈ alookupD (match alookup r.byChapter b.chapterTitle with
        | some l =>
          if b ∈ l then aupdate r.byChapter b.chapterTitle (removeFirstIB l b)
          else r.byChapter
        | none => r.byChapter) c := by
    intro c x hx hxne
    cases hbc : alookup r.byChapter b.chapterTitle with
    | none => exact hx
    | some l =>
      dsimp only
      by_cases hbl : b ∈ l
      · rw [if_pos hbl]
        by_cases hc : c = b.chapterTitle
        · rw [hc, alookupD_aupdate_self r.byChapter b.chapterTitle l _ hbc]
          have hl : alookupD r.byChapter b.chapterTitle = l := by
            unfold alookupD
            rw [hbc]
            rfl
          rw [hc, hl] at hx
          exact removeFirstIB_mem_of_ne l b x hx hxne
        · rw [alookupD_aupdate_other r.byChapter b.chapterTitle c _ hc]
          exact hx
      · rw [if_neg hbl]
        exact hx
  refine ⟨?_, hchapsub, ?_, ?_, ?_, ?_, ?_, ?_, hnext⟩
  · intro _
    refine ⟨b, ?_, rfl, hbu⟩
    rw [← hbch]
    exact hbpool
  · intro a ha
    exact List.mem_cons_of_mem _ ha
  · intro a ha
    rcases List.mem_cons.mp ha with h' | h'
    · exact Or.inr h'
    · exact Or.inl h'
  · intro c x hx hxu
    have hxne : x ≠ b := by
      intro hxeq
      exact hxu (by rw [hxeq]; exact List.mem_cons_self _ _)
    exact hkeep c x hx hxne
  · intro k' x hx
    by_cases hk : k' = k
    · subst hk
      have hsome : ∃ w, alookup r.imageMap k' = some w := by
        unfold alookupD at hbg
        cases hw : alookup r.imageMap k' with
        | none =>
          rw [hw] at hbg
          simp at hbg
        | some w => exact ⟨w, rfl⟩
      rcases hsome with ⟨w, hw⟩
      rw [alookupD_aupdate_self r.imageMap k' w rest hw] at hx
      exact hmapkey k' x (hrestg x hx)
    · rw [alookupD_aupdate_other r.imageMap k k' rest hk] at hx
      exact hmapkey k' x hx
  · intro k' x hx hxu
    have hxu' : x.blockId ∉ r.used := fun hin =>
      hxu (List.mem_cons_of_mem _ hin)
    have hxne : x ≠ b := by
      intro hxeq
      exact hxu (by rw [hxeq]; exact List.mem_cons_self _ _)
    have hxold : x ∈ alookupD r.imageMap k' := by
      by_cases hk : k' = k
      · subst hk
        have hsome : ∃ w, alookup r.imageMap k' = some w := by
          unfold alookupD at hbg
          cases hw : alookup r.imageMap k' with
          | none =>
            rw [hw] at hbg
            simp at hbg
          | some w => exact ⟨w, rfl⟩
        rcases hsome with ⟨w, hw⟩
        rw [alookupD_aupdate_self r.imageMap k' w rest hw] at hx
        exact hrestg x hx
      · rw [alookupD_aupdate_other r.imageMap k k' rest hk] at hx
        exact hx
    exact hkeep x.chapterTitle x (hsync k' x hxold hxu') hxne
  · intro c x hx
    have := List.Sublist.mem hx (hchapsub c)
    exact hchapkey c x this

theorem allocate_sync (maxId : Nat) (IM : List Nat)
    (hIMle : ∀ a ∈ IM, a ≤ maxId)
    (r : ReconState) (btype raw : String) (curSec curCh : Option String) (v : Nat)
    (hmapkey : ∀ k, ∀ b ∈ alookupD r.imageMap k, b.key = k)
    (hsync : ∀ k, ∀ b ∈ alookupD r.imageMap k, b.blockId ∉ r.used →
      b ∈ alookupD r.byChapter b.chapterTitle)
    (hchapkey : ∀ c, ∀ b ∈ alookupD r.byChapter c, b.chapterTitle = c)
    (hnext : maxId < r.nextId) :
    AllocSync maxId IM r curCh (allocate r btype raw curSec curCh v) := by
  cases hmap : alookup r.imageMap ((btype, some raw, curSec, curCh) : BKey) with
  | none =>
    simp only [allocate, hmap]
    exact allocateFromChapter_sync maxId IM hIMle r btype curCh v
      hmapkey hsync hchapkey hnext
  | some cands =>
    cases cands with
    | nil =>
      simp only [allocate, hmap]
      exact allocateFromChapter_sync maxId IM hIMle r btype curCh v
        hmapkey hsync hchapkey hnext
    | cons c cs =>
      have hgD : alookupD r.imageMap ((btype, some raw, curSec, curCh) : BKey)
          = c :: cs := by
        unfold alookupD
        rw [hmap]
        rfl
      cases hpop : popCand r.used (c :: cs) with
      | mk found rest =>
        cases found with
        | none =>
          simp only [allocate, hmap, hpop]
          have hmapkey' : ∀ k, ∀ b ∈ alookupD
              (aupdate r.imageMap ((btype, some raw, curSec, curCh) : BKey) []) k,
              b.key = k := by
            intro k b hb
            by_cases hk : k = ((btype, some raw, curSec, curCh) : BKey)
            · subst hk
              rw [alookupD_aupdate_self r.imageMap
                ((btype, some raw, curSec, curCh) : BKey) (c :: cs) [] hmap] at hb
              simp at hb
            · rw [alookupD_aupdate_other r.imageMap _ k [] hk] at hb
              exact hmapkey k b hb
          have hsync' : ∀ k, ∀ b ∈ alookupD
              (aupdate r.imageMap ((btype, some raw, curSec, curCh) : BKey) []) k,
              b.blockId ∉ r.used → b ∈ alookupD r.byChapter b.chapterTitle := by
            intro k b hb hbu
            by_cases hk : k = ((btype, some raw, curSec, curCh) : BKey)
            · subst hk
              rw [alookupD_aupdate_self r.imageMap
                ((btype, some raw, curSec, curCh) : BKey) (c :: cs) [] hmap] at hb
              simp at hb
            · rw [alookupD_aupdate_other r.imageMap _ k [] hk] at hb
              exact hsync k b hb hbu
          have h := allocateFromChapter_sync maxId IM hIMle
            ⟨aupdate r.imageMap ((btype, some raw, curSec, curCh) : BKey) [],
             r.byChapter, r.used, r.nextId⟩ btype curCh v hmapkey' hsync' hchapkey hnext
          exact ⟨h.avail, h.chapsub, h.usedmono, h.usednew, h.keep, h.mapkey,
            h.sync, h.chapkey, h.next⟩
        | some b =>
          simp only [allocate, hmap, hpop]
          obtain ⟨hbmem, hbunused, hrest⟩ := popCand_some_mem r.used (c :: cs) b rest hpop
          have hbu : b.blockId ∉ r.used := by simpa using hbunused
          have h := exact_sync maxId IM r ((btype, some raw, curSec, curCh) : BKey)
            b rest (by rw [hgD]; exact hbmem)
            (by
              intro x hx
              rw [hgD]
              exact hrest x hx)
            hbu hmapkey hsync hchapkey hnext
          exact ⟨h.avail, h.chapsub, h.usedmono, h.usednew, h.keep, h.mapkey,
            h.sync, h.chapkey, h.next⟩

/-! ### Blocks grow by appending: prefix lemmas for every operation -/

theorem emitF_bpfx (s : StF) (aT rT raw norm : String) :
    List.IsPrefix s.blocks (emitF s aT rT raw norm).1.blocks := by
  rw [emitF_blocks]
  exact ⟨_, rfl⟩

theorem flushAggregateF_bpfx (s : StF) :
    List.IsPrefix s.blocks (flushAggregateF s).blocks := by
  cases hag : s.aggType with
  | none =>
    simp only [flushAggregateF, hag]
    exact List.prefix_rfl
  | some t =>
    simp only [flushAggregateF, hag]
    by_cases hl : s.aggLines = []
    · rw [if_pos hl]
    · rw [if_neg hl]
      exact emitF_bpfx s t t (joinNL s.aggLines) _

theorem flushQAF_bpfx (s : StF) :
    List.IsPrefix s.blocks (flushQAF s).blocks := by
  cases hm : s.curMode with
  | none =>
    simp only [flushQAF, hm]
    exact List.prefix_rfl
  | some mode =>
    simp only [flushQAF, hm]
    by_cases hb : s.curBuffer = []
    · rw [if_pos hb]
    · rw [if_neg hb]
      by_cases hq : mode = "question"
      · simp only [if_pos hq]
        exact emitF_bpfx s _ _ _ _
      · simp only [if_neg hq]
        exact emitF_bpfx s _ _ _ _

theorem startModeF_bpfx (s : StF) (mode : String) :
    List.IsPrefix s.blocks (startModeF s mode).blocks := by
  cases hm : s.curMode with
  | none =>
    simp only [startModeF, hm]
    exact List.prefix_rfl
  | some m =>
    simp only [startModeF, hm]
    split
    · exact flushQAF_bpfx s
    · exact List.prefix_rfl

theorem foldl_bpfx {α : Type} (f : StF → α → StF)
    (hf : ∀ s a, List.IsPrefix s.blocks (f s a).blocks) :
    ∀ (l : List α) (s : StF), List.IsPrefix s.blocks (l.foldl f s).blocks := by
  intro l
  induction l with
  | nil => intro s; exact List.prefix_rfl
  | cons a rest ih =>
    intro s
    exact List.IsPrefix.trans (hf s a) (ih (f s a))

/-! ### List surgery and candidate-list facts for the second run -/

theorem surgery {α : Type} : ∀ (C A : List α) (x : α) (B cur : List α),
    A ++ x :: B = C ++ cur → x ∉ C →
    ∃ A2, cur = A2 ++ x :: B ∧ ∀ y ∈ A2, y ∈ A := by
  intro C
  induction C with
  | nil =>
    intro A x B cur h _
    exact ⟨A, by simpa using h.symm, fun y hy => hy⟩
  | cons c C2 ih =>
    intro A x B cur h hx
    cases A with
    | nil =>
      simp only [List.nil_append, List.cons_append, List.cons.injEq] at h
      have hxm : x ∈ c :: C2 := by
        rw [h.1]
        exact List.mem_cons_self c C2
      exact absurd hxm hx
    | cons a A2 =>
      simp only [List.cons_append, List.cons.injEq] at h
      obtain ⟨hac, hrest⟩ := h
      obtain ⟨A3, hcur, hmem⟩ := ih A2 x B cur hrest
        (fun hm => hx (List.mem_cons_of_mem _ hm))
      exact ⟨A3, hcur, fun y hy => List.mem_cons_of_mem _ (hmem y hy)⟩

theorem popCand_skip (used : List Nat) (b : ImageBlock) (rest : List ImageBlock) :
    ∀ pre : List ImageBlock, (∀ x ∈ pre, used.contains x.blockId = true) →
    used.contains b.blockId = false →
    popCand used (pre ++ b :: rest) = (some b, rest) := by
  intro pre
  induction pre with
  | nil =>
    intro _ hb
    show (if used.contains b.blockId = true then popCand used rest
      else (some b, rest)) = (some b, rest)
    have hnb : ¬ used.contains b.blockId = true := by
      rw [hb]
      simp
    rw [if_neg hnb]
  | cons c cs ih =>
    intro hpre hb
    have hc := hpre c (List.mem_cons_self c cs)
    have hstep : popCand used ((c :: cs) ++ b :: rest)
        = popCand used (cs ++ b :: rest) := by
      show (if used.contains c.blockId = true then popCand used (cs ++ b :: rest)
        else (some c, cs ++ b :: rest)) = _
      rw [if_pos hc]
    rw [hstep]
    exact ih (fun x hx => hpre x (List.mem_cons_of_mem c hx)) hb

theorem popCand_all_used (used : List Nat) (l : List ImageBlock)
    (h : ∀ x ∈ l, used.contains x.blockId = true) : popCand used l = (none, []) := by
  apply (popCand_char used l).1
  rw [List.eq_nil_iff_forall_not_mem]
  intro y hy
  have hmem := List.mem_of_mem_filter hy
  have := List.of_mem_filter hy
  rw [h y hmem] at this
  simp at this

theorem allocate_groupD_nil (r : ReconState) (bt raw : String)
    (sec ch : Option String) (v : Nat)
    (h : alookupD r.imageMap ((bt, some raw, sec, ch) : BKey) = []) :
    allocate r bt raw sec ch v = allocateFromChapter r bt ch v := by
  unfold alookupD at h
  cases hm : alookup r.imageMap ((bt, some raw, sec, ch) : BKey) with
  | none => simp only [allocate, hm]
  | some l =>
    rw [hm] at h
    simp only [Option.getD_some] at h
    subst h
    simp only [allocate, hm]

theorem proximityPool_ne_nil (bt : String) (l : List ImageBlock) (h : l ≠ []) :
    proximityPool bt l ≠ [] := by
  unfold proximityPool
  by_cases hf : l.filter (fun b => b.blockType = bt) = []
  · rw [if_pos hf]
    exact h
  · rw [if_neg hf]
    exact hf

theorem allocateFromChapter_used_eq (r : ReconState) (bt : String)
    (ch : Option String) (v : Nat)
    (h : (allocateFromChapter r bt ch v).2.1.used = r.used) :
    ∀ w ∈ alookupD r.byChapter ch, w.blockId ∈ r.used := by
  intro w hw
  cases hch : alookup r.byChapter ch with
  | none =>
    unfold alookupD at hw
    rw [hch] at hw
    simp at hw
  | some chList =>
    have hwl : w ∈ chList := by
      unfold alookupD at hw
      rw [hch] at hw
      simpa using hw
    by_contra hwu
    have hne : unusedBlocks r.used chList ≠ [] := by
      intro h0
      have hm : w ∈ unusedBlocks r.used chList :=
        List.mem_filter.mpr ⟨hwl, by simpa using hwu⟩
      rw [h0] at hm
      simp at hm
    cases hpool : proximityPool bt (unusedBlocks r.used chList) with
    | nil => exact proximityPool_ne_nil bt _ hne hpool
    | cons p0 ps =>
      have hused : (allocateFromChapter r bt ch v).2.1.used =
          (pickClosest1 v p0 ps).blockId :: r.used := by
        simp only [allocateFromChapter, hch, if_neg hne, hpool]
      rw [hused] at h
      exact absurd (congrArg List.length h) (by simp)

theorem allocate_used_eq (r : ReconState) (bt raw : String)
    (sec ch : Option String) (v : Nat)
    (h : (allocate r bt raw sec ch v).2.1.used = r.used) :
    ∀ w ∈ alookupD r.byChapter ch, w.blockId ∈ r.used := by
  cases hm : alookup r.imageMap ((bt, some raw, sec, ch) : BKey) with
  | none =>
    apply allocateFromChapter_used_eq r bt ch v
    simpa only [allocate, hm] using h
  | some cands =>
    cases cands with
    | nil =>
      apply allocateFromChapter_used_eq r bt ch v
      simpa only [allocate, hm] using h
    | cons c cs =>
      cases hpop : popCand r.used (c :: cs) with
      | mk found rest =>
        cases found with
        | some b =>
          exfalso
          have hused : (allocate r bt raw sec ch v).2.1.used =
              b.blockId :: r.used := by
            simp only [allocate, hm, hpop]
          rw [hused] at h
          exact absurd (congrArg List.length h) (by simp)
        | none =>
          have hred : allocate r bt raw sec ch v = allocateFromChapter
              ⟨aupdate r.imageMap ((bt, some raw, sec, ch) : BKey) [],
               r.byChapter, r.used, r.nextId⟩ bt ch v := by
            simp only [allocate, hm, hpop]
          rw [hred] at h
          intro w hw
          exact allocateFromChapter_used_eq _ bt ch v h w hw

/-! ### Identifier facts about the image rows of a block list -/

theorem imRows_ids_sublist (IM : List Nat) : ∀ bs : List DocBlockF,
    List.Sublist ((imRows IM bs).map (fun b => b.blockId))
      (bs.map (fun b => b.blockId)) := by
  intro bs
  induction bs with
  | nil => simp [imRows]
  | cons b l ih =>
    by_cases hc : IM.contains b.blockId
    · rw [imRows_cons_mem IM b l hc]
      simp only [List.map_cons]
      exact List.Sublist.cons₂ _ ih
    · rw [imRows_cons_not IM b l (by simpa using hc)]
      simp only [List.map_cons]
      exact List.Sublist.cons _ ih

theorem imRows_nodup (IM : List Nat) (bs : List DocBlockF)
    (h : (bs.map (fun b => b.blockId)).Nodup) :
    ((imRows IM bs).map (fun b => b.blockId)).Nodup :=
  List.Nodup.sublist (imRows_ids_sublist IM bs) h

theorem imRows_id_inj (IM : List Nat) (bs : List DocBlockF)
    (h : (bs.map (fun b => b.blockId)).Nodup) :
    ∀ x ∈ imRows IM bs, ∀ y ∈ imRows IM bs, x.blockId = y.blockId → x = y :=
  fun x hx y hy hxy => List.inj_on_of_nodup_map (imRows_nodup IM bs h) hx hy hxy

theorem imRows_ids_mem (IM : List Nat) (bs : List DocBlockF) (r : ImageBlock)
    (h : r ∈ imRows IM bs) : r.blockId ∈ (imRows IM bs).map (fun b => b.blockId) :=
  List.mem_map.mpr ⟨r, h, rfl⟩

theorem imRows_IM (IM : List Nat) (bs : List DocBlockF) (r : ImageBlock)
    (h : r ∈ imRows IM bs) : r.blockId ∈ IM := by
  obtain ⟨w, _, hc, hr⟩ := (imRows_mem IM bs r).mp h
  rw [hr]
  simpa using hc

theorem imRows_none_ord_inj (IM : List Nat) (bs : List DocBlockF)
    (hnd : (bs.map (fun b => b.blockId)).Nodup)
    (hinc : List.Pairwise (fun a b => a < b)
      ((bs.filter (fun b => b.chapterTitle = none)).map (fun b => b.blockOrder))) :
    ∀ x ∈ imRows IM bs, ∀ y ∈ imRows IM bs, x.chapterTitle = none →
      y.chapterTitle = none → x ≠ y → x.blockOrder ≠ y.blockOrder := by
  intro x hx y hy hxc hyc hne
  obtain ⟨wx, hwx, hcx, hxw⟩ := (imRows_mem IM bs x).mp hx
  obtain ⟨wy, hwy, hcy, hyw⟩ := (imRows_mem IM bs y).mp hy
  have hwne : wx ≠ wy := fun hh => hne (by rw [hxw, hyw, hh])
  have hwxc : wx.chapterTitle = none := by
    rw [hxw] at hxc
    exact hxc
  have hwyc : wy.chapterTitle = none := by
    rw [hyw] at hyc
    exact hyc
  have hwxf : wx ∈ bs.filter (fun b => b.chapterTitle = none) :=
    List.mem_filter.mpr ⟨hwx, by simp [hwxc]⟩
  have hwyf : wy ∈ bs.filter (fun b => b.chapterTitle = none) :=
    List.mem_filter.mpr ⟨hwy, by simp [hwyc]⟩
  have hp : List.Pairwise (fun a b : DocBlockF => a.blockOrder < b.blockOrder)
      (bs.filter (fun b => b.chapterTitle = none)) := List.pairwise_map.mp hinc
  have hp2 : List.Pairwise (fun a b : DocBlockF => a.blockOrder ≠ b.blockOrder)
      (bs.filter (fun b => b.chapterTitle = none)) :=
    hp.imp (fun h => Nat.ne_of_lt h)
  have hord : wx.blockOrder ≠ wy.blockOrder :=
    List.Pairwise.forall (fun _ _ h => Ne.symm h) hp2 hwxf hwyf hwne
  rw [hxw, hyw]
  exact hord

/-! ### The three ways `allocate_block_id` resolves in the second run -/

theorem alloc2_exact (r : ReconState) (bt raw : String) (sec ch : Option String)
    (v : Nat) (y : ImageBlock) (Pf Ff : List ImageBlock)
    (hsplit : alookupD r.imageMap ((bt, some raw, sec, ch) : BKey) = Pf ++ y :: Ff)
    (hPf : ∀ z ∈ Pf, r.used.contains z.blockId = true)
    (hyu : r.used.contains y.blockId = false) :
    (allocate r bt raw sec ch v).1 = y.blockId ∧
    (allocate r bt raw sec ch v).2.1.used = y.blockId :: r.used ∧
    (allocate r bt raw sec ch v).2.1.nextId = r.nextId ∧
    alookupD (allocate r bt raw sec ch v).2.1.imageMap
      ((bt, some raw, sec, ch) : BKey) = Ff ∧
    (∀ k2, k2 ≠ ((bt, some raw, sec, ch) : BKey) →
      alookupD (allocate r bt raw sec ch v).2.1.imageMap k2
        = alookupD r.imageMap k2) ∧
    (∀ c, List.Sublist (alookupD (allocate r bt raw sec ch v).2.1.byChapter c)
      (alookupD r.byChapter c)) ∧
    (∀ c x, x ∈ alookupD r.byChapter c → x ≠ y →
      x ∈ alookupD (allocate r bt raw sec ch v).2.1.byChapter c) := by
  have hm : alookup r.imageMap ((bt, some raw, sec, ch) : BKey)
      = some (Pf ++ y :: Ff) := by
    unfold alookupD at hsplit
    cases hmm : alookup r.imageMap ((bt, some raw, sec, ch) : BKey) with
    | none =>
      rw [hmm] at hsplit
      simp at hsplit
    | some l =>
      rw [hmm] at hsplit
      simp only [Option.getD_some] at hsplit
      rw [hsplit]
  obtain ⟨c, cs, hG⟩ : ∃ c cs, Pf ++ y :: Ff = c :: cs := by
    cases Pf with
    | nil => exact ⟨y, Ff, rfl⟩
    | cons a l => exact ⟨a, l ++ y :: Ff, by simp⟩
  rw [hG] at hm
  have hpop : popCand r.used (c :: cs) = (some y, Ff) := by
    rw [← hG]
    exact popCand_skip r.used y Ff Pf hPf hyu
  simp only [allocate, hm, hpop]
  refine ⟨(by trivial), (by trivial), (by trivial), ?_, ?_, ?_, ?_⟩
  · exact alookupD_aupdate_self r.imageMap _ (c :: cs) Ff hm
  · intro k2 hk2
    exact alookupD_aupdate_other r.imageMap _ k2 Ff hk2
  · intro c2
    cases hbc : alookup r.byChapter y.chapterTitle with
    | none => exact List.Sublist.refl _
    | some l =>
      dsimp only
      by_cases hbl : y ∈ l
      · rw [if_pos hbl]
        by_cases hc2 : c2 = y.chapterTitle
        · rw [hc2, alookupD_aupdate_self r.byChapter y.chapterTitle l _ hbc]
          have hl : alookupD r.byChapter y.chapterTitle = l := by
            unfold alookupD
            rw [hbc]
            rfl
          rw [hl]
          exact removeFirstIB_sublist l y
        · rw [alookupD_aupdate_other r.byChapter y.chapterTitle c2 _ hc2]
      · rw [if_neg hbl]
  · intro c2 x hx hxne
    cases hbc : alookup r.byChapter y.chapterTitle with
    | none => exact hx
    | some l =>
      dsimp only
      by_cases hbl : y ∈ l
      · rw [if_pos hbl]
        by_cases hc2 : c2 = y.chapterTitle
        · rw [hc2, alookupD_aupdate_self r.byChapter y.chapterTitle l _ hbc]
          have hl : alookupD r.byChapter y.chapterTitle = l := by
            unfold alookupD
            rw [hbc]
            rfl
          rw [hc2, hl] at hx
          exact removeFirstIB_mem_of_ne l y x hx hxne
        · rw [alookupD_aupdate_other r.byChapter y.chapterTitle c2 _ hc2]
          exact hx
      · rw [if_neg hbl]
        exact hx

theorem alloc2_prox (r : ReconState) (bt raw : String) (sec ch : Option String)
    (v : Nat) (y : ImageBlock)
    (hempty : alookupD r.imageMap ((bt, some raw, sec, ch) : BKey) = [])
    (hyord : y.blockOrder = v)
    (hypool : y ∈ alookupD r.byChapter ch)
    (hyu : r.used.contains y.blockId = false)
    (hptype : ∀ x ∈ alookupD r.byChapter ch, ¬ x.blockType = bt)
    (hpord : ∀ x ∈ alookupD r.byChapter ch, x ≠ y → x.blockOrder ≠ v) :
    (allocate r bt raw sec ch v).1 = y.blockId ∧
    (allocate r bt raw sec ch v).2.1.used = y.blockId :: r.used ∧
    (allocate r bt raw sec ch v).2.1.nextId = r.nextId ∧
    (∀ k2, alookupD (allocate r bt raw sec ch v).2.1.imageMap k2
      = alookupD r.imageMap k2) ∧
    (∀ c, List.Sublist (alookupD (allocate r bt raw sec ch v).2.1.byChapter c)
      (alookupD r.byChapter c)) ∧
    (∀ c x, x ∈ alookupD r.byChapter c → x ≠ y →
      x ∈ alookupD (allocate r bt raw sec ch v).2.1.byChapter c) := by
  rw [allocate_groupD_nil r bt raw sec ch v hempty]
  cases hch : alookup r.byChapter ch with
  | none =>
    exfalso
    unfold alookupD at hypool
    rw [hch] at hypool
    simp at hypool
  | some chList =>
    have hD : alookupD r.byChapter ch = chList := by
      unfold alookupD
      rw [hch]
      rfl
    have hyl : y ∈ chList := by
      rw [hD] at hypool
      exact hypool
    have hyu2 : y.blockId ∉ r.used := by simpa using hyu
    have hymem : y ∈ unusedBlocks r.used chList :=
      List.mem_filter.mpr ⟨hyl, by simpa using hyu2⟩
    have hne : unusedBlocks r.used chList ≠ [] := by
      intro h0
      rw [h0] at hymem
      simp at hymem
    have hfilt : (unusedBlocks r.used chList).filter
        (fun b => b.blockType = bt) = [] := by
      rw [List.eq_nil_iff_forall_not_mem]
      intro x hx
      have hxm := List.mem_of_mem_filter hx
      have hxp := List.of_mem_filter hx
      have hxc : x ∈ chList := List.mem_of_mem_filter hxm
      have := hptype x (by rw [hD]; exact hxc)
      simp only [decide_eq_true_eq] at hxp
      exact this hxp
    have hpool : proximityPool bt (unusedBlocks r.used chList)
        = unusedBlocks r.used chList := by
      unfold proximityPool
      rw [if_pos hfilt]
    cases hu : unusedBlocks r.used chList with
    | nil => exact absurd hu hne
    | cons p0 ps =>
      have hpick : pickClosest1 v p0 ps = y := by
        apply pickClosest1_unique v p0 ps y
        · rw [← hu]
          exact hymem
        · exact hyord
        · intro x hx hxne
          rw [← hu] at hx
          have hxc : x ∈ chList := List.mem_of_mem_filter hx
          exact hpord x (by rw [hD]; exact hxc) hxne
      have hred : allocateFromChapter r bt ch v =
          ((pickClosest1 v p0 ps).blockId,
           ⟨r.imageMap,
            aupdate r.byChapter ch (removeFirstIB chList (pickClosest1 v p0 ps)),
            (pickClosest1 v p0 ps).blockId :: r.used, r.nextId⟩,
           some ("Reassigned image block_id=" ++
             toString (pickClosest1 v p0 ps).blockId ++
             " to " ++ bt ++ " near order " ++ toString v)) := by
        simp only [allocateFromChapter, hch, if_neg hne]
        rw [hpool, hu]
      rw [hred, hpick]
      refine ⟨rfl, rfl, rfl, fun k2 => rfl, ?_, ?_⟩
      · intro c2
        by_cases hc2 : c2 = ch
        · rw [hc2, alookupD_aupdate_self r.byChapter ch chList _ hch, hD]
          exact removeFirstIB_sublist chList y
        · rw [alookupD_aupdate_other r.byChapter ch c2 _ hc2]
      · intro c2 x hx hxne
        by_cases hc2 : c2 = ch
        · rw [hc2, alookupD_aupdate_self r.byChapter ch chList _ hch]
          rw [hc2, hD] at hx
          exact removeFirstIB_mem_of_ne chList y x hx hxne
        · rw [alookupD_aupdate_other r.byChapter ch c2 _ hc2]
          exact hx

theorem afc_fresh (r : ReconState) (bt : String) (ch : Option String) (v : Nat)
    (hpall : ∀ x ∈ alookupD r.byChapter ch, x.blockId ∈ r.used) :
    allocateFromChapter r bt ch v
      = (r.nextId, { r with nextId := r.nextId + 1 }, none) := by
  cases hch : alookup r.byChapter ch with
  | none => simp only [allocateFromChapter, hch]
  | some chList =>
    have hD : alookupD r.byChapter ch = chList := by
      unfold alookupD
      rw [hch]
      rfl
    have hemp : unusedBlocks r.used chList = [] := by
      rw [List.eq_nil_iff_forall_not_mem]
      intro x hx
      have hxm := List.mem_of_mem_filter hx
      have hxu := List.of_mem_filter hx
      have hin := hpall x (by rw [hD]; exact hxm)
      simp at hxu
      exact hxu hin
    simp only [allocateFromChapter, hch, if_pos hemp]

theorem alloc2_fresh (r : ReconState) (bt raw : String) (sec ch : Option String)
    (v : Nat)
    (hgall : ∀ z ∈ alookupD r.imageMap ((bt, some raw, sec, ch) : BKey),
      z.blockId ∈ r.used)
    (hpall : ∀ x ∈ alookupD r.byChapter ch, x.blockId ∈ r.used) :
    (allocate r bt raw sec ch v).1 = r.nextId ∧
    (allocate r bt raw sec ch v).2.1.used = r.used ∧
    (allocate r bt raw sec ch v).2.1.nextId = r.nextId + 1 ∧
    (∀ k2, k2 ≠ ((bt, some raw, sec, ch) : BKey) →
      alookupD (allocate r bt raw sec ch v).2.1.imageMap k2
        = alookupD r.imageMap k2) ∧
    (alookupD (allocate r bt raw sec ch v).2.1.imageMap
        ((bt, some raw, sec, ch) : BKey)
      = alookupD r.imageMap ((bt, some raw, sec, ch) : BKey) ∨
     alookupD (allocate r bt raw sec ch v).2.1.imageMap
        ((bt, some raw, sec, ch) : BKey) = []) ∧
    (∀ c, alookupD (allocate r bt raw sec ch v).2.1.byChapter c
      = alookupD r.byChapter c) := by
  cases hm : alookup r.imageMap ((bt, some raw, sec, ch) : BKey) with
  | none =>
    have hred : allocate r bt raw sec ch v = allocateFromChapter r bt ch v := by
      simp only [allocate, hm]
    rw [hred, afc_fresh r bt ch v hpall]
    exact ⟨rfl, rfl, rfl, fun k2 _ => rfl, Or.inl rfl, fun c => rfl⟩
  | some cands =>
    cases cands with
    | nil =>
      have hred : allocate r bt raw sec ch v = allocateFromChapter r bt ch v := by
        simp only [allocate, hm]
      rw [hred, afc_fresh r bt ch v hpall]
      exact ⟨rfl, rfl, rfl, fun k2 _ => rfl, Or.inl rfl, fun c => rfl⟩
    | cons c cs =>
      have hgD : alookupD r.imageMap ((bt, some raw, sec, ch) : BKey)
          = c :: cs := by
        unfold alookupD
        rw [hm]
        rfl
      have hpop : popCand r.used (c :: cs) = (none, []) := by
        apply popCand_all_used
        intro x hx
        have := hgall x (by rw [hgD]; exact hx)
        simpa using this
      have hred : allocate r bt raw sec ch v = allocateFromChapter
          ⟨aupdate r.imageMap ((bt, some raw, sec, ch) : BKey) [],
           r.byChapter, r.used, r.nextId⟩ bt ch v := by
        simp only [allocate, hm, hpop]
      rw [hred, afc_fresh
        ⟨aupdate r.imageMap ((bt, some raw, sec, ch) : BKey) [],
         r.byChapter, r.used, r.nextId⟩ bt ch v hpall]
      refine ⟨rfl, rfl, rfl, ?_, ?_, fun c2 => rfl⟩
      · intro k2 hk2
        exact alookupD_aupdate_other r.imageMap _ k2 [] hk2
      · exact Or.inr (alookupD_aupdate_self r.imageMap _ (c :: cs) [] hm)

/-! ### One-step structural facts about the first run: blocks append,
pools shrink, the used set grows, and every new image row was available -/

structure Step1 (IM : List Nat) (s t : StF) : Prop where
  pfx : List.IsPrefix s.blocks t.blocks
  chapsub : ∀ c, List.Sublist (alookupD t.recon.byChapter c)
    (alookupD s.recon.byChapter c)
  usedmono : ∀ a ∈ s.recon.used, a ∈ t.recon.used
  avail : ∀ r ∈ imRows IM (t.blocks.drop s.blocks.length), availIn s r

theorem Step1_refl (IM : List Nat) (s : StF) : Step1 IM s s := by
  refine ⟨List.prefix_rfl, fun c => List.Sublist.refl _, fun a ha => ha, ?_⟩
  intro r hr
  rw [List.drop_length] at hr
  simp [imRows] at hr

theorem Step1_trans (IM : List Nat) (s t w : StF)
    (h1 : Step1 IM s t) (h2 : Step1 IM t w) : Step1 IM s w := by
  obtain ⟨m, hm⟩ := h1.pfx
  obtain ⟨m2, hm2⟩ := h2.pfx
  refine ⟨h1.pfx.trans h2.pfx, fun c => (h2.chapsub c).trans (h1.chapsub c),
    fun a ha => h2.usedmono a (h1.usedmono a ha), ?_⟩
  intro r hr
  have hwb : w.blocks = s.blocks ++ (m ++ m2) := by
    rw [← hm2, ← hm, List.append_assoc]
  rw [hwb, List.drop_left, imRows_append] at hr
  rcases List.mem_append.mp hr with h3 | h3
  · apply h1.avail r
    rw [← hm, List.drop_left]
    exact h3
  · have ha2 : availIn t r := by
      apply h2.avail r
      rw [← hm2, List.drop_left]
      exact h3
    obtain ⟨x, hx, hxid, hru⟩ := ha2
    exact ⟨x, List.Sublist.mem hx (h1.chapsub _), hxid,
      fun hc => hru (h1.usedmono _ hc)⟩

theorem ss_trans (maxId : Nat) (IM : List Nat) (s t w : StF)
    (h1 : SyncOK maxId t ∧ Step1 IM s t) (h2 : SyncOK maxId w ∧ Step1 IM t w) :
    SyncOK maxId w ∧ Step1 IM s w :=
  ⟨h2.1, Step1_trans IM s t w h1.2 h2.2⟩

/-- A state change that leaves `recon` and `blocks` untouched. -/
theorem ss_same (maxId : Nat) (IM : List Nat) (s s2 : StF)
    (hrec : s2.recon = s.recon) (hblk : s2.blocks = s.blocks)
    (hsok : SyncOK maxId s) : SyncOK maxId s2 ∧ Step1 IM s s2 := by
  refine ⟨⟨?_, ?_, ?_, ?_⟩, ⟨?_, ?_, ?_, ?_⟩⟩
  · rw [hrec]; exact hsok.mapkey
  · rw [hrec]; exact hsok.sync
  · rw [hrec]; exact hsok.chapkey
  · rw [hrec]; exact hsok.next
  · rw [hblk]
  · intro c; rw [hrec]
  · intro a ha; rw [hrec]; exact ha
  · intro r hr
    rw [hblk, List.drop_length] at hr
    simp [imRows] at hr

theorem emitF_ss (maxId : Nat) (IM : List Nat) (hIMle : ∀ a ∈ IM, a ≤ maxId)
    (s : StF) (aT rT raw norm : String) (hsok : SyncOK maxId s) :
    SyncOK maxId (emitF s aT rT raw norm).1 ∧
    Step1 IM s (emitF s aT rT raw norm).1 := by
  have hA := allocate_sync maxId IM hIMle s.recon aT raw s.curSectionTitle
    s.curChapterTitle (s.blockOrder + 1) hsok.mapkey hsok.sync hsok.chapkey hsok.next
  have hrec : (emitF s aT rT raw norm).1.recon
      = (allocate s.recon aT raw s.curSectionTitle s.curChapterTitle
        (s.blockOrder + 1)).2.1 := rfl
  constructor
  · exact ⟨by rw [hrec]; exact hA.mapkey, by rw [hrec]; exact hA.sync,
      by rw [hrec]; exact hA.chapkey, by rw [hrec]; exact hA.next⟩
  · refine ⟨emitF_bpfx s aT rT raw norm, ?_, ?_, ?_⟩
    · intro c
      rw [hrec]
      exact hA.chapsub c
    · intro a ha
      rw [hrec]
      exact hA.usedmono a ha
    · intro r hr
      rw [emitF_blocks, List.drop_left] at hr
      rcases (imRows_mem IM _ r).mp hr with ⟨w, hw, hc, hrw⟩
      rcases List.mem_singleton.mp hw with rfl
      have hcIM : (allocate s.recon aT raw s.curSectionTitle s.curChapterTitle
          (s.blockOrder + 1)).1 ∈ IM := by simpa using hc
      obtain ⟨b, hb, hbid, hbu⟩ := hA.avail hcIM
      rw [hrw]
      exact ⟨b, hb, hbid, hbu⟩

theorem flushAggregateF_ss (maxId : Nat) (IM : List Nat)
    (hIMle : ∀ a ∈ IM, a ≤ maxId) (s : StF) (hsok : SyncOK maxId s) :
    SyncOK maxId (flushAggregateF s) ∧ Step1 IM s (flushAggregateF s) := by
  cases hag : s.aggType with
  | none =>
    simp only [flushAggregateF, hag]
    exact ss_same maxId IM s _ rfl rfl hsok
  | some t =>
    simp only [flushAggregateF, hag]
    by_cases hl : s.aggLines = []
    · rw [if_pos hl]
      exact ss_same maxId IM s _ rfl rfl hsok
    · rw [if_neg hl]
      have h1 := emitF_ss maxId IM hIMle s t t (joinNL s.aggLines)
        (if t = "table" then renderTable s.aggLines else joinNL s.aggLines) hsok
      exact ss_trans maxId IM s _ _ h1 (ss_same maxId IM _ _ rfl rfl h1.1)

theorem flushQAF_ss (maxId : Nat) (IM : List Nat)
    (hIMle : ∀ a ∈ IM, a ≤ maxId) (s : StF) (hsok : SyncOK maxId s) :
    SyncOK maxId (flushQAF s) ∧ Step1 IM s (flushQAF s) := by
  cases hm : s.curMode with
  | none =>
    simp only [flushQAF, hm]
    exact ss_same maxId IM s _ rfl rfl hsok
  | some mode =>
    simp only [flushQAF, hm]
    by_cases hb : s.curBuffer = []
    · rw [if_pos hb]
      exact ss_same maxId IM s _ rfl rfl hsok
    · rw [if_neg hb]
      by_cases hq : mode = "question"
      · simp only [if_pos hq]
        have h1 := emitF_ss maxId IM hIMle s "question" "question"
          (concatStrings s.curBuffer) (concatStrings s.curBuffer) hsok
        exact ss_trans maxId IM s _ _ h1 (ss_same maxId IM _ _ rfl rfl h1.1)
      · simp only [if_neg hq]
        have h1 := emitF_ss maxId IM hIMle s "answer" "answer"
          (concatStrings s.curBuffer) (concatStrings s.curBuffer) hsok
        exact ss_trans maxId IM s _ _ h1 (ss_same maxId IM _ _ rfl rfl h1.1)

theorem startModeF_ss (maxId : Nat) (IM : List Nat)
    (hIMle : ∀ a ∈ IM, a ≤ maxId) (s : StF) (mode : String) (hsok : SyncOK maxId s) :
    SyncOK maxId (startModeF s mode) ∧ Step1 IM s (startModeF s mode) := by
  cases hm : s.curMode with
  | none =>
    simp only [startModeF, hm]
    exact ss_same maxId IM s _ rfl rfl hsok
  | some m =>
    simp only [startModeF, hm]
    split
    · have h1 := flushQAF_ss maxId IM hIMle s hsok
      exact ss_trans maxId IM s _ _ h1 (ss_same maxId IM _ _ rfl rfl h1.1)
    · exact ⟨hsok, Step1_refl IM s⟩

theorem foldl_ss {α : Type} (maxId : Nat) (IM : List Nat) (f : StF → α → StF)
    (hf : ∀ s a, SyncOK maxId s → SyncOK maxId (f s a) ∧ Step1 IM s (f s a)) :
    ∀ (l : List α) (s : StF), SyncOK maxId s →
      SyncOK maxId (l.foldl f s) ∧ Step1 IM s (l.foldl f s) := by
  intro l
  induction l with
  | nil => intro s hs; exact ⟨hs, Step1_refl IM s⟩
  | cons a rest ih =>
    intro s hs
    exact ss_trans maxId IM s _ _ (hf s a hs) (ih (f s a) (hf s a hs).1)

set_option maxHeartbeats 3200000 in
theorem dispatchF_ss (maxId : Nat) (IM : List Nat) (hIMle : ∀ a ∈ IM, a ≤ maxId)
    (s : StF) (p : ParaF) (raw stripped : String) (hsok : SyncOK maxId s) :
    SyncOK maxId (dispatchF s p raw stripped) ∧
    Step1 IM s (dispatchF s p raw stripped) := by
  unfold dispatchF
  split
  next n heq =>
    have h1 := flushAggregateF_ss maxId IM hIMle s hsok
    have h2 := ss_trans maxId IM s _ _ h1 (flushQAF_ss maxId IM hIMle _ h1.1)
    set s0 := flushQAF (flushAggregateF s) with hs0
    have h3 := ss_trans maxId IM s _ _ h2 (ss_same maxId IM s0
      { s0 with
          curChapterNum := some n
          curChapterTitle := some stripped
          questionCounter := 0
          blockOrder := 0
          chapterOrder := s0.chapterOrder + 1
          introActive := false
          chapters := s0.chapters ++ [(s0.curSectionId, stripped, s0.chapterOrder + 1)] }
      rfl rfl h2.1)
    exact ss_trans maxId IM s _ _ h3
      (emitF_ss maxId IM hIMle _ "chapter" "chapter" raw raw h3.1)
  next heq =>
    by_cases hc1 : pyStartsWith stripped "[S]" = true
    case pos =>
      rw [if_pos hc1]
      have h1 := flushAggregateF_ss maxId IM hIMle s hsok
      have h2 := ss_trans maxId IM s _ _ h1 (flushQAF_ss maxId IM hIMle _ h1.1)
      set s0 := flushQAF (flushAggregateF s) with hs0
      have h3 := ss_trans maxId IM s _ _ h2 (ss_same maxId IM s0
        { s0 with
            curSectionTitle := some stripped
            sectionOrder := s0.sectionOrder + 1
            sections := s0.sections ++
              [(s0.sections.length + 1, stripped, s0.sectionOrder + 1)]
            curSectionId := some (s0.sections.length + 1) } rfl rfl h2.1)
      have h4 := ss_trans maxId IM s _ _ h3
        (emitF_ss maxId IM hIMle _ "section" "section" raw raw h3.1)
      exact ss_trans maxId IM s _ _ h4 (ss_same maxId IM _ _ rfl rfl h4.1)
    rw [if_neg hc1]
    by_cases hc2 : s.introActive = true
    case pos =>
      rw [if_pos hc2]
      by_cases hc3 : pyStartsWith stripped "[I]" = true
      case pos =>
        rw [if_pos hc3]
        have h1 := flushQAF_ss maxId IM hIMle s hsok
        by_cases hbold : ((p.filter (fun r => pyStrip r.text ≠ "")).all (·.bold)) = true
        case pos =>
          simp only [hbold, if_true, ite_true]
          exact ss_trans maxId IM s _ _ h1 (emitF_ss maxId IM hIMle _
            "intro" "intro_heading" raw ("<strong>" ++ escapeHtml raw ++ "</strong>") h1.1)
        rw [Bool.not_eq_true] at hbold
        simp only [hbold, Bool.false_eq_true, if_false, ite_false]
        exact ss_trans maxId IM s _ _ h1 (emitF_ss maxId IM hIMle _
          "intro" "intro_paragraph" raw raw h1.1)
      rw [if_neg hc3]
      exact ⟨hsok, Step1_refl IM s⟩
    rw [if_neg hc2]
    by_cases hc4 : s.curChapterTitle = none
    case pos =>
      rw [if_pos hc4]
      by_cases hblue : p.any (·.isBlue) = true
      case pos =>
        rw [if_pos hblue]
        exact ss_same maxId IM s _ rfl rfl hsok
      rw [if_neg hblue]
      exact ⟨hsok, Step1_refl IM s⟩
    rw [if_neg hc4]
    by_cases hc5 : pyStartsWith stripped "[P]" = true
    case pos =>
      rw [if_pos hc5]
      have h1 := flushQAF_ss maxId IM hIMle s hsok
      exact ss_trans maxId IM s _ _ h1 (ss_same maxId IM _ _ rfl rfl h1.1)
    rw [if_neg hc5]
    by_cases hc6 : pyStartsWith stripped "[R]" = true
    case pos =>
      rw [if_pos hc6]
      have h1 := flushQAF_ss maxId IM hIMle s hsok
      exact ss_trans maxId IM s _ _ h1 (ss_same maxId IM _ _ rfl rfl h1.1)
    rw [if_neg hc6]
    by_cases hc7 : pyStartsWith stripped "[T]" = true
    case pos =>
      rw [if_pos hc7]
      have h1 := flushQAF_ss maxId IM hIMle s hsok
      exact ss_trans maxId IM s _ _ h1 (ss_same maxId IM _ _ rfl rfl h1.1)
    rw [if_neg hc7]
    by_cases hc8 : pyStartsWith stripped "[N]" = true
    case pos =>
      rw [if_pos hc8]
      have h1 := flushQAF_ss maxId IM hIMle s hsok
      exact ss_trans maxId IM s _ _ h1
        (emitF_ss maxId IM hIMle _ "note" "note" raw raw h1.1)
    rw [if_neg hc8]
    have hstart : SyncOK maxId (match p.filter (fun r => r.text ≠ "") with
        | [] => s
        | r0 :: _ =>
          if s.curMode ≠ none ∧ s.curHasText then
            if s.curMode = some (if r0.isBlue then "question" else "answer") then
              { s with curBuffer := s.curBuffer ++ ["\n"] }
            else flushQAF s
          else s) ∧ Step1 IM s (match p.filter (fun r => r.text ≠ "") with
        | [] => s
        | r0 :: _ =>
          if s.curMode ≠ none ∧ s.curHasText then
            if s.curMode = some (if r0.isBlue then "question" else "answer") then
              { s with curBuffer := s.curBuffer ++ ["\n"] }
            else flushQAF s
          else s) := by
      split
      · exact ⟨hsok, Step1_refl IM s⟩
      · split
        · split <;>
            first
              | exact ss_same maxId IM s _ rfl rfl hsok
              | exact flushQAF_ss maxId IM hIMle s hsok
              | (split <;>
                  first
                    | exact ss_same maxId IM s _ rfl rfl hsok
                    | exact flushQAF_ss maxId IM hIMle s hsok)
        · exact ⟨hsok, Step1_refl IM s⟩
    refine ss_trans maxId IM s _ _ hstart (foldl_ss maxId IM _ ?_ _ _ hstart.1)
    intro s2 r hs2
    have h1 := startModeF_ss maxId IM hIMle s2
      (if r.isBlue then "question" else "answer") hs2
    exact ss_trans maxId IM s2 _ _ h1 (ss_same maxId IM _ _ rfl rfl h1.1)

theorem stepParaF_ss (maxId : Nat) (IM : List Nat) (hIMle : ∀ a ∈ IM, a ≤ maxId)
    (s : StF) (p : ParaF) (hsok : SyncOK maxId s) :
    SyncOK maxId (stepParaF s p) ∧ Step1 IM s (stepParaF s p) := by
  have hrest : ∀ s2 : StF, SyncOK maxId s2 →
      SyncOK maxId (if pyStrip (paraText p) = "" then
          (if s2.curMode ≠ none ∧ s2.curHasText then
            { s2 with curBuffer := s2.curBuffer ++ ["\n"] }
          else s2)
        else
          match bracketMarker (pyStrip (paraText p)) with
          | some marker =>
            if marker ∉ KNOWN_MARKERS then
              { s2 with aborted := some ("Unknown structural marker: " ++ marker) }
            else dispatchF s2 p (paraText p) (pyStrip (paraText p))
          | none => dispatchF s2 p (paraText p) (pyStrip (paraText p))) ∧
      Step1 IM s2 (if pyStrip (paraText p) = "" then
          (if s2.curMode ≠ none ∧ s2.curHasText then
            { s2 with curBuffer := s2.curBuffer ++ ["\n"] }
          else s2)
        else
          match bracketMarker (pyStrip (paraText p)) with
          | some marker =>
            if marker ∉ KNOWN_MARKERS then
              { s2 with aborted := some ("Unknown structural marker: " ++ marker) }
            else dispatchF s2 p (paraText p) (pyStrip (paraText p))
          | none => dispatchF s2 p (paraText p) (pyStrip (paraText p))) := by
    intro s2 h2
    split
    · split
      · exact ss_same maxId IM s2 _ rfl rfl h2
      · exact ⟨h2, Step1_refl IM s2⟩
    · split
      · split
        · exact ss_same maxId IM s2 _ rfl rfl h2
        · exact dispatchF_ss maxId IM hIMle s2 p _ _ h2
      · exact dispatchF_ss maxId IM hIMle s2 p _ _ h2
  unfold stepParaF
  by_cases hab : s.aborted.isSome
  · rw [if_pos hab]
    exact ⟨hsok, Step1_refl IM s⟩
  rw [if_neg hab]
  cases hagg : s.aggType with
  | none =>
    have h2 := hrest s hsok
    simp only [hagg] at h2 ⊢
    exact h2
  | some t =>
    simp only [hagg]
    by_cases hb : (pyStartsWith (pyStrip (paraText p)) "[S]" ||
        pyStartsWith (pyStrip (paraText p)) "[Ch]" ||
        pyStartsWith (pyStrip (paraText p)) "[N]" ||
        pyStartsWith (pyStrip (paraText p)) "[R]" ||
        pyStartsWith (pyStrip (paraText p)) "[T]" ||
        (matchChapter (pyStrip (paraText p)).data).isSome) = true
    · have h1 := flushAggregateF_ss maxId IM hIMle s hsok
      have h2 := hrest (flushAggregateF s) h1.1
      simp only [hagg] at h2
      simp only [hb, if_true, ite_true]
      exact ss_trans maxId IM s _ _ h1 h2
    · simp only [Bool.not_eq_true] at hb
      simp only [hb, Bool.false_eq_true, if_false, ite_false]
      exact ss_same maxId IM s _ rfl rfl hsok

/-- The remaining computation of `main` from an intermediate state: the rest
of the paragraph loop plus the final flushes (skipped on abort). -/
def runTail (s : StF) (doc : List ParaF) : StF :=
  if (doc.foldl stepParaF s).aborted.isSome then doc.foldl stepParaF s
  else flushQAF (flushAggregateF (doc.foldl stepParaF s))

theorem runTail_cons (s : StF) (p : ParaF) (rest : List ParaF) :
    runTail s (p :: rest) = runTail (stepParaF s p) rest := by
  simp only [runTail, List.foldl_cons]

theorem traceF_eq_runTail (doc : List ParaF) (m0 : List ImageBlock) (maxId : Nat) :
    traceF doc m0 maxId = runTail (initStF m0 maxId) doc := rfl

theorem runTail_ss (maxId : Nat) (IM : List Nat) (hIMle : ∀ a ∈ IM, a ≤ maxId) :
    ∀ (doc : List ParaF) (s : StF), SyncOK maxId s →
    SyncOK maxId (runTail s doc) ∧ Step1 IM s (runTail s doc) := by
  intro doc
  induction doc with
  | nil =>
    intro s hsok
    simp only [runTail, List.foldl_nil]
    by_cases hab : s.aborted.isSome = true
    · rw [if_pos hab]
      exact ⟨hsok, Step1_refl IM s⟩
    · rw [if_neg hab]
      have h1 := flushAggregateF_ss maxId IM hIMle s hsok
      exact ss_trans maxId IM s _ _ h1 (flushQAF_ss maxId IM hIMle _ h1.1)
  | cons p rest ih =>
    intro s hsok
    rw [runTail_cons]
    exact ss_trans maxId IM s _ _ (stepParaF_ss maxId IM hIMle s p hsok)
      (ih _ (stepParaF_ss maxId IM hIMle s p hsok).1)

/-! ### The paired simulation of the two runs

`s` is a state of the first run (importing against the original store),
`u` the corresponding state of the second run (importing the same document
against the store the first run committed, whose blocks are `B1`). -/

/-- All control-flow state agrees between the two runs (everything except
the reconciler, the emitted rows and the anomaly log). -/
structure Mir (s u : StF) : Prop where
  so : u.sectionOrder = s.sectionOrder
  co : u.chapterOrder = s.chapterOrder
  cst : u.curSectionTitle = s.curSectionTitle
  csi : u.curSectionId = s.curSectionId
  cct : u.curChapterTitle = s.curChapterTitle
  ccn : u.curChapterNum = s.curChapterNum
  bo : u.blockOrder = s.blockOrder
  qc : u.questionCounter = s.questionCounter
  ia : u.introActive = s.introActive
  agt : u.aggType = s.aggType
  agl : u.aggLines = s.aggLines
  cm : u.curMode = s.curMode
  cb : u.curBuffer = s.curBuffer
  cht : u.curHasText = s.curHasText
  qsm : u.questionSummaries = s.questionSummaries
  secs : u.sections = s.sections
  chs : u.chapters = s.chapters
  ab : u.aborted = s.aborted

structure Sim (IM : List Nat) (B1 : List DocBlockF) (s u : StF) : Prop where
  mir : Mir s u
  rmatch : rowsMatch IM s.blocks u.blocks
  qpr : u.questions.map qProj = s.questions.map qProj
  uiff : ∀ a, a ∈ u.recon.used ↔ a ∈ (imRows IM s.blocks).map (fun b => b.blockId)
  mgrp : ∀ k, ∃ dropped, (imRows IM B1).filter (fun b => b.key = k)
    = dropped ++ alookupD u.recon.imageMap k ∧
    ∀ b ∈ dropped, b.blockId ∈ u.recon.used
  cmem : ∀ c, List.Sublist (alookupD u.recon.byChapter c)
    (chapPoolOf (imRows IM B1) c)
  hfut : ∀ r ∈ imRows IM B1, r.blockId ∉ u.recon.used →
    r ∈ alookupD u.recon.byChapter r.chapterTitle
  next2 : ∀ a ∈ IM, a < u.recon.nextId
  av1 : ∀ r ∈ imRows IM (B1.drop s.blocks.length), availIn s r

theorem emitF_mir (s u : StF) (aT rT raw norm : String) (h : Mir s u) :
    Mir (emitF s aT rT raw norm).1 (emitF u aT rT raw norm).1 := by
  refine ⟨h.so, h.co, h.cst, h.csi, h.cct, h.ccn, ?_, h.qc, h.ia, h.agt, h.agl,
    h.cm, h.cb, h.cht, h.qsm, h.secs, h.chs, h.ab⟩
  show u.blockOrder + 1 = s.blockOrder + 1
  rw [h.bo]

/-- Rebuild `Sim` across a pair of state changes that leave both
reconcilers, both block lists and both question tables untouched; only the
mirror has to be re-established by the caller. -/
theorem sim_same (IM : List Nat) (B1 : List DocBlockF) (s u s2 u2 : StF)
    (hsim : Sim IM B1 s u) (hm : Mir s2 u2)
    (hrs : s2.recon = s.recon) (hbs : s2.blocks = s.blocks)
    (hqs : s2.questions = s.questions)
    (hru : u2.recon = u.recon) (hbu : u2.blocks = u.blocks)
    (hqu : u2.questions = u.questions) :
    Sim IM B1 s2 u2 := by
  refine ⟨hm, ?_, ?_, ?_, ?_, ?_, ?_, ?_, ?_⟩
  · rw [hbs, hbu]; exact hsim.rmatch
  · rw [hqs, hqu]; exact hsim.qpr
  · rw [hru, hbs]; exact hsim.uiff
  · rw [hru]; exact hsim.mgrp
  · rw [hru]; exact hsim.cmem
  · rw [hru]; exact hsim.hfut
  · rw [hru]; exact hsim.next2
  · intro r hr
    rw [hbs] at hr
    have := hsim.av1 r hr
    obtain ⟨b, hb, hbid, hbu2⟩ := this
    exact ⟨b, by rw [hrs]; exact hb, hbid, by rw [hrs]; exact hbu2⟩

/-- The row a single `emitF` appends, as a function of the identifier the
reconciler handed out. -/
def rowOf (s : StF) (rT raw norm : String) (i : Nat) : DocBlockF :=
  ⟨i, s.curSectionTitle, s.curChapterTitle, s.blockOrder + 1, rT, raw, norm⟩

theorem emitF_blocks2 (s : StF) (aT rT raw norm : String) :
    (emitF s aT rT raw norm).1.blocks
      = s.blocks ++ [rowOf s rT raw norm (emitF s aT rT raw norm).2] :=
  emitF_blocks s aT rT raw norm

set_option maxHeartbeats 6400000 in
theorem emitF_sim (IM : List Nat) (maxId : Nat) (B1 : List DocBlockF)
    (hIMle : ∀ a ∈ IM, a ≤ maxId)
    (hndB1 : (B1.map (fun b => b.blockId)).Nodup)
    (hbt1 : ∀ b ∈ B1, b.blockType ∈ BTYPES)
    (hinc1 : List.Pairwise (fun a b => a < b)
      ((B1.filter (fun b => b.chapterTitle = none)).map (fun b => b.blockOrder)))
    (s u : StF) (aT rT raw norm : String)
    (hsim : Sim IM B1 s u)
    (hsok : SyncOK maxId s)
    (hrq : ReconQ (fun a => a ∈ IM) s.recon)
    (hTT : aT = rT ∨ (aT = "intro" ∧ s.curChapterTitle = none))
    (hpfx : List.IsPrefix (emitF s aT rT raw norm).1.blocks B1) :
    Sim IM B1 (emitF s aT rT raw norm).1 (emitF u aT rT raw norm).1 := by
  have hspec := allocate_spec (fun a => a ∈ IM) s.recon aT raw s.curSectionTitle
    s.curChapterTitle (s.blockOrder + 1) hrq
  have hA1 := allocate_sync maxId IM hIMle s.recon aT raw s.curSectionTitle
    s.curChapterTitle (s.blockOrder + 1) hsok.mapkey hsok.sync hsok.chapkey hsok.next
  have hfid : (emitF s aT rT raw norm).2
      = (allocate s.recon aT raw s.curSectionTitle s.curChapterTitle
        (s.blockOrder + 1)).1 := rfl
  have hrecS : (emitF s aT rT raw norm).1.recon
      = (allocate s.recon aT raw s.curSectionTitle s.curChapterTitle
        (s.blockOrder + 1)).2.1 := rfl
  have hrecU : (emitF u aT rT raw norm).1.recon
      = (allocate u.recon aT raw u.curSectionTitle u.curChapterTitle
        (u.blockOrder + 1)).2.1 := rfl
  obtain ⟨T, hT⟩ := hpfx
  rw [emitF_blocks2] at hT
  have hB1 : B1 = s.blocks ++ rowOf s rT raw norm (emitF s aT rT raw norm).2 :: T := by
    rw [← hT, List.append_assoc]
    rfl
  have hnd2 : ((s.blocks.map (fun b => b.blockId)) ++ (emitF s aT rT raw norm).2
      :: T.map (fun b => b.blockId)).Nodup := by
    have h0 := hndB1
    rw [hB1, List.map_append, List.map_cons] at h0
    exact h0
  have hfP : (emitF s aT rT raw norm).2 ∉ s.blocks.map (fun b => b.blockId) := by
    have hdis := (List.nodup_append.mp hnd2).2.2
    intro hin
    exact hdis hin (List.mem_cons_self _ _)
  have hfT : (emitF s aT rT raw norm).2 ∉ T.map (fun b => b.blockId) := by
    have hr := (List.nodup_append.mp hnd2).2.1
    exact (List.nodup_cons.mp hr).1
  have hfu2 : (emitF s aT rT raw norm).2 ∉ u.recon.used := by
    intro hin
    have h2 := (hsim.uiff _).mp hin
    exact hfP (List.Sublist.mem h2 (imRows_ids_sublist IM s.blocks))
  have hdropn : B1.drop s.blocks.length
      = rowOf s rT raw norm (emitF s aT rT raw norm).2 :: T := by
    conv_lhs => rw [hB1]
    exact List.drop_left _ _
  have hdropT : B1.drop (emitF s aT rT raw norm).1.blocks.length = T := by
    rw [emitF_blocks2]
    conv_lhs => rw [← hT]
    exact List.drop_left _ _
  have hkk : ((aT, some raw, u.curSectionTitle, u.curChapterTitle) : BKey)
      = ((aT, some raw, s.curSectionTitle, s.curChapterTitle) : BKey) := by
    rw [hsim.mir.cst, hsim.mir.cct]
  -- availability of later first-run rows survives this emission
  have hav1 : ∀ r ∈ imRows IM T, availIn (emitF s aT rT raw norm).1 r := by
    intro r hr
    have hrin : r ∈ imRows IM (B1.drop s.blocks.length) := by
      rw [hdropn]
      by_cases hc : IM.contains (rowOf s rT raw norm
          (emitF s aT rT raw norm).2).blockId = true
      · rw [imRows_cons_mem IM _ T hc]
        exact List.mem_cons_of_mem _ hr
      · rw [Bool.not_eq_true] at hc
        rw [imRows_cons_not IM _ T hc]
        exact hr
    obtain ⟨w, hw, hwid, hru1⟩ := hsim.av1 r hrin
    have hridT : r.blockId ∈ T.map (fun b => b.blockId) := by
      have h3 : r.blockId ∈ (imRows IM T).map (fun b => b.blockId) :=
        imRows_ids_mem IM T r hr
      exact List.Sublist.mem h3 (imRows_ids_sublist IM T)
    have hrne : r.blockId ≠ (emitF s aT rT raw norm).2 := fun hh => hfT (hh ▸ hridT)
    have hrnu : r.blockId ∉ (allocate s.recon aT raw s.curSectionTitle
        s.curChapterTitle (s.blockOrder + 1)).2.1.used := by
      intro hin
      rcases hA1.usednew _ hin with h3 | h3
      · exact hru1 h3
      · exact hrne h3
    have hwnu : w.blockId ∉ (allocate s.recon aT raw s.curSectionTitle
        s.curChapterTitle (s.blockOrder + 1)).2.1.used := by
      rw [hwid]
      exact hrnu
    refine ⟨w, ?_, hwid, ?_⟩
    · rw [hrecS]
      exact hA1.keep _ w hw hwnu
    · rw [hrecS]
      exact hrnu
  rcases hspec.2 with ⟨hnu1, hQf, hused1, hnext1⟩ | ⟨hfr, hused1, hnext1⟩
  · -- the first run reused an image-owning identifier
    have hcS : IM.contains (emitF s aT rT raw norm).2 = true := by
      simpa using hQf
    have himb : imOf (rowOf s rT raw norm (emitF s aT rT raw norm).2)
        ∈ imRows IM B1 := by
      rw [hB1, imRows_append, imRows_cons_mem IM _ T hcS]
      exact List.mem_append_right _ (List.mem_cons_self _ _)
    have hbundle :
        (allocate u.recon aT raw u.curSectionTitle u.curChapterTitle
          (u.blockOrder + 1)).1 = (emitF s aT rT raw norm).2 ∧
        (allocate u.recon aT raw u.curSectionTitle u.curChapterTitle
          (u.blockOrder + 1)).2.1.used
          = (emitF s aT rT raw norm).2 :: u.recon.used ∧
        (allocate u.recon aT raw u.curSectionTitle u.curChapterTitle
          (u.blockOrder + 1)).2.1.nextId = u.recon.nextId ∧
        (∀ c, List.Sublist (alookupD (allocate u.recon aT raw u.curSectionTitle
          u.curChapterTitle (u.blockOrder + 1)).2.1.byChapter c)
          (alookupD u.recon.byChapter c)) ∧
        (∀ c x, x ∈ alookupD u.recon.byChapter c →
          x ≠ imOf (rowOf s rT raw norm (emitF s aT rT raw norm).2) →
          x ∈ alookupD (allocate u.recon aT raw u.curSectionTitle
            u.curChapterTitle (u.blockOrder + 1)).2.1.byChapter c) ∧
        (∀ k2, ∃ d, (imRows IM B1).filter (fun b => b.key = k2)
          = d ++ alookupD (allocate u.recon aT raw u.curSectionTitle
            u.curChapterTitle (u.blockOrder + 1)).2.1.imageMap k2 ∧
          ∀ b ∈ d, b.blockId ∈ (allocate u.recon aT raw u.curSectionTitle
            u.curChapterTitle (u.blockOrder + 1)).2.1.used) := by
      rcases hTT with haT | ⟨haT, hchn⟩
      · -- exact-key reuse in the second run
        have hfeq : (imRows IM B1).filter (fun b => b.key
              = ((aT, some raw, s.curSectionTitle, s.curChapterTitle) : BKey))
            = (imRows IM s.blocks).filter (fun b => b.key
              = ((aT, some raw, s.curSectionTitle, s.curChapterTitle) : BKey))
              ++ imOf (rowOf s rT raw norm (emitF s aT rT raw norm).2)
              :: (imRows IM T).filter (fun b => b.key
              = ((aT, some raw, s.curSectionTitle, s.curChapterTitle) : BKey)) := by
          rw [hB1, imRows_append, imRows_cons_mem IM _ T hcS, List.filter_append,
            List.filter_cons_of_pos (by simp [rowOf, imOf, ImageBlock.key, haT])]
        obtain ⟨dropped, hdeq, hdu⟩ := hsim.mgrp
          ((aT, some raw, s.curSectionTitle, s.curChapterTitle) : BKey)
        have hnotd : imOf (rowOf s rT raw norm (emitF s aT rT raw norm).2)
            ∉ dropped := by
          intro hin
          exact hfu2 (hdu _ hin)
        obtain ⟨A2l, hcur, hA2mem⟩ := surgery dropped _ _ _ _
          (hfeq.symm.trans hdeq) hnotd
        have hPfused : ∀ z ∈ A2l, u.recon.used.contains z.blockId = true := by
          intro z hz
          have hzP := hA2mem z hz
          have hzm : z ∈ imRows IM s.blocks := List.mem_of_mem_filter hzP
          have h4 : z.blockId ∈ u.recon.used :=
            (hsim.uiff _).mpr (imRows_ids_mem IM s.blocks z hzm)
          simpa using h4
        have hyu : u.recon.used.contains
            (imOf (rowOf s rT raw norm (emitF s aT rT raw norm).2)).blockId
            = false := by
          simpa using hfu2
        have hsplit2 : alookupD u.recon.imageMap
            ((aT, some raw, u.curSectionTitle, u.curChapterTitle) : BKey)
            = A2l ++ imOf (rowOf s rT raw norm (emitF s aT rT raw norm).2)
              :: (imRows IM T).filter (fun b => b.key
              = ((aT, some raw, s.curSectionTitle, s.curChapterTitle) : BKey)) := by
          rw [hkk]
          exact hcur
        obtain ⟨hid2, hused2, hnext2, hgk2, hgo2, hchapsub2, hkeep2⟩ :=
          alloc2_exact u.recon aT raw u.curSectionTitle u.curChapterTitle
            (u.blockOrder + 1) _ A2l _ hsplit2 hPfused hyu
        refine ⟨hid2, hused2, hnext2, hchapsub2, hkeep2, ?_⟩
        intro k2
        by_cases hk2 : k2 = ((aT, some raw, s.curSectionTitle,
            s.curChapterTitle) : BKey)
        · refine ⟨(imRows IM s.blocks).filter (fun b => b.key = k2)
            ++ [imOf (rowOf s rT raw norm (emitF s aT rT raw norm).2)], ?_, ?_⟩
          · have hgk2b := hgk2
            rw [hkk] at hgk2b
            have hgk2s : alookupD (allocate u.recon aT raw u.curSectionTitle
                u.curChapterTitle (u.blockOrder + 1)).2.1.imageMap k2
                = (imRows IM T).filter (fun b => b.key = k2) := by
              rw [hk2]
              exact hgk2b
            rw [hgk2s, hk2, hfeq, List.append_assoc]
            rfl
          · intro b hb
            rw [hused2]
            rcases List.mem_append.mp hb with h4 | h4
            · have hbm : b ∈ imRows IM s.blocks := List.mem_of_mem_filter h4
              exact List.mem_cons_of_mem _
                ((hsim.uiff _).mpr (imRows_ids_mem IM s.blocks b hbm))
            · rcases List.mem_singleton.mp h4 with rfl
              exact List.mem_cons_self _ _
        · obtain ⟨d2, hdeq2, hdu2⟩ := hsim.mgrp k2
          refine ⟨d2, ?_, ?_⟩
          · have h4 : alookupD (allocate u.recon aT raw u.curSectionTitle
                u.curChapterTitle (u.blockOrder + 1)).2.1.imageMap k2
                = alookupD u.recon.imageMap k2 :=
              hgo2 k2 (by rw [hkk]; exact hk2)
            rw [h4]
            exact hdeq2
          · intro b hb
            rw [hused2]
            exact List.mem_cons_of_mem _ (hdu2 b hb)
      · -- intro emission: chapter-proximity reuse in the second run
        have hfnil : (imRows IM B1).filter (fun b => b.key
            = ((aT, some raw, s.curSectionTitle, s.curChapterTitle) : BKey))
            = [] := by
          rw [List.eq_nil_iff_forall_not_mem]
          intro x hxf
          have hxm := List.mem_of_mem_filter hxf
          have hxk : x.key = ((aT, some raw, s.curSectionTitle,
              s.curChapterTitle) : BKey) := by
            simpa using List.of_mem_filter hxf
          have hxbt : x.blockType = aT := congrArg (fun k : BKey => k.1) hxk
          obtain ⟨w, hw, hcw, hxw⟩ := (imRows_mem IM B1 x).mp hxm
          have hwbt := hbt1 w hw
          rw [hxw] at hxbt
          rw [haT] at hxbt
          rw [show w.blockType = (imOf w).blockType from rfl, hxbt] at hwbt
          exact absurd hwbt (by decide)
        obtain ⟨dropped, hdeq, hdu⟩ := hsim.mgrp
          ((aT, some raw, s.curSectionTitle, s.curChapterTitle) : BKey)
        rw [hfnil] at hdeq
        have hcur0 : alookupD u.recon.imageMap
            ((aT, some raw, s.curSectionTitle, s.curChapterTitle) : BKey)
            = [] := (List.append_eq_nil.mp hdeq.symm).2
        have hempty : alookupD u.recon.imageMap
            ((aT, some raw, u.curSectionTitle, u.curChapterTitle) : BKey)
            = [] := by
          rw [hkk]
          exact hcur0
        have hych : (imOf (rowOf s rT raw norm
            (emitF s aT rT raw norm).2)).chapterTitle = u.curChapterTitle := by
          show s.curChapterTitle = u.curChapterTitle
          exact hsim.mir.cct.symm
        have hypool : imOf (rowOf s rT raw norm (emitF s aT rT raw norm).2)
            ∈ alookupD u.recon.byChapter u.curChapterTitle := by
          have h4 := hsim.hfut _ himb hfu2
          rw [hych] at h4
          exact h4
        have hyord : (imOf (rowOf s rT raw norm
            (emitF s aT rT raw norm).2)).blockOrder = u.blockOrder + 1 := by
          show s.blockOrder + 1 = u.blockOrder + 1
          rw [hsim.mir.bo]
        have hyu : u.recon.used.contains
            (imOf (rowOf s rT raw norm (emitF s aT rT raw norm).2)).blockId
            = false := by
          simpa using hfu2
        have hptype : ∀ x ∈ alookupD u.recon.byChapter u.curChapterTitle,
            ¬ x.blockType = aT := by
          intro x hx
          have hxp := List.Sublist.mem hx (hsim.cmem _)
          obtain ⟨hxm, _⟩ := (chapPool_mem _ _ _).mp hxp
          obtain ⟨w, hw, hcw, hxw⟩ := (imRows_mem IM B1 x).mp hxm
          have hwbt := hbt1 w hw
          rw [haT]
          intro hq
          rw [hxw] at hq
          rw [show w.blockType = (imOf w).blockType from rfl, hq] at hwbt
          exact absurd hwbt (by decide)
        have hpord : ∀ x ∈ alookupD u.recon.byChapter u.curChapterTitle,
            x ≠ imOf (rowOf s rT raw norm (emitF s aT rT raw norm).2) →
            x.blockOrder ≠ u.blockOrder + 1 := by
          intro x hx hxne
          have hxp := List.Sublist.mem hx (hsim.cmem _)
          obtain ⟨hxm, hxch⟩ := (chapPool_mem _ _ _).mp hxp
          have hxn : x.chapterTitle = none := by
            rw [hxch, hsim.mir.cct, hchn]
          have hyn : (imOf (rowOf s rT raw norm
              (emitF s aT rT raw norm).2)).chapterTitle = none := by
            show s.curChapterTitle = none
            exact hchn
          have hdiff := imRows_none_ord_inj IM B1 hndB1 hinc1 x hxm _ himb hxn hyn hxne
          rw [← hyord]
          exact hdiff
        obtain ⟨hid2, hused2, hnext2, hgall2, hchapsub2, hkeep2⟩ :=
          alloc2_prox u.recon aT raw u.curSectionTitle u.curChapterTitle
            (u.blockOrder + 1) _ hempty hyord hypool hyu hptype hpord
        refine ⟨hid2, hused2, hnext2, hchapsub2, hkeep2, ?_⟩
        intro k2
        obtain ⟨d2, hdeq2, hdu2⟩ := hsim.mgrp k2
        refine ⟨d2, ?_, ?_⟩
        · rw [hgall2 k2]
          exact hdeq2
        · intro b hb
          rw [hused2]
          exact List.mem_cons_of_mem _ (hdu2 b hb)
    obtain ⟨hid2, hused2, hnext2, hchapsub2, hkeep2, hmgrp2⟩ := hbundle
    have him1 : imRows IM (emitF s aT rT raw norm).1.blocks
        = imRows IM s.blocks
          ++ [imOf (rowOf s rT raw norm (emitF s aT rT raw norm).2)] := by
      rw [emitF_blocks2, imRows_append, imRows_cons_mem IM _ _ hcS]
      rfl
    refine ⟨emitF_mir s u aT rT raw norm hsim.mir, ?_, ?_, ?_, ?_, ?_, ?_, ?_, ?_⟩
    · rw [emitF_blocks2 s aT rT raw norm, emitF_blocks2 u aT rT raw norm]
      apply rowsMatch_append IM _ _ hsim.rmatch
      exact ⟨hsim.mir.cst, hsim.mir.cct,
        (by show u.blockOrder + 1 = s.blockOrder + 1; rw [hsim.mir.bo]),
        rfl, rfl, rfl, fun _ => hid2⟩
    · exact hsim.qpr
    · intro a
      rw [hrecU, hused2, him1, List.map_append]
      have h4 := hsim.uiff a
      constructor
      · intro h5
        rcases List.mem_cons.mp h5 with h6 | h6
        · apply List.mem_append_right
          simp only [List.map_cons, List.map_nil, List.mem_singleton]
          exact h6
        · exact List.mem_append_left _ (h4.mp h6)
      · intro h5
        rcases List.mem_append.mp h5 with h6 | h6
        · exact List.mem_cons_of_mem _ (h4.mpr h6)
        · simp only [List.map_cons, List.map_nil, List.mem_singleton] at h6
          exact List.mem_cons.mpr (Or.inl h6)
    · intro k2
      rw [hrecU]
      exact hmgrp2 k2
    · intro c
      rw [hrecU]
      exact (hchapsub2 c).trans (hsim.cmem c)
    · intro r hrm hru
      rw [hrecU, hused2] at hru
      have hr1 : r.blockId ∉ u.recon.used := fun h5 =>
        hru (List.mem_cons_of_mem _ h5)
      have hrne : r ≠ imOf (rowOf s rT raw norm (emitF s aT rT raw norm).2) := by
        intro hh
        apply hru
        rw [hh]
        exact List.mem_cons_self _ _
      have hold := hsim.hfut r hrm hr1
      rw [hrecU]
      exact hkeep2 _ r hold hrne
    · intro a ha
      rw [hrecU, hnext2]
      exact hsim.next2 a ha
    · intro r hr
      rw [hdropT] at hr
      exact hav1 r hr
  · -- the first run allocated a fresh identifier: so does the second
    have hfgt : maxId < (allocate s.recon aT raw s.curSectionTitle
        s.curChapterTitle (s.blockOrder + 1)).1 := by
      rw [hfr]
      exact hsok.next
    have hfIM : (emitF s aT rT raw norm).2 ∉ IM := by
      intro hin
      have := hIMle _ hin
      rw [hfid] at this
      omega
    have hcSf : IM.contains (emitF s aT rT raw norm).2 = false := by
      simpa using hfIM
    have hnofree : ∀ y, y ∈ imRows IM B1 → y.blockId ∉ u.recon.used →
        y.chapterTitle = s.curChapterTitle → False := by
      intro y hy hyu hych
      have hysplit : y ∈ imRows IM s.blocks
          ++ imRows IM (rowOf s rT raw norm (emitF s aT rT raw norm).2 :: T) := by
        rw [← imRows_append, ← hB1]
        exact hy
      rcases List.mem_append.mp hysplit with h4 | h4
      · exact hyu ((hsim.uiff _).mpr (imRows_ids_mem IM s.blocks y h4))
      · have hyavail : availIn s y := by
          apply hsim.av1 y
          rw [hdropn]
          exact h4
        obtain ⟨w, hw, hwid, hyu1⟩ := hyavail
        rw [hych] at hw
        have hwu : w.blockId ∈ s.recon.used := allocate_used_eq s.recon aT raw
          s.curSectionTitle s.curChapterTitle (s.blockOrder + 1) hused1 w hw
        rw [hwid] at hwu
        exact hyu1 hwu
    have hgall : ∀ z ∈ alookupD u.recon.imageMap
        ((aT, some raw, u.curSectionTitle, u.curChapterTitle) : BKey),
        z.blockId ∈ u.recon.used := by
      intro z hz
      rw [hkk] at hz
      obtain ⟨dropped, hdeq, hdu⟩ := hsim.mgrp
        ((aT, some raw, s.curSectionTitle, s.curChapterTitle) : BKey)
      have hzf : z ∈ (imRows IM B1).filter (fun b => b.key
          = ((aT, some raw, s.curSectionTitle, s.curChapterTitle) : BKey)) := by
        rw [hdeq]
        exact List.mem_append_right _ hz
      have hzm : z ∈ imRows IM B1 := List.mem_of_mem_filter hzf
      have hzk : z.key = ((aT, some raw, s.curSectionTitle,
          s.curChapterTitle) : BKey) := by
        simpa using List.of_mem_filter hzf
      have hzch : z.chapterTitle = s.curChapterTitle :=
        congrArg (fun k : BKey => k.2.2.2) hzk
      by_contra hzu
      exact hnofree z hzm hzu hzch
    have hpall : ∀ x ∈ alookupD u.recon.byChapter u.curChapterTitle,
        x.blockId ∈ u.recon.used := by
      intro x hx
      have hxp := List.Sublist.mem hx (hsim.cmem _)
      obtain ⟨hxm, hxch⟩ := (chapPool_mem _ _ _).mp hxp
      by_contra hxu
      exact hnofree x hxm hxu (by rw [hxch, hsim.mir.cct])
    obtain ⟨hid2, hused2, hnext2, hgo2, hgksplit, hpools2⟩ :=
      alloc2_fresh u.recon aT raw u.curSectionTitle u.curChapterTitle
        (u.blockOrder + 1) hgall hpall
    have him1 : imRows IM (emitF s aT rT raw norm).1.blocks
        = imRows IM s.blocks := by
      rw [emitF_blocks2, imRows_append, imRows_cons_not IM _ _ hcSf]
      simp [imRows]
    refine ⟨emitF_mir s u aT rT raw norm hsim.mir, ?_, ?_, ?_, ?_, ?_, ?_, ?_, ?_⟩
    · rw [emitF_blocks2 s aT rT raw norm, emitF_blocks2 u aT rT raw norm]
      apply rowsMatch_append IM _ _ hsim.rmatch
      refine ⟨hsim.mir.cst, hsim.mir.cct,
        (by show u.blockOrder + 1 = s.blockOrder + 1; rw [hsim.mir.bo]),
        rfl, rfl, rfl, ?_⟩
      intro hor
      exfalso
      rcases hor with h4 | h4
      · have h5 : (emitF s aT rT raw norm).2 ∈ IM := by simpa using h4
        exact hfIM h5
      · have h5 : u.recon.nextId ∈ IM := by
          rw [← hid2]
          simpa using h4
        exact absurd (hsim.next2 _ h5) (lt_irrefl _)
    · exact hsim.qpr
    · intro a
      rw [hrecU, hused2, him1]
      exact hsim.uiff a
    · intro k2
      rw [hrecU]
      by_cases hk2 : k2 = ((aT, some raw, s.curSectionTitle,
          s.curChapterTitle) : BKey)
      · rcases hgksplit with hsame | hnil
        · obtain ⟨d2, hdeq2, hdu2⟩ := hsim.mgrp k2
          refine ⟨d2, ?_, ?_⟩
          · rw [show alookupD (allocate u.recon aT raw u.curSectionTitle
                u.curChapterTitle (u.blockOrder + 1)).2.1.imageMap k2
                = alookupD u.recon.imageMap k2 from (by rw [hk2, ← hkk]; exact hsame)]
            exact hdeq2
          · intro b hb
            rw [hused2]
            exact hdu2 b hb
        · obtain ⟨d2, hdeq2, hdu2⟩ := hsim.mgrp k2
          refine ⟨(imRows IM B1).filter (fun b => b.key = k2), ?_, ?_⟩
          · rw [show alookupD (allocate u.recon aT raw u.curSectionTitle
                u.curChapterTitle (u.blockOrder + 1)).2.1.imageMap k2
                = ([] : List ImageBlock) from (by rw [hk2, ← hkk]; exact hnil)]
            rw [List.append_nil]
          · intro b hb
            rw [hused2]
            rw [hdeq2] at hb
            rcases List.mem_append.mp hb with h4 | h4
            · exact hdu2 b h4
            · exact hgall b (by rw [hkk, ← hk2]; exact h4)
      · obtain ⟨d2, hdeq2, hdu2⟩ := hsim.mgrp k2
        refine ⟨d2, ?_, ?_⟩
        · rw [hgo2 k2 (by rw [hkk]; exact hk2)]
          exact hdeq2
        · intro b hb
          rw [hused2]
          exact hdu2 b hb
    · intro c
      rw [hrecU, hpools2 c]
      exact hsim.cmem c
    · intro r hrm hru
      rw [hrecU, hused2] at hru
      rw [hrecU, hpools2]
      exact hsim.hfut r hrm hru
    · intro a ha
      rw [hrecU, hnext2]
      exact Nat.lt_succ_of_lt (hsim.next2 a ha)
    · intro r hr
      rw [hdropT] at hr
      exact hav1 r hr

theorem flushQAF_cct (s : StF) : (flushQAF s).curChapterTitle = s.curChapterTitle := by
  cases hm : s.curMode with
  | none => simp only [flushQAF, hm]
  | some mode =>
    simp only [flushQAF, hm]
    by_cases hb : s.curBuffer = []
    · rw [if_pos hb]
    · rw [if_neg hb]
      by_cases hq : mode = "question"
      · simp only [if_pos hq]
        rfl
      · simp only [if_neg hq]
        rfl

theorem flushAggregateF_sim (IM : List Nat) (maxId : Nat) (B1 : List DocBlockF)
    (hIMle : ∀ a ∈ IM, a ≤ maxId)
    (hndB1 : (B1.map (fun b => b.blockId)).Nodup)
    (hbt1 : ∀ b ∈ B1, b.blockType ∈ BTYPES)
    (hinc1 : List.Pairwise (fun a b => a < b)
      ((B1.filter (fun b => b.chapterTitle = none)).map (fun b => b.blockOrder)))
    (s u : StF) (hsim : Sim IM B1 s u) (hsok : SyncOK maxId s)
    (hrq : ReconQ (fun a => a ∈ IM) s.recon)
    (hpfx : List.IsPrefix (flushAggregateF s).blocks B1) :
    Sim IM B1 (flushAggregateF s) (flushAggregateF u) := by
  cases hag : s.aggType with
  | none =>
    have hagu : u.aggType = none := by rw [hsim.mir.agt, hag]
    simp only [flushAggregateF, hag, hagu]
    exact sim_same IM B1 s u _ _ hsim
      ⟨hsim.mir.so, hsim.mir.co, hsim.mir.cst, hsim.mir.csi, hsim.mir.cct,
       hsim.mir.ccn, hsim.mir.bo, hsim.mir.qc, hsim.mir.ia, rfl, rfl,
       hsim.mir.cm, hsim.mir.cb, hsim.mir.cht, hsim.mir.qsm, hsim.mir.secs,
       hsim.mir.chs, hsim.mir.ab⟩ rfl rfl rfl rfl rfl rfl
  | some t =>
    have hagu : u.aggType = some t := by rw [hsim.mir.agt, hag]
    simp only [flushAggregateF, hag, hagu]
    by_cases hl : s.aggLines = []
    · have hlu : u.aggLines = [] := by rw [hsim.mir.agl, hl]
      rw [if_pos hl, if_pos hlu]
      exact sim_same IM B1 s u _ _ hsim
        ⟨hsim.mir.so, hsim.mir.co, hsim.mir.cst, hsim.mir.csi, hsim.mir.cct,
         hsim.mir.ccn, hsim.mir.bo, hsim.mir.qc, hsim.mir.ia, rfl, rfl,
         hsim.mir.cm, hsim.mir.cb, hsim.mir.cht, hsim.mir.qsm, hsim.mir.secs,
         hsim.mir.chs, hsim.mir.ab⟩ rfl rfl rfl rfl rfl rfl
    · have hlu : ¬ u.aggLines = [] := by rw [hsim.mir.agl]; exact hl
      rw [if_neg hl, if_neg hlu, hsim.mir.agl]
      simp only [flushAggregateF, hag] at hpfx
      rw [if_neg hl] at hpfx
      have hemit := emitF_sim IM maxId B1 hIMle hndB1 hbt1 hinc1 s u t t
        (joinNL s.aggLines)
        (if t = "table" then renderTable s.aggLines else joinNL s.aggLines)
        hsim hsok hrq (Or.inl rfl) hpfx
      exact sim_same IM B1 _ _ _ _ hemit
        ⟨hemit.mir.so, hemit.mir.co, hemit.mir.cst, hemit.mir.csi, hemit.mir.cct,
         hemit.mir.ccn, hemit.mir.bo, hemit.mir.qc, hemit.mir.ia, rfl, rfl,
         hemit.mir.cm, hemit.mir.cb, hemit.mir.cht, hemit.mir.qsm, hemit.mir.secs,
         hemit.mir.chs, hemit.mir.ab⟩ rfl rfl rfl rfl rfl rfl

theorem flushQA_q_sim (IM : List Nat) (maxId : Nat) (B1 : List DocBlockF)
    (hIMle : ∀ a ∈ IM, a ≤ maxId)
    (hndB1 : (B1.map (fun b => b.blockId)).Nodup)
    (hbt1 : ∀ b ∈ B1, b.blockType ∈ BTYPES)
    (hinc1 : List.Pairwise (fun a b => a < b)
      ((B1.filter (fun b => b.chapterTitle = none)).map (fun b => b.blockOrder)))
    (s u : StF) (hsim : Sim IM B1 s u) (hsok : SyncOK maxId s)
    (hrq : ReconQ (fun a => a ∈ IM) s.recon) (text : String)
    (hpfx : List.IsPrefix
      (emitF s "question" "question" text text).1.blocks B1) :
    Sim IM B1
      { (emitF s "question" "question" text text).1 with
          questionCounter := s.questionCounter + 1
          questions := s.questions ++
            [⟨(emitF s "question" "question" text text).2, s.questionCounter + 1,
              text, s.curSectionTitle, s.curChapterTitle⟩]
          questionSummaries := s.questionSummaries ++
            [⟨s.curSectionTitle, s.curChapterTitle, s.curChapterNum,
              s.questionCounter + 1, text⟩] }
      { (emitF u "question" "question" text text).1 with
          questionCounter := u.questionCounter + 1
          questions := u.questions ++
            [⟨(emitF u "question" "question" text text).2, u.questionCounter + 1,
              text, u.curSectionTitle, u.curChapterTitle⟩]
          questionSummaries := u.questionSummaries ++
            [⟨u.curSectionTitle, u.curChapterTitle, u.curChapterNum,
              u.questionCounter + 1, text⟩] } := by
  have hemit := emitF_sim IM maxId B1 hIMle hndB1 hbt1 hinc1 s u
    "question" "question" text text hsim hsok hrq (Or.inl rfl) hpfx
  refine ⟨?_, hemit.rmatch, ?_, hemit.uiff, hemit.mgrp, hemit.cmem, hemit.hfut,
    hemit.next2, hemit.av1⟩
  · refine ⟨hemit.mir.so, hemit.mir.co, hemit.mir.cst, hemit.mir.csi,
      hemit.mir.cct, hemit.mir.ccn, hemit.mir.bo, ?_, hemit.mir.ia,
      hemit.mir.agt, hemit.mir.agl, hemit.mir.cm, hemit.mir.cb, hemit.mir.cht,
      ?_, hemit.mir.secs, hemit.mir.chs, hemit.mir.ab⟩
    · show u.questionCounter + 1 = s.questionCounter + 1
      rw [hsim.mir.qc]
    · show u.questionSummaries ++
        [(⟨u.curSectionTitle, u.curChapterTitle, u.curChapterNum,
          u.questionCounter + 1, text⟩ : QuestionSummaryRow)]
        = s.questionSummaries ++
        [(⟨s.curSectionTitle, s.curChapterTitle, s.curChapterNum,
          s.questionCounter + 1, text⟩ : QuestionSummaryRow)]
      rw [hsim.mir.qsm, hsim.mir.cst, hsim.mir.cct, hsim.mir.ccn, hsim.mir.qc]
  · show (u.questions ++
        [(⟨(emitF u "question" "question" text text).2, u.questionCounter + 1,
          text, u.curSectionTitle, u.curChapterTitle⟩ : QuestionRow)]).map qProj
      = (s.questions ++
        [(⟨(emitF s "question" "question" text text).2, s.questionCounter + 1,
          text, s.curSectionTitle, s.curChapterTitle⟩ : QuestionRow)]).map qProj
    rw [List.map_append, List.map_append, hsim.qpr]
    congr 1
    simp [qProj, hsim.mir.qc, hsim.mir.cct]

theorem flushQAF_sim (IM : List Nat) (maxId : Nat) (B1 : List DocBlockF)
    (hIMle : ∀ a ∈ IM, a ≤ maxId)
    (hndB1 : (B1.map (fun b => b.blockId)).Nodup)
    (hbt1 : ∀ b ∈ B1, b.blockType ∈ BTYPES)
    (hinc1 : List.Pairwise (fun a b => a < b)
      ((B1.filter (fun b => b.chapterTitle = none)).map (fun b => b.blockOrder)))
    (s u : StF) (hsim : Sim IM B1 s u) (hsok : SyncOK maxId s)
    (hrq : ReconQ (fun a => a ∈ IM) s.recon)
    (hpfx : List.IsPrefix (flushQAF s).blocks B1) :
    Sim IM B1 (flushQAF s) (flushQAF u) := by
  cases hm : s.curMode with
  | none =>
    have hmu : u.curMode = none := by rw [hsim.mir.cm, hm]
    simp only [flushQAF, hm, hmu]
    exact sim_same IM B1 s u _ _ hsim
      ⟨hsim.mir.so, hsim.mir.co, hsim.mir.cst, hsim.mir.csi, hsim.mir.cct,
       hsim.mir.ccn, hsim.mir.bo, hsim.mir.qc, hsim.mir.ia, hsim.mir.agt,
       hsim.mir.agl, rfl, rfl, rfl, hsim.mir.qsm, hsim.mir.secs,
       hsim.mir.chs, hsim.mir.ab⟩ rfl rfl rfl rfl rfl rfl
  | some mode =>
    have hmu : u.curMode = some mode := by rw [hsim.mir.cm, hm]
    simp only [flushQAF, hm, hmu]
    by_cases hb : s.curBuffer = []
    · have hbu : u.curBuffer = [] := by rw [hsim.mir.cb, hb]
      rw [if_pos hb, if_pos hbu]
      exact sim_same IM B1 s u _ _ hsim
        ⟨hsim.mir.so, hsim.mir.co, hsim.mir.cst, hsim.mir.csi, hsim.mir.cct,
         hsim.mir.ccn, hsim.mir.bo, hsim.mir.qc, hsim.mir.ia, hsim.mir.agt,
         hsim.mir.agl, rfl, rfl, rfl, hsim.mir.qsm, hsim.mir.secs,
         hsim.mir.chs, hsim.mir.ab⟩ rfl rfl rfl rfl rfl rfl
    · have hbu : ¬ u.curBuffer = [] := by rw [hsim.mir.cb]; exact hb
      rw [if_neg hb, if_neg hbu, hsim.mir.cb]
      simp only [flushQAF, hm] at hpfx
      rw [if_neg hb] at hpfx
      by_cases hq : mode = "question"
      · simp only [if_pos hq]
        simp only [if_pos hq] at hpfx
        have hleaf := flushQA_q_sim IM maxId B1 hIMle hndB1 hbt1 hinc1 s u hsim
          hsok hrq (concatStrings s.curBuffer) hpfx
        exact sim_same IM B1 _ _ _ _ hleaf
          ⟨hleaf.mir.so, hleaf.mir.co, hleaf.mir.cst, hleaf.mir.csi,
           hleaf.mir.cct, hleaf.mir.ccn, hleaf.mir.bo, hleaf.mir.qc,
           hleaf.mir.ia, hleaf.mir.agt, hleaf.mir.agl, rfl, rfl, rfl,
           hleaf.mir.qsm, hleaf.mir.secs, hleaf.mir.chs, hleaf.mir.ab⟩
          rfl rfl rfl rfl rfl rfl
      · simp only [if_neg hq]
        simp only [if_neg hq] at hpfx
        have hemit := emitF_sim IM maxId B1 hIMle hndB1 hbt1 hinc1 s u
          "answer" "answer" (concatStrings s.curBuffer)
          (concatStrings s.curBuffer) hsim hsok hrq (Or.inl rfl) hpfx
        exact sim_same IM B1 _ _ _ _ hemit
          ⟨hemit.mir.so, hemit.mir.co, hemit.mir.cst, hemit.mir.csi,
           hemit.mir.cct, hemit.mir.ccn, hemit.mir.bo, hemit.mir.qc,
           hemit.mir.ia, hemit.mir.agt, hemit.mir.agl, rfl, rfl, rfl,
           hemit.mir.qsm, hemit.mir.secs, hemit.mir.chs, hemit.mir.ab⟩
          rfl rfl rfl rfl rfl rfl

theorem startModeF_sim (IM : List Nat) (maxId : Nat) (B1 : List DocBlockF)
    (hIMle : ∀ a ∈ IM, a ≤ maxId)
    (hndB1 : (B1.map (fun b => b.blockId)).Nodup)
    (hbt1 : ∀ b ∈ B1, b.blockType ∈ BTYPES)
    (hinc1 : List.Pairwise (fun a b => a < b)
      ((B1.filter (fun b => b.chapterTitle = none)).map (fun b => b.blockOrder)))
    (s u : StF) (hsim : Sim IM B1 s u) (hsok : SyncOK maxId s)
    (hrq : ReconQ (fun a => a ∈ IM) s.recon) (mode : String)
    (hpfx : List.IsPrefix (startModeF s mode).blocks B1) :
    Sim IM B1 (startModeF s mode) (startModeF u mode) := by
  cases hm : s.curMode with
  | none =>
    have hmu : u.curMode = none := by rw [hsim.mir.cm, hm]
    simp only [startModeF, hm, hmu]
    exact sim_same IM B1 s u _ _ hsim
      ⟨hsim.mir.so, hsim.mir.co, hsim.mir.cst, hsim.mir.csi, hsim.mir.cct,
       hsim.mir.ccn, hsim.mir.bo, hsim.mir.qc, hsim.mir.ia, hsim.mir.agt,
       hsim.mir.agl, rfl, hsim.mir.cb, hsim.mir.cht, hsim.mir.qsm,
       hsim.mir.secs, hsim.mir.chs, hsim.mir.ab⟩ rfl rfl rfl rfl rfl rfl
  | some m =>
    have hmu : u.curMode = some m := by rw [hsim.mir.cm, hm]
    simp only [startModeF, hm, hmu]
    by_cases hne : m ≠ mode
    · simp only [if_pos hne]
      simp only [startModeF, hm] at hpfx
      rw [if_pos hne] at hpfx
      have hq := flushQAF_sim IM maxId B1 hIMle hndB1 hbt1 hinc1 s u hsim hsok
        hrq hpfx
      exact sim_same IM B1 _ _ _ _ hq
        ⟨hq.mir.so, hq.mir.co, hq.mir.cst, hq.mir.csi, hq.mir.cct, hq.mir.ccn,
         hq.mir.bo, hq.mir.qc, hq.mir.ia, hq.mir.agt, hq.mir.agl, rfl,
         hq.mir.cb, hq.mir.cht, hq.mir.qsm, hq.mir.secs, hq.mir.chs, hq.mir.ab⟩
        rfl rfl rfl rfl rfl rfl
    · simp only [if_neg hne]
      exact hsim

/-- The per-run body of the question/answer buffering fold (lines 571-579). -/
def qaFoldF (s : StF) (r : RunF) : StF :=
  { startModeF s (if r.isBlue then "question" else "answer") with
      curBuffer := (startModeF s
        (if r.isBlue then "question" else "answer")).curBuffer ++ [r.text]
      curHasText := true }

theorem qaFoldF_bpfx (s : StF) (r : RunF) :
    List.IsPrefix s.blocks (qaFoldF s r).blocks :=
  startModeF_bpfx s _

theorem qafold_sim (IM : List Nat) (maxId : Nat) (B1 : List DocBlockF)
    (hIMle : ∀ a ∈ IM, a ≤ maxId)
    (hndB1 : (B1.map (fun b => b.blockId)).Nodup)
    (hbt1 : ∀ b ∈ B1, b.blockType ∈ BTYPES)
    (hinc1 : List.Pairwise (fun a b => a < b)
      ((B1.filter (fun b => b.chapterTitle = none)).map (fun b => b.blockOrder))) :
    ∀ (l : List RunF) (s u : StF),
    Sim IM B1 s u → SyncOK maxId s → IdsInv maxId (fun a => a ∈ IM) s →
    List.IsPrefix (l.foldl qaFoldF s).blocks B1 →
    Sim IM B1 (l.foldl qaFoldF s) (l.foldl qaFoldF u) := by
  intro l
  induction l with
  | nil =>
    intro s u hsim _ _ _
    exact hsim
  | cons r rest ih =>
    intro s u hsim hsok hids hpfx
    simp only [List.foldl_cons]
    have hpfx1 : List.IsPrefix (qaFoldF s r).blocks B1 :=
      (foldl_bpfx qaFoldF qaFoldF_bpfx rest (qaFoldF s r)).trans hpfx
    have hpfxsm : List.IsPrefix (startModeF s
        (if r.isBlue then "question" else "answer")).blocks B1 := hpfx1
    have hsm := startModeF_sim IM maxId B1 hIMle hndB1 hbt1 hinc1 s u hsim hsok
      hids.a.rq (if r.isBlue then "question" else "answer") hpfxsm
    have hsimr : Sim IM B1 (qaFoldF s r) (qaFoldF u r) := by
      refine sim_same IM B1 _ _ _ _ hsm
        ⟨hsm.mir.so, hsm.mir.co, hsm.mir.cst, hsm.mir.csi, hsm.mir.cct,
         hsm.mir.ccn, hsm.mir.bo, hsm.mir.qc, hsm.mir.ia, hsm.mir.agt,
         hsm.mir.agl, hsm.mir.cm, ?_, rfl, hsm.mir.qsm, hsm.mir.secs,
         hsm.mir.chs, hsm.mir.ab⟩ rfl rfl rfl rfl rfl rfl
      show (startModeF u _).curBuffer ++ [r.text]
        = (startModeF s _).curBuffer ++ [r.text]
      rw [hsm.mir.cb]
    have hsok1 : SyncOK maxId (qaFoldF s r) := by
      have h1 := (startModeF_ss maxId IM hIMle s
        (if r.isBlue then "question" else "answer") hsok).1
      exact ⟨h1.mapkey, h1.sync, h1.chapkey, h1.next⟩
    have hids1 : IdsInv maxId (fun a => a ∈ IM) (qaFoldF s r) := by
      have h1 := startModeF_idsInv maxId _ (fun x hx => hIMle x hx) s
        (if r.isBlue then "question" else "answer") hids
      exact idsInv_mk maxId _ _ _ h1 rfl rfl rfl h1.a.wfAgg h1.a.introNone
        rfl rfl rfl
    exact ih (qaFoldF s r) (qaFoldF u r) hsimr hsok1 hids1 hpfx

set_option maxHeartbeats 6400000 in
theorem dispatchF_sim (IM : List Nat) (maxId : Nat) (B1 : List DocBlockF)
    (hIMle : ∀ a ∈ IM, a ≤ maxId)
    (hndB1 : (B1.map (fun b => b.blockId)).Nodup)
    (hbt1 : ∀ b ∈ B1, b.blockType ∈ BTYPES)
    (hinc1 : List.Pairwise (fun a b => a < b)
      ((B1.filter (fun b => b.chapterTitle = none)).map (fun b => b.blockOrder)))
    (s u : StF) (p : ParaF) (raw stripped : String)
    (hsim : Sim IM B1 s u) (hsok : SyncOK maxId s)
    (hids : IdsInv maxId (fun a => a ∈ IM) s)
    (hpfx : List.IsPrefix (dispatchF s p raw stripped).blocks B1) :
    Sim IM B1 (dispatchF s p raw stripped) (dispatchF u p raw stripped) := by
  cases hmc : matchChapter stripped.data with
  | some n =>
    simp only [dispatchF, hmc]
    simp only [dispatchF, hmc] at hpfx
    have hpfxC : List.IsPrefix (flushAggregateF s).blocks B1 :=
      (flushQAF_bpfx (flushAggregateF s)).trans
        ((emitF_bpfx { flushQAF (flushAggregateF s) with
            curChapterNum := some n
            curChapterTitle := some stripped
            questionCounter := 0
            blockOrder := 0
            chapterOrder := (flushQAF (flushAggregateF s)).chapterOrder + 1
            introActive := false
            chapters := (flushQAF (flushAggregateF s)).chapters ++
              [((flushQAF (flushAggregateF s)).curSectionId, stripped,
                (flushQAF (flushAggregateF s)).chapterOrder + 1)] }
          "chapter" "chapter" raw raw).trans hpfx)
    have h1 := flushAggregateF_sim IM maxId B1 hIMle hndB1 hbt1 hinc1 s u hsim
      hsok hids.a.rq hpfxC
    have hsok1 := (flushAggregateF_ss maxId IM hIMle s hsok).1
    have hids1 := flushAggregateF_idsInv maxId _ (fun x hx => hIMle x hx) s hids
    have hpfxQ : List.IsPrefix (flushQAF (flushAggregateF s)).blocks B1 :=
      (emitF_bpfx { flushQAF (flushAggregateF s) with
          curChapterNum := some n
          curChapterTitle := some stripped
          questionCounter := 0
          blockOrder := 0
          chapterOrder := (flushQAF (flushAggregateF s)).chapterOrder + 1
          introActive := false
          chapters := (flushQAF (flushAggregateF s)).chapters ++
            [((flushQAF (flushAggregateF s)).curSectionId, stripped,
              (flushQAF (flushAggregateF s)).chapterOrder + 1)] }
        "chapter" "chapter" raw raw).trans hpfx
    have h2 := flushQAF_sim IM maxId B1 hIMle hndB1 hbt1 hinc1
      (flushAggregateF s) (flushAggregateF u) h1 hsok1 hids1.a.rq hpfxQ
    have hsok2 := (flushQAF_ss maxId IM hIMle _ hsok1).1
    have hids2 := flushQAF_idsInv maxId _ (fun x hx => hIMle x hx) _ hids1
    have h3 : Sim IM B1
        { flushQAF (flushAggregateF s) with
            curChapterNum := some n
            curChapterTitle := some stripped
            questionCounter := 0
            blockOrder := 0
            chapterOrder := (flushQAF (flushAggregateF s)).chapterOrder + 1
            introActive := false
            chapters := (flushQAF (flushAggregateF s)).chapters ++
              [((flushQAF (flushAggregateF s)).curSectionId, stripped,
                (flushQAF (flushAggregateF s)).chapterOrder + 1)] }
        { flushQAF (flushAggregateF u) with
            curChapterNum := some n
            curChapterTitle := some stripped
            questionCounter := 0
            blockOrder := 0
            chapterOrder := (flushQAF (flushAggregateF u)).chapterOrder + 1
            introActive := false
            chapters := (flushQAF (flushAggregateF u)).chapters ++
              [((flushQAF (flushAggregateF u)).curSectionId, stripped,
                (flushQAF (flushAggregateF u)).chapterOrder + 1)] } := by
      refine sim_same IM B1 _ _ _ _ h2
        ⟨h2.mir.so, ?_, h2.mir.cst, h2.mir.csi, rfl, rfl, rfl, rfl, rfl,
         h2.mir.agt, h2.mir.agl, h2.mir.cm, h2.mir.cb, h2.mir.cht, h2.mir.qsm,
         h2.mir.secs, ?_, h2.mir.ab⟩ rfl rfl rfl rfl rfl rfl
      · show (flushQAF (flushAggregateF u)).chapterOrder + 1
          = (flushQAF (flushAggregateF s)).chapterOrder + 1
        rw [h2.mir.co]
      · show (flushQAF (flushAggregateF u)).chapters ++
          [((flushQAF (flushAggregateF u)).curSectionId, stripped,
            (flushQAF (flushAggregateF u)).chapterOrder + 1)]
          = (flushQAF (flushAggregateF s)).chapters ++
          [((flushQAF (flushAggregateF s)).curSectionId, stripped,
            (flushQAF (flushAggregateF s)).chapterOrder + 1)]
        rw [h2.mir.chs, h2.mir.csi, h2.mir.co]
    exact emitF_sim IM maxId B1 hIMle hndB1 hbt1 hinc1 _ _
      "chapter" "chapter" raw raw h3
      ⟨hsok2.mapkey, hsok2.sync, hsok2.chapkey, hsok2.next⟩
      hids2.a.rq (Or.inl rfl) hpfx
  | none =>
    simp only [dispatchF, hmc]
    simp only [dispatchF, hmc] at hpfx
    by_cases hc1 : pyStartsWith stripped "[S]" = true
    · simp only [if_pos hc1]
      simp only [if_pos hc1] at hpfx
      have hpfxC : List.IsPrefix (flushAggregateF s).blocks B1 :=
        (flushQAF_bpfx (flushAggregateF s)).trans
          ((emitF_bpfx { flushQAF (flushAggregateF s) with
              curSectionTitle := some stripped
              sectionOrder := (flushQAF (flushAggregateF s)).sectionOrder + 1
              sections := (flushQAF (flushAggregateF s)).sections ++
                [((flushQAF (flushAggregateF s)).sections.length + 1, stripped,
                  (flushQAF (flushAggregateF s)).sectionOrder + 1)]
              curSectionId := some
                ((flushQAF (flushAggregateF s)).sections.length + 1) }
            "section" "section" raw raw).trans hpfx)
      have h1 := flushAggregateF_sim IM maxId B1 hIMle hndB1 hbt1 hinc1 s u hsim
        hsok hids.a.rq hpfxC
      have hsok1 := (flushAggregateF_ss maxId IM hIMle s hsok).1
      have hids1 := flushAggregateF_idsInv maxId _ (fun x hx => hIMle x hx) s hids
      have hpfxQ : List.IsPrefix (flushQAF (flushAggregateF s)).blocks B1 :=
        (emitF_bpfx { flushQAF (flushAggregateF s) with
            curSectionTitle := some stripped
            sectionOrder := (flushQAF (flushAggregateF s)).sectionOrder + 1
            sections := (flushQAF (flushAggregateF s)).sections ++
              [((flushQAF (flushAggregateF s)).sections.length + 1, stripped,
                (flushQAF (flushAggregateF s)).sectionOrder + 1)]
            curSectionId := some
              ((flushQAF (flushAggregateF s)).sections.length + 1) }
          "section" "section" raw raw).trans hpfx
      have h2 := flushQAF_sim IM maxId B1 hIMle hndB1 hbt1 hinc1
        (flushAggregateF s) (flushAggregateF u) h1 hsok1 hids1.a.rq hpfxQ
      have hsok2 := (flushQAF_ss maxId IM hIMle _ hsok1).1
      have hids2 := flushQAF_idsInv maxId _ (fun x hx => hIMle x hx) _ hids1
      have h3 : Sim IM B1
          { flushQAF (flushAggregateF s) with
              curSectionTitle := some stripped
              sectionOrder := (flushQAF (flushAggregateF s)).sectionOrder + 1
              sections := (flushQAF (flushAggregateF s)).sections ++
                [((flushQAF (flushAggregateF s)).sections.length + 1, stripped,
                  (flushQAF (flushAggregateF s)).sectionOrder + 1)]
              curSectionId := some
                ((flushQAF (flushAggregateF s)).sections.length + 1) }
          { flushQAF (flushAggregateF u) with
              curSectionTitle := some stripped
              sectionOrder := (flushQAF (flushAggregateF u)).sectionOrder + 1
              sections := (flushQAF (flushAggregateF u)).sections ++
                [((flushQAF (flushAggregateF u)).sections.length + 1, stripped,
                  (flushQAF (flushAggregateF u)).sectionOrder + 1)]
              curSectionId := some
                ((flushQAF (flushAggregateF u)).sections.length + 1) } := by
        refine sim_same IM B1 _ _ _ _ h2
          ⟨?_, h2.mir.co, rfl, ?_, h2.mir.cct, h2.mir.ccn, h2.mir.bo, h2.mir.qc,
           h2.mir.ia, h2.mir.agt, h2.mir.agl, h2.mir.cm, h2.mir.cb, h2.mir.cht,
           h2.mir.qsm, ?_, h2.mir.chs, h2.mir.ab⟩ rfl rfl rfl rfl rfl rfl
        · show (flushQAF (flushAggregateF u)).sectionOrder + 1
            = (flushQAF (flushAggregateF s)).sectionOrder + 1
          rw [h2.mir.so]
        · show some ((flushQAF (flushAggregateF u)).sections.length + 1)
            = some ((flushQAF (flushAggregateF s)).sections.length + 1)
          rw [h2.mir.secs]
        · show (flushQAF (flushAggregateF u)).sections ++
            [((flushQAF (flushAggregateF u)).sections.length + 1, stripped,
              (flushQAF (flushAggregateF u)).sectionOrder + 1)]
            = (flushQAF (flushAggregateF s)).sections ++
            [((flushQAF (flushAggregateF s)).sections.length + 1, stripped,
              (flushQAF (flushAggregateF s)).sectionOrder + 1)]
          rw [h2.mir.secs, h2.mir.so]
      have h4 := emitF_sim IM maxId B1 hIMle hndB1 hbt1 hinc1 _ _
        "section" "section" raw raw h3
        ⟨hsok2.mapkey, hsok2.sync, hsok2.chapkey, hsok2.next⟩
        hids2.a.rq (Or.inl rfl) hpfx
      exact sim_same IM B1 _ _ _ _ h4
        ⟨h4.mir.so, h4.mir.co, h4.mir.cst, h4.mir.csi, h4.mir.cct, h4.mir.ccn,
         h4.mir.bo, h4.mir.qc, rfl, h4.mir.agt, h4.mir.agl, h4.mir.cm,
         h4.mir.cb, h4.mir.cht, h4.mir.qsm, h4.mir.secs, h4.mir.chs, h4.mir.ab⟩
        rfl rfl rfl rfl rfl rfl
    · simp only [if_neg hc1]
      simp only [if_neg hc1] at hpfx
      by_cases hc2 : s.introActive = true
      · have hc2u : u.introActive = true := by rw [hsim.mir.ia]; exact hc2
        simp only [if_pos hc2, if_pos hc2u]
        simp only [if_pos hc2] at hpfx
        by_cases hc3 : pyStartsWith stripped "[I]" = true
        · simp only [if_pos hc3]
          simp only [if_pos hc3] at hpfx
          have hchn : (flushQAF s).curChapterTitle = none := by
            rw [flushQAF_cct]
            exact hids.a.introNone hc2
          by_cases hbold : ((p.filter (fun r => pyStrip r.text ≠ "")).all
              (·.bold)) = true
          · simp only [hbold, if_true, ite_true]
            simp only [hbold, if_true, ite_true] at hpfx
            have h1 := flushQAF_sim IM maxId B1 hIMle hndB1 hbt1 hinc1 s u hsim
              hsok hids.a.rq
              ((emitF_bpfx (flushQAF s) "intro" "intro_heading" raw
                ("<strong>" ++ escapeHtml raw ++ "</strong>")).trans hpfx)
            have hsok1 := (flushQAF_ss maxId IM hIMle s hsok).1
            have hids1 := flushQAF_idsInv maxId _ (fun x hx => hIMle x hx) s hids
            exact emitF_sim IM maxId B1 hIMle hndB1 hbt1 hinc1 _ _
              "intro" "intro_heading" raw
              ("<strong>" ++ escapeHtml raw ++ "</strong>") h1 hsok1
              hids1.a.rq (Or.inr ⟨rfl, hchn⟩) hpfx
          · rw [Bool.not_eq_true] at hbold
            simp only [hbold, Bool.false_eq_true, if_false, ite_false]
            simp only [hbold, Bool.false_eq_true, if_false, ite_false] at hpfx
            have h1 := flushQAF_sim IM maxId B1 hIMle hndB1 hbt1 hinc1 s u hsim
              hsok hids.a.rq
              ((emitF_bpfx (flushQAF s) "intro" "intro_paragraph" raw raw).trans
                hpfx)
            have hsok1 := (flushQAF_ss maxId IM hIMle s hsok).1
            have hids1 := flushQAF_idsInv maxId _ (fun x hx => hIMle x hx) s hids
            exact emitF_sim IM maxId B1 hIMle hndB1 hbt1 hinc1 _ _
              "intro" "intro_paragraph" raw raw h1 hsok1
              hids1.a.rq (Or.inr ⟨rfl, hchn⟩) hpfx
        · simp only [if_neg hc3]
          exact hsim
      · have hc2u : ¬ u.introActive = true := by rw [hsim.mir.ia]; exact hc2
        simp only [if_neg hc2, if_neg hc2u]
        simp only [if_neg hc2] at hpfx
        by_cases hc4 : s.curChapterTitle = none
        · have hc4u : u.curChapterTitle = none := by rw [hsim.mir.cct]; exact hc4
          simp only [if_pos hc4, if_pos hc4u]
          by_cases hblue : p.any (·.isBlue) = true
          · simp only [hblue, if_true, ite_true]
            exact sim_same IM B1 s u _ _ hsim
              ⟨hsim.mir.so, hsim.mir.co, hsim.mir.cst, hsim.mir.csi,
               hsim.mir.cct, hsim.mir.ccn, hsim.mir.bo, hsim.mir.qc,
               hsim.mir.ia, hsim.mir.agt, hsim.mir.agl, hsim.mir.cm,
               hsim.mir.cb, hsim.mir.cht, hsim.mir.qsm, hsim.mir.secs,
               hsim.mir.chs, hsim.mir.ab⟩ rfl rfl rfl rfl rfl rfl
          · rw [Bool.not_eq_true] at hblue
            simp only [hblue, Bool.false_eq_true, if_false, ite_false]
            exact hsim
        · have hc4u : ¬ u.curChapterTitle = none := by
            rw [hsim.mir.cct]; exact hc4
          simp only [if_neg hc4, if_neg hc4u]
          simp only [if_neg hc4] at hpfx
          by_cases hc5 : pyStartsWith stripped "[P]" = true
          · simp only [if_pos hc5]
            simp only [if_pos hc5] at hpfx
            have h1 := flushQAF_sim IM maxId B1 hIMle hndB1 hbt1 hinc1 s u hsim
              hsok hids.a.rq hpfx
            exact sim_same IM B1 _ _ _ _ h1
              ⟨h1.mir.so, h1.mir.co, h1.mir.cst, h1.mir.csi, h1.mir.cct,
               h1.mir.ccn, h1.mir.bo, h1.mir.qc, h1.mir.ia, rfl, rfl,
               h1.mir.cm, h1.mir.cb, h1.mir.cht, h1.mir.qsm, h1.mir.secs,
               h1.mir.chs, h1.mir.ab⟩ rfl rfl rfl rfl rfl rfl
          · simp only [if_neg hc5]
            simp only [if_neg hc5] at hpfx
            by_cases hc6 : pyStartsWith stripped "[R]" = true
            · simp only [if_pos hc6]
              simp only [if_pos hc6] at hpfx
              have h1 := flushQAF_sim IM maxId B1 hIMle hndB1 hbt1 hinc1 s u
                hsim hsok hids.a.rq hpfx
              exact sim_same IM B1 _ _ _ _ h1
                ⟨h1.mir.so, h1.mir.co, h1.mir.cst, h1.mir.csi, h1.mir.cct,
                 h1.mir.ccn, h1.mir.bo, h1.mir.qc, h1.mir.ia, rfl, rfl,
                 h1.mir.cm, h1.mir.cb, h1.mir.cht, h1.mir.qsm, h1.mir.secs,
                 h1.mir.chs, h1.mir.ab⟩ rfl rfl rfl rfl rfl rfl
            · simp only [if_neg hc6]
              simp only [if_neg hc6] at hpfx
              by_cases hc7 : pyStartsWith stripped "[T]" = true
              · simp only [if_pos hc7]
                simp only [if_pos hc7] at hpfx
                have h1 := flushQAF_sim IM maxId B1 hIMle hndB1 hbt1 hinc1 s u
                  hsim hsok hids.a.rq hpfx
                exact sim_same IM B1 _ _ _ _ h1
                  ⟨h1.mir.so, h1.mir.co, h1.mir.cst, h1.mir.csi, h1.mir.cct,
                   h1.mir.ccn, h1.mir.bo, h1.mir.qc, h1.mir.ia, rfl, rfl,
                   h1.mir.cm, h1.mir.cb, h1.mir.cht, h1.mir.qsm, h1.mir.secs,
                   h1.mir.chs, h1.mir.ab⟩ rfl rfl rfl rfl rfl rfl
              · simp only [if_neg hc7]
                simp only [if_neg hc7] at hpfx
                by_cases hc8 : pyStartsWith stripped "[N]" = true
                · simp only [if_pos hc8]
                  simp only [if_pos hc8] at hpfx
                  have h1 := flushQAF_sim IM maxId B1 hIMle hndB1 hbt1 hinc1 s u
                    hsim hsok hids.a.rq
                    ((emitF_bpfx (flushQAF s) "note" "note" raw raw).trans hpfx)
                  have hsok1 := (flushQAF_ss maxId IM hIMle s hsok).1
                  have hids1 := flushQAF_idsInv maxId _ (fun x hx => hIMle x hx)
                    s hids
                  exact emitF_sim IM maxId B1 hIMle hndB1 hbt1 hinc1 _ _
                    "note" "note" raw raw h1 hsok1 hids1.a.rq (Or.inl rfl) hpfx
                · simp only [if_neg hc8]
                  simp only [if_neg hc8] at hpfx
                  cases hruns : p.filter (fun r => r.text ≠ "") with
                  | nil =>
                    simp only [hruns, List.foldl_nil]
                    exact hsim
                  | cons r0 rtl =>
                    simp only [hruns]
                    simp only [hruns] at hpfx
                    by_cases hcond : s.curMode ≠ none ∧ s.curHasText = true
                    · have hcondu : u.curMode ≠ none ∧ u.curHasText = true := by
                        rw [hsim.mir.cm, hsim.mir.cht]
                        exact hcond
                      simp only [if_pos hcond, if_pos hcondu]
                      simp only [if_pos hcond] at hpfx
                      by_cases hfm : s.curMode
                          = some (if r0.isBlue then "question" else "answer")
                      · have hfmu : u.curMode
                            = some (if r0.isBlue then "question" else "answer") := by
                          rw [hsim.mir.cm]
                          exact hfm
                        simp only [if_pos hfm, if_pos hfmu]
                        simp only [if_pos hfm] at hpfx
                        have hpre : Sim IM B1
                            { s with curBuffer := s.curBuffer ++ ["\n"] }
                            { u with curBuffer := u.curBuffer ++ ["\n"] } := by
                          refine sim_same IM B1 s u _ _ hsim
                            ⟨hsim.mir.so, hsim.mir.co, hsim.mir.cst,
                             hsim.mir.csi, hsim.mir.cct, hsim.mir.ccn,
                             hsim.mir.bo, hsim.mir.qc, hsim.mir.ia,
                             hsim.mir.agt, hsim.mir.agl, hsim.mir.cm, ?_,
                             hsim.mir.cht, hsim.mir.qsm, hsim.mir.secs,
                             hsim.mir.chs, hsim.mir.ab⟩ rfl rfl rfl rfl rfl rfl
                          show u.curBuffer ++ ["\n"] = s.curBuffer ++ ["\n"]
                          rw [hsim.mir.cb]
                        have hsokP : SyncOK maxId
                            { s with curBuffer := s.curBuffer ++ ["\n"] } :=
                          ⟨hsok.mapkey, hsok.sync, hsok.chapkey, hsok.next⟩
                        have hidsP : IdsInv maxId (fun a => a ∈ IM)
                            { s with curBuffer := s.curBuffer ++ ["\n"] } :=
                          idsInv_mk maxId _ _ _ hids rfl rfl rfl hids.a.wfAgg
                            hids.a.introNone rfl rfl rfl
                        exact qafold_sim IM maxId B1 hIMle hndB1 hbt1 hinc1
                          (r0 :: rtl) _ _ hpre hsokP hidsP hpfx
                      · have hfmu : ¬ u.curMode
                            = some (if r0.isBlue then "question" else "answer") := by
                          rw [hsim.mir.cm]
                          exact hfm
                        simp only [if_neg hfm, if_neg hfmu]
                        simp only [if_neg hfm] at hpfx
                        have hpfxQ : List.IsPrefix (flushQAF s).blocks B1 :=
                          (foldl_bpfx qaFoldF qaFoldF_bpfx (r0 :: rtl)
                            (flushQAF s)).trans hpfx
                        have h1 := flushQAF_sim IM maxId B1 hIMle hndB1 hbt1
                          hinc1 s u hsim hsok hids.a.rq hpfxQ
                        have hsok1 := (flushQAF_ss maxId IM hIMle s hsok).1
                        have hids1 := flushQAF_idsInv maxId _
                          (fun x hx => hIMle x hx) s hids
                        exact qafold_sim IM maxId B1 hIMle hndB1 hbt1 hinc1
                          (r0 :: rtl) _ _ h1 hsok1 hids1 hpfx
                    · have hcondu : ¬ (u.curMode ≠ none ∧ u.curHasText = true) := by
                        rw [hsim.mir.cm, hsim.mir.cht]
                        exact hcond
                      simp only [if_neg hcond, if_neg hcondu]
                      simp only [if_neg hcond] at hpfx
                      exact qafold_sim IM maxId B1 hIMle hndB1 hbt1 hinc1
                        (r0 :: rtl) s u hsim hsok hids hpfx

/-- Everything the paragraph loop does after the aggregate gate: the blank
check, the strict marker check and the dispatch (lines 443-579). -/
def restF (p : ParaF) (s2 : StF) : StF :=
  if pyStrip (paraText p) = "" then
    (if s2.curMode ≠ none ∧ s2.curHasText then
      { s2 with curBuffer := s2.curBuffer ++ ["\n"] }
    else s2)
  else
    match bracketMarker (pyStrip (paraText p)) with
    | some marker =>
      if marker ∉ KNOWN_MARKERS then
        { s2 with aborted := some ("Unknown structural marker: " ++ marker) }
      else dispatchF s2 p (paraText p) (pyStrip (paraText p))
    | none => dispatchF s2 p (paraText p) (pyStrip (paraText p))

theorem stepParaF_eq_none (s : StF) (p : ParaF)
    (hab : ¬ s.aborted.isSome = true) (hagg : s.aggType = none) :
    stepParaF s p = restF p s := by
  obtain ⟨rec, so, co, cst, csi, cct, ccn, bo, qc, ia, agt, agl, cm, cb, cht,
    blk, qs, qsm, secs, chs, ano, abf⟩ := s
  have hagg2 : agt = none := hagg
  subst hagg2
  unfold stepParaF
  rw [if_neg hab]
  rfl

theorem stepParaF_eq_some_b (s : StF) (p : ParaF) (t : String)
    (hab : ¬ s.aborted.isSome = true) (hagg : s.aggType = some t)
    (hb : (pyStartsWith (pyStrip (paraText p)) "[S]" ||
      pyStartsWith (pyStrip (paraText p)) "[Ch]" ||
      pyStartsWith (pyStrip (paraText p)) "[N]" ||
      pyStartsWith (pyStrip (paraText p)) "[R]" ||
      pyStartsWith (pyStrip (paraText p)) "[T]" ||
      (matchChapter (pyStrip (paraText p)).data).isSome) = true) :
    stepParaF s p = restF p (flushAggregateF s) := by
  obtain ⟨rec, so, co, cst, csi, cct, ccn, bo, qc, ia, agt, agl, cm, cb, cht,
    blk, qs, qsm, secs, chs, ano, abf⟩ := s
  have hagg2 : agt = some t := hagg
  subst hagg2
  unfold stepParaF
  rw [if_neg hab]
  dsimp only
  rw [if_pos hb]
  rfl

theorem stepParaF_eq_some_nb (s : StF) (p : ParaF) (t : String)
    (hab : ¬ s.aborted.isSome = true) (hagg : s.aggType = some t)
    (hb : ¬ (pyStartsWith (pyStrip (paraText p)) "[S]" ||
      pyStartsWith (pyStrip (paraText p)) "[Ch]" ||
      pyStartsWith (pyStrip (paraText p)) "[N]" ||
      pyStartsWith (pyStrip (paraText p)) "[R]" ||
      pyStartsWith (pyStrip (paraText p)) "[T]" ||
      (matchChapter (pyStrip (paraText p)).data).isSome) = true) :
    stepParaF s p = { s with aggLines := s.aggLines ++ [paraText p] } := by
  obtain ⟨rec, so, co, cst, csi, cct, ccn, bo, qc, ia, agt, agl, cm, cb, cht,
    blk, qs, qsm, secs, chs, ano, abf⟩ := s
  have hagg2 : agt = some t := hagg
  subst hagg2
  unfold stepParaF
  rw [if_neg hab]
  dsimp only
  rw [if_neg hb]
  rfl

theorem stepParaF_eq_abort (s : StF) (p : ParaF)
    (hab : s.aborted.isSome = true) : stepParaF s p = s := by
  unfold stepParaF
  rw [if_pos hab]

theorem restF_bpfx (maxId : Nat) (IM : List Nat) (hIMle : ∀ a ∈ IM, a ≤ maxId)
    (p : ParaF) (s2 : StF) (hs2 : SyncOK maxId s2) :
    List.IsPrefix s2.blocks (restF p s2).blocks := by
  unfold restF
  split
  · split
    · exact List.prefix_rfl
    · exact List.prefix_rfl
  · split
    · split
      · exact List.prefix_rfl
      · exact (dispatchF_ss maxId IM hIMle s2 p _ _ hs2).2.pfx
    · exact (dispatchF_ss maxId IM hIMle s2 p _ _ hs2).2.pfx

theorem restF_sim (IM : List Nat) (maxId : Nat) (B1 : List DocBlockF)
    (hIMle : ∀ a ∈ IM, a ≤ maxId)
    (hndB1 : (B1.map (fun b => b.blockId)).Nodup)
    (hbt1 : ∀ b ∈ B1, b.blockType ∈ BTYPES)
    (hinc1 : List.Pairwise (fun a b => a < b)
      ((B1.filter (fun b => b.chapterTitle = none)).map (fun b => b.blockOrder)))
    (p : ParaF) (s2 u2 : StF)
    (h2 : Sim IM B1 s2 u2) (hs2 : SyncOK maxId s2)
    (hi2 : IdsInv maxId (fun a => a ∈ IM) s2)
    (hp2 : List.IsPrefix (restF p s2).blocks B1) :
    Sim IM B1 (restF p s2) (restF p u2) := by
  unfold restF
  unfold restF at hp2
  by_cases hblank : pyStrip (paraText p) = ""
  · simp only [if_pos hblank]
    by_cases hcond : s2.curMode ≠ none ∧ s2.curHasText = true
    · have hcondu : u2.curMode ≠ none ∧ u2.curHasText = true := by
        rw [h2.mir.cm, h2.mir.cht]
        exact hcond
      simp only [if_pos hcond, if_pos hcondu]
      refine sim_same IM B1 s2 u2 _ _ h2
        ⟨h2.mir.so, h2.mir.co, h2.mir.cst, h2.mir.csi, h2.mir.cct, h2.mir.ccn,
         h2.mir.bo, h2.mir.qc, h2.mir.ia, h2.mir.agt, h2.mir.agl, h2.mir.cm,
         ?_, h2.mir.cht, h2.mir.qsm, h2.mir.secs, h2.mir.chs, h2.mir.ab⟩
        rfl rfl rfl rfl rfl rfl
      show u2.curBuffer ++ ["\n"] = s2.curBuffer ++ ["\n"]
      rw [h2.mir.cb]
    · have hcondu : ¬ (u2.curMode ≠ none ∧ u2.curHasText = true) := by
        rw [h2.mir.cm, h2.mir.cht]
        exact hcond
      simp only [if_neg hcond, if_neg hcondu]
      exact h2
  · simp only [if_neg hblank]
    simp only [if_neg hblank] at hp2
    cases hbm : bracketMarker (pyStrip (paraText p)) with
    | some marker =>
      simp only [hbm]
      simp only [hbm] at hp2
      by_cases hkm : marker ∉ KNOWN_MARKERS
      · simp only [if_pos hkm]
        exact sim_same IM B1 s2 u2 _ _ h2
          ⟨h2.mir.so, h2.mir.co, h2.mir.cst, h2.mir.csi, h2.mir.cct,
           h2.mir.ccn, h2.mir.bo, h2.mir.qc, h2.mir.ia, h2.mir.agt,
           h2.mir.agl, h2.mir.cm, h2.mir.cb, h2.mir.cht, h2.mir.qsm,
           h2.mir.secs, h2.mir.chs, rfl⟩ rfl rfl rfl rfl rfl rfl
      · simp only [if_neg hkm]
        simp only [if_neg hkm] at hp2
        exact dispatchF_sim IM maxId B1 hIMle hndB1 hbt1 hinc1 s2 u2 p _ _
          h2 hs2 hi2 hp2
    | none =>
      simp only [hbm]
      simp only [hbm] at hp2
      exact dispatchF_sim IM maxId B1 hIMle hndB1 hbt1 hinc1 s2 u2 p _ _
        h2 hs2 hi2 hp2

theorem stepParaF_sim (IM : List Nat) (maxId : Nat) (B1 : List DocBlockF)
    (hIMle : ∀ a ∈ IM, a ≤ maxId)
    (hndB1 : (B1.map (fun b => b.blockId)).Nodup)
    (hbt1 : ∀ b ∈ B1, b.blockType ∈ BTYPES)
    (hinc1 : List.Pairwise (fun a b => a < b)
      ((B1.filter (fun b => b.chapterTitle = none)).map (fun b => b.blockOrder)))
    (s u : StF) (p : ParaF)
    (hsim : Sim IM B1 s u) (hsok : SyncOK maxId s)
    (hids : IdsInv maxId (fun a => a ∈ IM) s)
    (hpfx : List.IsPrefix (stepParaF s p).blocks B1) :
    Sim IM B1 (stepParaF s p) (stepParaF u p) := by
  by_cases hab : s.aborted.isSome = true
  · have habu : u.aborted.isSome = true := by rw [hsim.mir.ab]; exact hab
    rw [stepParaF_eq_abort s p hab, stepParaF_eq_abort u p habu]
    exact hsim
  · have habu : ¬ u.aborted.isSome = true := by rw [hsim.mir.ab]; exact hab
    cases hagg : s.aggType with
    | none =>
      have haggu : u.aggType = none := by rw [hsim.mir.agt, hagg]
      rw [stepParaF_eq_none s p hab hagg, stepParaF_eq_none u p habu haggu]
      rw [stepParaF_eq_none s p hab hagg] at hpfx
      exact restF_sim IM maxId B1 hIMle hndB1 hbt1 hinc1 p s u hsim hsok hids
        hpfx
    | some t =>
      have haggu : u.aggType = some t := by rw [hsim.mir.agt, hagg]
      by_cases hb : (pyStartsWith (pyStrip (paraText p)) "[S]" ||
          pyStartsWith (pyStrip (paraText p)) "[Ch]" ||
          pyStartsWith (pyStrip (paraText p)) "[N]" ||
          pyStartsWith (pyStrip (paraText p)) "[R]" ||
          pyStartsWith (pyStrip (paraText p)) "[T]" ||
          (matchChapter (pyStrip (paraText p)).data).isSome) = true
      · rw [stepParaF_eq_some_b s p t hab hagg hb,
          stepParaF_eq_some_b u p t habu haggu hb]
        rw [stepParaF_eq_some_b s p t hab hagg hb] at hpfx
        have hsok1 := (flushAggregateF_ss maxId IM hIMle s hsok).1
        have hids1 := flushAggregateF_idsInv maxId _ (fun x hx => hIMle x hx) s
          hids
        have hpfxAgg : List.IsPrefix (flushAggregateF s).blocks B1 :=
          (restF_bpfx maxId IM hIMle p (flushAggregateF s) hsok1).trans hpfx
        have h1 := flushAggregateF_sim IM maxId B1 hIMle hndB1 hbt1 hinc1 s u
          hsim hsok hids.a.rq hpfxAgg
        exact restF_sim IM maxId B1 hIMle hndB1 hbt1 hinc1 p
          (flushAggregateF s) (flushAggregateF u) h1 hsok1 hids1 hpfx
      · rw [stepParaF_eq_some_nb s p t hab hagg hb,
          stepParaF_eq_some_nb u p t habu haggu hb]
        refine sim_same IM B1 s u _ _ hsim
          ⟨hsim.mir.so, hsim.mir.co, hsim.mir.cst, hsim.mir.csi, hsim.mir.cct,
           hsim.mir.ccn, hsim.mir.bo, hsim.mir.qc, hsim.mir.ia, hsim.mir.agt,
           ?_, hsim.mir.cm, hsim.mir.cb, hsim.mir.cht, hsim.mir.qsm,
           hsim.mir.secs, hsim.mir.chs, hsim.mir.ab⟩ rfl rfl rfl rfl rfl rfl
        show u.aggLines ++ [paraText p] = s.aggLines ++ [paraText p]
        rw [hsim.mir.agl]

theorem initStF_sync (m0 : List ImageBlock) (maxId : Nat) :
    SyncOK maxId (initStF m0 maxId) := by
  refine ⟨?_, ?_, ?_, Nat.lt_succ_self maxId⟩
  · intro k b hb
    have hb2 : b ∈ alookupD (buildMap m0) k := hb
    rw [buildMap_groupD m0 k] at hb2
    simpa using List.of_mem_filter hb2
  · intro k b hb _
    have hb2 : b ∈ alookupD (buildMap m0) k := hb
    rw [buildMap_groupD m0 k] at hb2
    have hbm : b ∈ m0 := List.mem_of_mem_filter hb2
    show b ∈ alookupD (buildByChapter (buildMap m0)) b.chapterTitle
    exact (chapPool_mem _ _ _).mpr ⟨hbm, rfl⟩
  · intro c b hb
    have hb2 : b ∈ chapPoolOf m0 c := hb
    exact ((chapPool_mem _ _ _).mp hb2).2

theorem sim_init (IM : List Nat) (B1 : List DocBlockF) (m0 : List ImageBlock)
    (maxId maxId2 : Nat)
    (hnext : ∀ a ∈ IM, a < maxId2 + 1)
    (hav0 : ∀ r ∈ imRows IM (B1.drop ((initStF m0 maxId).blocks.length)),
      availIn (initStF m0 maxId) r) :
    Sim IM B1 (initStF m0 maxId) (initStF (imRows IM B1) maxId2) := by
  refine ⟨⟨rfl, rfl, rfl, rfl, rfl, rfl, rfl, rfl, rfl, rfl, rfl, rfl, rfl,
    rfl, rfl, rfl, rfl, rfl⟩, trivial, rfl, ?_, ?_, ?_, ?_, ?_, hav0⟩
  · intro a
    simp [initStF, initRecon, imRows]
  · intro k
    refine ⟨[], ?_, by intro b hb; simp at hb⟩
    have h2 : alookupD (initStF (imRows IM B1) maxId2).recon.imageMap k
        = (imRows IM B1).filter (fun b => b.key = k) := buildMap_groupD _ k
    rw [h2, List.nil_append]
  · intro c
    exact List.Sublist.refl (chapPoolOf (imRows IM B1) c)
  · intro r hr _
    show r ∈ alookupD (buildByChapter (buildMap (imRows IM B1))) r.chapterTitle
    exact (chapPool_mem _ _ _).mpr ⟨hr, rfl⟩
  · intro a ha
    exact hnext a ha

theorem simWalk (IM : List Nat) (maxId : Nat) (B1 : List DocBlockF)
    (hIMle : ∀ a ∈ IM, a ≤ maxId)
    (hndB1 : (B1.map (fun b => b.blockId)).Nodup)
    (hbt1 : ∀ b ∈ B1, b.blockType ∈ BTYPES)
    (hinc1 : List.Pairwise (fun a b => a < b)
      ((B1.filter (fun b => b.chapterTitle = none)).map (fun b => b.blockOrder))) :
    ∀ (doc : List ParaF) (s u : StF),
    Sim IM B1 s u → SyncOK maxId s → IdsInv maxId (fun a => a ∈ IM) s →
    (runTail s doc).blocks = B1 →
    Sim IM B1 (runTail s doc) (runTail u doc) := by
  intro doc
  induction doc with
  | nil =>
    intro s u hsim hsok hids hB
    simp only [runTail, List.foldl_nil] at hB ⊢
    by_cases hab : s.aborted.isSome = true
    · have habu : u.aborted.isSome = true := by rw [hsim.mir.ab]; exact hab
      rw [if_pos hab, if_pos habu]
      exact hsim
    · have habu : ¬ u.aborted.isSome = true := by rw [hsim.mir.ab]; exact hab
      rw [if_neg hab, if_neg habu]
      rw [if_neg hab] at hB
      have hpfxQ : List.IsPrefix (flushQAF (flushAggregateF s)).blocks B1 := by
        rw [← hB]
      have hsok1 := (flushAggregateF_ss maxId IM hIMle s hsok).1
      have hids1 := flushAggregateF_idsInv maxId _ (fun x hx => hIMle x hx) s hids
      have hpfxA : List.IsPrefix (flushAggregateF s).blocks B1 :=
        (flushQAF_bpfx (flushAggregateF s)).trans hpfxQ
      have h1 := flushAggregateF_sim IM maxId B1 hIMle hndB1 hbt1 hinc1 s u hsim
        hsok hids.a.rq hpfxA
      exact flushQAF_sim IM maxId B1 hIMle hndB1 hbt1 hinc1 _ _ h1 hsok1
        hids1.a.rq hpfxQ
  | cons p rest ih =>
    intro s u hsim hsok hids hB
    rw [runTail_cons] at hB
    rw [runTail_cons, runTail_cons]
    have hsok1 := (stepParaF_ss maxId IM hIMle s p hsok).1
    have hids1 := stepParaF_idsInv maxId _ (fun x hx => hIMle x hx) s p hids
    have hw := (runTail_ss maxId IM hIMle rest (stepParaF s p) hsok1).2
    have hpfx1 : List.IsPrefix (stepParaF s p).blocks B1 := by
      rw [← hB]
      exact hw.pfx
    have hstep := stepParaF_sim IM maxId B1 hIMle hndB1 hbt1 hinc1 s u p hsim
      hsok hids hpfx1
    exact ih (stepParaF s p) (stepParaF u p) hstep hsok1 hids1 hB

theorem runResultF_ok_full (doc : List ParaF) (m0 : List ImageBlock)
    (maxId : Nat) (s1 : StF) (h : runResultF doc m0 maxId = Except.ok s1) :
    s1 = traceF doc m0 maxId ∧ (traceF doc m0 maxId).aborted = none ∧
    missingImageIds m0 (traceF doc m0 maxId).recon.used = [] ∧
    validateF (traceF doc m0 maxId) = [] := by
  unfold runResultF at h
  cases hab : (traceF doc m0 maxId).aborted with
  | some e =>
    simp only [hab] at h
    exact Except.noConfusion h
  | none =>
    simp only [hab] at h
    by_cases hmiss : missingImageIds m0 (traceF doc m0 maxId).recon.used ≠ []
    · rw [if_pos hmiss] at h
      simp at h
    · rw [if_neg hmiss] at h
      by_cases hval : validateF (traceF doc m0 maxId) ≠ []
      · rw [if_pos hval] at h
        simp at h
      · rw [if_neg hval] at h
        exact ⟨(Except.ok.inj h).symm, rfl, not_not.mp hmiss, not_not.mp hval⟩

theorem runResultF_ok_build (doc : List ParaF) (m0 : List ImageBlock)
    (maxId : Nat)
    (hab : (traceF doc m0 maxId).aborted = none)
    (hmiss : missingImageIds m0 (traceF doc m0 maxId).recon.used = [])
    (hval : validateF (traceF doc m0 maxId) = []) :
    runResultF doc m0 maxId = Except.ok (traceF doc m0 maxId) := by
  unfold runResultF
  simp only [hab]
  rw [if_neg (not_not.mpr hmiss), if_neg (not_not.mpr hval)]

theorem validateF_transfer (IM : List Nat) (B1 : List DocBlockF) (s u : StF)
    (hsim : Sim IM B1 s u) (hv : validateF s = []) : validateF u = [] := by
  simp only [validateF] at hv ⊢
  rcases List.append_eq_nil.mp hv with ⟨hv12, hv3⟩
  rcases List.append_eq_nil.mp hv12 with ⟨hv1, hv2⟩
  split at hv1
  case isTrue => simp at hv1
  case isFalse hc1 =>
  split at hv2
  case isTrue => simp at hv2
  case isFalse hc2 =>
  split at hv3
  case isTrue => simp at hv3
  case isFalse hc3 =>
  split
  case isTrue hcu =>
    exfalso
    rw [hsim.mir.chs, hsim.mir.secs] at hcu
    exact hc1 hcu
  case isFalse =>
  rw [List.nil_append]
  split
  case isTrue hcu =>
    exfalso
    have hs2 : s.blocks.filter (fun b => decide (b.chapterTitle = none ∧
        b.blockType ∉ (["intro_heading", "intro_paragraph", "section"] :
          List String))) = [] := not_not.mp hc2
    have hp : ∀ b w, rowEqIM IM b w →
        (fun b => decide (b.chapterTitle = none ∧
          b.blockType ∉ (["intro_heading", "intro_paragraph", "section"] :
            List String))) w
        = (fun b => decide (b.chapterTitle = none ∧
          b.blockType ∉ (["intro_heading", "intro_paragraph", "section"] :
            List String))) b := by
      intro b w hbw
      simp only [hbw.2.1, hbw.2.2.2.1]
    have hiff := rowsMatch_filter_nil IM _ hp s.blocks u.blocks hsim.rmatch
    exact hcu (hiff.mpr hs2)
  case isFalse =>
  rw [List.nil_append]
  split
  case isTrue hcu =>
    exfalso
    apply hc3
    obtain ⟨t, htmem, htf⟩ := List.any_eq_true.mp hcu
    apply List.any_eq_true.mpr
    have htit := qProj_titles s.questions u.questions hsim.qpr
    refine ⟨t, ?_, ?_⟩
    · rw [← htit]
      exact htmem
    · simp only [decide_eq_true_eq] at htf ⊢
      rw [← qProj_nums t s.questions u.questions hsim.qpr]
      exact htf
  case isFalse => rfl

/-- C2: re-running the import against the store committed by a first successful
run succeeds again and assigns identical block identifiers to every
image-owning block, provided every attached image id references an existing
block of the original store. -/
theorem c2_reimport_idempotent (doc : List ParaF) (st st1 : Store)
    (hIM : ∀ a ∈ st.imageIds, a ∈ st.docBlocks.map (fun b => b.blockId))
    (h1 : runImport doc st = Except.ok st1) :
    ∃ st2 : Store, runImport doc st1 = Except.ok st2 ∧
      st2.imageIds = st1.imageIds ∧
      loadImageBlocks st2 = loadImageBlocks st1 := by
  unfold runImport at h1
  cases hres : runResultF doc (loadImageBlocks st) (maxBlockId st.docBlocks) with
  | error e =>
    rw [hres] at h1
    exact Except.noConfusion h1
  | ok s1c =>
    rw [hres] at h1
    have hst1 : st1 = ⟨s1c.blocks, st.imageIds⟩ := (Except.ok.inj h1).symm
    obtain ⟨hs1eq, hab1, hmiss1, hval1⟩ :=
      runResultF_ok_full doc _ _ s1c hres
    subst hs1eq
    subst hst1
    set m0 := loadImageBlocks st with hm0def
    set mx := maxBlockId st.docBlocks with hmxdef
    set s1 := traceF doc m0 mx with hs1def
    set m1 := imRows st.imageIds s1.blocks with hm1def
    set mx2 := maxBlockId s1.blocks with hmx2def
    have hIMle : ∀ a ∈ st.imageIds, a ≤ mx := by
      intro a ha
      obtain ⟨b, hb, hbid⟩ := List.mem_map.mp (hIM a ha)
      rw [← hbid]
      exact maxBlockId_ge st.docBlocks b hb
    have hm0Q : ∀ b ∈ m0, b.blockId ∈ st.imageIds := by
      intro b hb
      exact imRows_IM st.imageIds st.docBlocks b hb
    have hids_fin := traceF_idsInv mx (fun a => a ∈ st.imageIds)
      (fun x hx => hIMle x hx) doc m0 hm0Q
    have hndB1 : (s1.blocks.map (fun b => b.blockId)).Nodup := hids_fin.a.nodup
    have hbt1 : ∀ b ∈ s1.blocks, b.blockType ∈ BTYPES := hids_fin.a.btypes
    have hinc1 := hids_fin.a.noneInc
    have hIMused : ∀ a ∈ st.imageIds, a ∈ s1.recon.used := by
      intro a ha
      by_contra hnu
      obtain ⟨b, hb, hbid⟩ := List.mem_map.mp (hIM a ha)
      have hmm : imOf b ∈ m0 := by
        show imOf b ∈ imRows st.imageIds st.docBlocks
        refine (imRows_mem _ _ _).mpr ⟨b, hb, ?_, rfl⟩
        rw [hbid]
        simpa using ha
      have haid : a ∈ imageIdsOf m0 := by
        apply List.mem_dedup.mpr
        apply List.mem_map.mpr
        exact ⟨imOf b, hmm, hbid⟩
      have hmem : a ∈ missingImageIds m0 s1.recon.used := by
        apply List.mem_filter.mpr
        exact ⟨haid, by simpa using hnu⟩
      rw [hmiss1] at hmem
      simp at hmem
    have hnext2 : ∀ a ∈ st.imageIds, a < mx2 + 1 := by
      intro a ha
      have h2 := hids_fin.a.usedEmitted a (hIMused a ha)
      obtain ⟨b, hb, hbid⟩ := List.mem_map.mp h2
      have h3 := maxBlockId_ge s1.blocks b hb
      omega
    have hsok0 := initStF_sync m0 mx
    have hav0 := (runTail_ss mx st.imageIds hIMle doc (initStF m0 mx) hsok0).2.avail
    have hsim0 := sim_init st.imageIds s1.blocks m0 mx mx2 hnext2 hav0
    have hids0 := initStF_idsInv mx (fun a => a ∈ st.imageIds) m0 hm0Q
    have hsimfin := simWalk st.imageIds mx s1.blocks hIMle hndB1 hbt1 hinc1 doc
      (initStF m0 mx) (initStF m1 mx2) hsim0 hsok0 hids0 rfl
    have hab2 : (traceF doc m1 mx2).aborted = none := hsimfin.mir.ab.trans hab1
    have hmiss2 : missingImageIds m1 (traceF doc m1 mx2).recon.used = [] := by
      rw [List.eq_nil_iff_forall_not_mem]
      intro i hi
      have him := List.mem_of_mem_filter hi
      have hpu := List.of_mem_filter hi
      have him2 : i ∈ (imRows st.imageIds s1.blocks).map (fun b => b.blockId) :=
        List.mem_dedup.mp him
      have hused : i ∈ (traceF doc m1 mx2).recon.used := (hsimfin.uiff i).mpr him2
      simp at hpu
      exact hpu hused
    have hval2 : validateF (traceF doc m1 mx2) = [] :=
      validateF_transfer st.imageIds s1.blocks s1 (traceF doc m1 mx2)
        hsimfin hval1
    have hok2 := runResultF_ok_build doc m1 mx2 hab2 hmiss2 hval2
    refine ⟨⟨(traceF doc m1 mx2).blocks, st.imageIds⟩, ?_, rfl, ?_⟩
    · have hr2 : runResultF doc
          (loadImageBlocks ⟨s1.blocks, st.imageIds⟩)
          (maxBlockId (Store.mk s1.blocks st.imageIds).docBlocks)
          = Except.ok (traceF doc m1 mx2) := hok2
      unfold runImport
      rw [hr2]
      rfl
    · exact rowsMatch_imRows st.imageIds s1.blocks (traceF doc m1 mx2).blocks
        hsimfin.rmatch

/-- The document and the store used to instantiate C2: the store already
holds the blocks a first import would produce, and block 2 owns an image. -/
def docC2 : List ParaF :=
  [[⟨"Chapter 1", false, false⟩],
   [⟨"What is sin?", false, true⟩,
    ⟨"Sin is transgression of law.", false, false⟩]]

def storeC2 : Store :=
  ⟨[⟨1, none, some "Chapter 1", 1, "chapter", "Chapter 1", "Chapter 1"⟩,
    ⟨2, none, some "Chapter 1", 2, "question", "What is sin?", "What is sin?"⟩,
    ⟨3, none, some "Chapter 1", 3, "answer", "Sin is transgression of law.",
     "Sin is transgression of law."⟩],
   [2]⟩

/-- Witness for C2: re-importing `docC2` against the store committed by the
first run succeeds and preserves the image attachments and their rows. -/
theorem c2_reimport_idempotent_witness :
    ∃ st2 : Store, runImport docC2
        (⟨(traceF docC2 (loadImageBlocks storeC2)
            (maxBlockId storeC2.docBlocks)).blocks, storeC2.imageIds⟩ : Store)
        = Except.ok st2 ∧
      st2.imageIds = ((⟨(traceF docC2 (loadImageBlocks storeC2)
            (maxBlockId storeC2.docBlocks)).blocks,
          storeC2.imageIds⟩ : Store)).imageIds ∧
      loadImageBlocks st2 = loadImageBlocks
        (⟨(traceF docC2 (loadImageBlocks storeC2)
            (maxBlockId storeC2.docBlocks)).blocks, storeC2.imageIds⟩ : Store) :=
  c2_reimport_idempotent docC2 storeC2
    ⟨(traceF docC2 (loadImageBlocks storeC2)
        (maxBlockId storeC2.docBlocks)).blocks, storeC2.imageIds⟩
    (by decide) rfl

end BRHC
